import Mathlib

/-!
# Flipper tower defense: pathfinding, placement rules and wave parameters

A shallow embedding of `flipper_td.c`.  C `int` values are integers (`Int`),
C arrays are functions from their index, and loops are recursive functions.
A `float` value is the rational number it denotes.  `get_wave_params` is
parameterised by the arithmetic of its `int` and `float` operations: under
`machine_arithmetic` the `int` operations wrap around at 32 bits and the
`float` operations round to the nearest single-precision value; the
simulation tick reads the wave parameters, and updates its counters,
positions and velocities, with exact arithmetic (`exact_arithmetic`).

The header `flipper_td.h` is not part of the sources, so its compile-time
constants (`GRID_WIDTH`, `GRID_HEIGHT`, `MAX_ENEMIES`, ...) are parameters of
the definitions below.
-/

namespace FlipperTD

/-! ## Data model -/

/-- Tower kinds, the `TowerType` enumeration of the source. -/
inductive TowerType where
  | TOWER_NONE
  | TOWER_NORMAL
  | TOWER_RANGE
  | TOWER_SPLASH
  | TOWER_FREEZE
deriving DecidableEq, Repr

open TowerType

/-- Grid coordinate, the `Coord` struct of the source (two C `int`s). -/
structure Coord where
  x : Int
  y : Int
deriving DecidableEq, Repr

/-- The two-dimensional array `game->grid[x][y]`. -/
abbrev Grid := Int → Int → TowerType

/-- Array write `a[i] = v` on an array modelled as a function of its index. -/
def store {ι α : Type} [DecidableEq ι] (a : ι → α) (i : ι) (v : α) : ι → α :=
  fun j => if j = i then v else a j

/-- Array write `grid[x][y] = v`. -/
def Grid.set (g : Grid) (x y : Int) (v : TowerType) : Grid :=
  fun a b => if a = x ∧ b = y then v else g a b

/-- Helper of the source: `idx(x, y) = x * GRID_HEIGHT + y`. -/
def idx (GRID_HEIGHT : Nat) (x y : Int) : Int :=
  x * (GRID_HEIGHT : Int) + y

/-! ## Tower kind cycle -/

/-- Source `next_tower_type`: the `switch` over the current kind. -/
def next_tower_type (current : TowerType) : TowerType :=
  match current with
  | TOWER_NONE => TOWER_NORMAL
  | TOWER_NORMAL => TOWER_RANGE
  | TOWER_RANGE => TOWER_SPLASH
  | TOWER_SPLASH => TOWER_FREEZE
  | TOWER_FREEZE => TOWER_NONE

/-! ## Breadth-first search of `find_path` -/

/-- Local arrays and counters of `find_path`: `visited`, `parent`, `queue`,
`front` and `rear`. -/
structure BfsState where
  visited : Int → Bool
  parent : Int → Coord
  queue : Nat → Coord
  front : Nat
  rear : Nat

/-- The direction tables `dx[4] = {1, -1, 0, 0}` and `dy[4] = {0, 0, 1, -1}`,
paired by index. -/
def directions : List (Int × Int) := [(1, 0), (-1, 0), (0, 1), (0, -1)]

/-- Body of the `for(int i = 0; i < 4; i++)` loop of `find_path` for one
direction `d = (dx[i], dy[i])`. -/
def visit_neighbour (W H : Nat) (grid : Grid) (current : Coord) (s : BfsState)
    (d : Int × Int) : BfsState :=
  let nx := current.x + d.1
  let ny := current.y + d.2
  if nx < 0 ∨ nx ≥ (W : Int) ∨ ny < 0 ∨ ny ≥ (H : Int) then s
  else if (!s.visited (idx H nx ny)) && decide (grid nx ny = TOWER_NONE) then
    { s with
      visited := store s.visited (idx H nx ny) true
      parent := store s.parent (idx H nx ny) current
      queue := store s.queue s.rear ⟨nx, ny⟩
      rear := s.rear + 1 }
  else s

/-- The whole `for` loop over the four directions. -/
def expand (W H : Nat) (grid : Grid) (current : Coord) (s : BfsState) : BfsState :=
  directions.foldl (visit_neighbour W H grid current) s

/-- The `while(front < rear)` loop of `find_path`.  The first argument bounds
the number of iterations; `none` means the bound was reached before the loop
ended.  The result carries the flag `found` and the final arrays. -/
def bfs_loop (W H : Nat) (grid : Grid) (goal : Coord) :
    Nat → BfsState → Option (Bool × BfsState)
  | 0, _ => none
  | fuel + 1, s =>
    if s.front < s.rear then
      let current := s.queue s.front
      let s1 := { s with front := s.front + 1 }
      if current.x = goal.x ∧ current.y = goal.y then some (true, s1)
      else bfs_loop W H grid goal fuel (expand W H grid current s1)
    else some (false, s)

/-- The loop `while(step.x != -1 && step.y != -1)` of `find_path`, writing
`path[count++] = step` and moving to `parent[idx(step)]`.  The first argument
bounds the number of iterations; `none` means the bound was reached. -/
def walk_parents (H : Nat) (parent : Int → Coord) :
    Nat → Coord → (Nat → Coord) → Nat → Option ((Nat → Coord) × Nat)
  | 0, _, _, _ => none
  | fuel + 1, step, path, count =>
    if step.x ≠ -1 ∧ step.y ≠ -1 then
      walk_parents H parent fuel (parent (idx H step.x step.y)) (store path count step) (count + 1)
    else some (path, count)

/-- Body of the reversal loop: swap `path[i]` and `path[count - i - 1]`. -/
def swap_step (count : Nat) (path : Nat → Coord) (i : Nat) : Nat → Coord :=
  let temp := path i
  let path1 := store path i (path (count - i - 1))
  store path1 (count - i - 1) temp

/-- The loop `for(int i = 0; i < count / 2; i++)` reversing `path` in place. -/
def reverse_path (count : Nat) (path : Nat → Coord) : Nat → Coord :=
  (List.range (count / 2)).foldl (swap_step count) path

/-- Initial state of the search: `queue[rear++] = start`, `visited[idx(start)]
= true`, `parent[idx(start)] = (-1, -1)`; `visited` is cleared by `memset`.
The contents of `parent` and `queue` elsewhere are never read before being
written; they start as `(0, 0)`. -/
def bfs_init (H : Nat) (start : Coord) : BfsState :=
  { visited := store (fun _ => false) (idx H start.x start.y) true
    parent := store (fun _ => ⟨0, 0⟩) (idx H start.x start.y) ⟨-1, -1⟩
    queue := store (fun _ => ⟨0, 0⟩) 0 start
    front := 0
    rear := 1 }

/-- Source `find_path` on a grid of `W` columns and `H` rows (`GRID_WIDTH`,
`GRID_HEIGHT`), assuming the three `malloc` calls succeed.  `some (true, p)`
is the return value `true` with `p = path[0 .. *path_length - 1]`;
`some (false, [])` is the return value `false` (nothing is written to
`path`); `none` means one of the loops did not end within
`GRID_WIDTH * GRID_HEIGHT + 1` iterations. -/
def find_path (W H : Nat) (grid : Grid) (start goal : Coord) :
    Option (Bool × List Coord) :=
  let total_cells := W * H
  match bfs_loop W H grid goal (total_cells + 1) (bfs_init H start) with
  | none => none
  | some (false, _) => some (false, [])
  | some (true, s) =>
    match walk_parents H s.parent (total_cells + 1) goal (fun _ => ⟨0, 0⟩) 0 with
    | none => none
    | some (path, count) =>
      some (true, (List.range count).map (reverse_path count path))

/-! ## Routes on the grid (specification side) -/

/-- A cell lies inside the grid of `W` columns and `H` rows. -/
def InBounds (W H : Nat) (c : Coord) : Prop :=
  0 ≤ c.x ∧ c.x < (W : Int) ∧ 0 ≤ c.y ∧ c.y < (H : Int)

instance (W H : Nat) (c : Coord) : Decidable (InBounds W H c) := by
  unfold InBounds; infer_instance

/-- Cell `b` is one of the four direct neighbours of cell `a`. -/
def Adjacent (a b : Coord) : Prop :=
  (b.x = a.x + 1 ∧ b.y = a.y) ∨ (b.x = a.x - 1 ∧ b.y = a.y) ∨
  (b.x = a.x ∧ b.y = a.y + 1) ∨ (b.x = a.x ∧ b.y = a.y - 1)

instance (a b : Coord) : Decidable (Adjacent a b) := by
  unfold Adjacent; infer_instance

/-- One step of a route: from `a` to a direct neighbour `b` that lies inside
the grid and whose occupancy is `TOWER_NONE`. -/
def Step (W H : Nat) (grid : Grid) (a b : Coord) : Prop :=
  Adjacent a b ∧ InBounds W H b ∧ grid b.x b.y = TOWER_NONE

instance (W H : Nat) (grid : Grid) : DecidableRel (Step W H grid) := by
  intro a b; unfold Step; infer_instance

/-- The list `p` is a route from `start` to `goal`: it begins with `start`,
ends with `goal`, and every entry is followed by a cell entered by a `Step`.
The start cell itself is not entered, so its occupancy is not constrained. -/
def IsRoute (W H : Nat) (grid : Grid) (start goal : Coord) (p : List Coord) : Prop :=
  p.head? = some start ∧ p.getLast? = some goal ∧ List.Chain' (Step W H grid) p

/-- The goal can be reached from the start by 4-directional steps that stay
inside the grid and enter only cells whose occupancy is `TOWER_NONE`. -/
def Reachable (W H : Nat) (grid : Grid) (start goal : Coord) : Prop :=
  ∃ p, IsRoute W H grid start goal p

/-! ## `find_path` with every array access checked -/

/-- Reasons for which the checked run of `find_path` stops without a result:
an array was accessed outside its allocated size, or a loop did not end within
its iteration bound. -/
inductive Fault where
  | out_of_bounds
  | bound_reached
deriving DecidableEq, Repr

/-- Index `i` lies inside an array of `size` entries. -/
def in_array (size : Nat) (i : Int) : Prop :=
  0 ≤ i ∧ i < (size : Int)

instance (size : Nat) (i : Int) : Decidable (in_array size i) := by
  unfold in_array; infer_instance

/-- Body of the `for` loop of `find_path` as in `visit_neighbour`, with the
accesses `visited[idx(nx, ny)]`, `game->grid[nx][ny]`, `parent[idx(nx, ny)]`
and `queue[rear++]` checked: `visited`, `parent` and `queue` are allocated with
`total_cells = GRID_WIDTH * GRID_HEIGHT` entries, `grid` has `GRID_WIDTH` by
`GRID_HEIGHT` entries.  The grid is read only when the cell is not yet visited
(`&&` evaluates its right operand only then). -/
def visit_neighbour_checked (W H : Nat) (grid : Grid) (current : Coord) (s : BfsState)
    (d : Int × Int) : Except Fault BfsState :=
  let nx := current.x + d.1
  let ny := current.y + d.2
  if nx < 0 ∨ nx ≥ (W : Int) ∨ ny < 0 ∨ ny ≥ (H : Int) then Except.ok s
  else if ¬ in_array (W * H) (idx H nx ny) then Except.error Fault.out_of_bounds
  else if s.visited (idx H nx ny) = true then Except.ok s
  else if ¬ (in_array W nx ∧ in_array H ny) then Except.error Fault.out_of_bounds
  else if grid nx ny = TOWER_NONE then
    if ¬ in_array (W * H) (s.rear : Int) then Except.error Fault.out_of_bounds
    else Except.ok
      { s with
        visited := store s.visited (idx H nx ny) true
        parent := store s.parent (idx H nx ny) current
        queue := store s.queue s.rear ⟨nx, ny⟩
        rear := s.rear + 1 }
  else Except.ok s

/-- The `for` loop over the four directions, with checked accesses. -/
def expand_checked (W H : Nat) (grid : Grid) (current : Coord) (s : BfsState) :
    Except Fault BfsState :=
  directions.foldlM (visit_neighbour_checked W H grid current) s

/-- The `while(front < rear)` loop of `find_path` as in `bfs_loop`, with the
read `queue[front++]` and the accesses of the inner loop checked. -/
def bfs_loop_checked (W H : Nat) (grid : Grid) (goal : Coord) :
    Nat → BfsState → Except Fault (Bool × BfsState)
  | 0, _ => Except.error Fault.bound_reached
  | fuel + 1, s =>
    if s.front < s.rear then
      if ¬ in_array (W * H) (s.front : Int) then Except.error Fault.out_of_bounds
      else
        let current := s.queue s.front
        let s1 := { s with front := s.front + 1 }
        if current.x = goal.x ∧ current.y = goal.y then Except.ok (true, s1)
        else
          match expand_checked W H grid current s1 with
          | Except.error e => Except.error e
          | Except.ok s2 => bfs_loop_checked W H grid goal fuel s2
    else Except.ok (false, s)

/-- The statements before the search loop as in `bfs_init`, with the writes
`queue[rear++]` (at `rear = 0`), `visited[idx(start)]` and
`parent[idx(start)]` checked. -/
def bfs_init_checked (W H : Nat) (start : Coord) : Except Fault BfsState :=
  if in_array (W * H) 0 ∧ in_array (W * H) (idx H start.x start.y) then
    Except.ok (bfs_init H start)
  else Except.error Fault.out_of_bounds

/-- The parent walk of `find_path` as in `walk_parents`, with the write
`path[count++]` checked against the size `path_size` of the array passed by
the caller and the read `parent[idx(step)]` checked against `total_cells`. -/
def walk_parents_checked (W H path_size : Nat) (parent : Int → Coord) :
    Nat → Coord → (Nat → Coord) → Nat → Except Fault ((Nat → Coord) × Nat)
  | 0, _, _, _ => Except.error Fault.bound_reached
  | fuel + 1, step, path, count =>
    if step.x ≠ -1 ∧ step.y ≠ -1 then
      if ¬ in_array path_size (count : Int) then Except.error Fault.out_of_bounds
      else if ¬ in_array (W * H) (idx H step.x step.y) then Except.error Fault.out_of_bounds
      else
        walk_parents_checked W H path_size parent fuel (parent (idx H step.x step.y))
          (store path count step) (count + 1)
    else Except.ok (path, count)

/-- Body of the reversal loop as in `swap_step`, with the accesses `path[i]`
and `path[count - i - 1]` checked against the size of `path`. -/
def swap_step_checked (path_size count : Nat) (path : Nat → Coord) (i : Nat) :
    Except Fault (Nat → Coord) :=
  if in_array path_size (i : Int) ∧ in_array path_size ((count : Int) - (i : Int) - 1) then
    Except.ok (swap_step count path i)
  else Except.error Fault.out_of_bounds

/-- The reversal loop with checked accesses. -/
def reverse_path_checked (path_size count : Nat) (path : Nat → Coord) :
    Except Fault (Nat → Coord) :=
  (List.range (count / 2)).foldlM (swap_step_checked path_size count) path

/-- Source `find_path` as in `find_path`, with every array access checked.
`path_size` is the number of entries of the array `path` passed by the caller
(both callers pass an array of `GRID_WIDTH * GRID_HEIGHT` entries).  The
result is `Except.error` as soon as one access lies outside its array or one
loop does not end within `GRID_WIDTH * GRID_HEIGHT + 1` iterations. -/
def find_path_checked (W H path_size : Nat) (grid : Grid) (start goal : Coord) :
    Except Fault (Bool × List Coord) :=
  let total_cells := W * H
  match bfs_init_checked W H start with
  | Except.error e => Except.error e
  | Except.ok s0 =>
    match bfs_loop_checked W H grid goal (total_cells + 1) s0 with
    | Except.error e => Except.error e
    | Except.ok (false, _) => Except.ok (false, [])
    | Except.ok (true, s) =>
      match walk_parents_checked W H path_size s.parent (total_cells + 1) goal
          (fun _ => ⟨0, 0⟩) 0 with
      | Except.error e => Except.error e
      | Except.ok (path, count) =>
        match reverse_path_checked path_size count path with
        | Except.error e => Except.error e
        | Except.ok path1 => Except.ok (true, (List.range count).map path1)

/-- Outcome of the checked run that corresponds to an outcome of the plain
run: the same result, or the iteration bound reached. -/
def checked_of {α : Type} : Option α → Except Fault α
  | some r => Except.ok r
  | none => Except.error Fault.bound_reached

/-- The fault in which a checked run ended, if any. -/
def fault_of {α : Type} : Except Fault α → Option Fault
  | Except.error e => some e
  | Except.ok _ => none


/-! ## Machine arithmetic -/

/-- Value of a C `int` operation whose mathematical result is `v`: the result
reduced to the 32-bit two's-complement range, as the compiled code computes it
(wrap-around on overflow). -/
def wrap_int (v : Int) : Int :=
  (v + 2147483648) % 4294967296 - 2147483648

/-- Rounding of a rational to the nearest integer, ties to the even one. -/
def round_half_even (x : ℚ) : Int :=
  let f := ⌊x⌋
  let r := x - (f : ℚ)
  if r < 1 / 2 then f else if 1 / 2 < r then f + 1 else if f % 2 = 0 then f else f + 1

/-- Number of binary digits of `n`; the first argument bounds the recursion and
is passed as `n` itself. -/
def bit_length : Nat → Nat → Nat
  | 0, _ => 0
  | fuel + 1, n => if n = 0 then 0 else bit_length fuel (n / 2) + 1

/-- Binary exponent of a positive rational `q`: the integer `e` with
`2 ^ e ≤ q < 2 ^ (e + 1)`. -/
def binade (q : ℚ) : Int :=
  let e0 : Int := (bit_length q.num.natAbs q.num.natAbs : Int) - (bit_length q.den q.den : Int)
  if (2 : ℚ) ^ e0 ≤ q then e0 else e0 - 1

/-- The `float` nearest to the rational `q`: IEEE 754 single precision with 24
significant bits and least exponent `-126`, rounded to nearest, ties to even.
Overflow to infinity is not represented; it needs a magnitude of `2 ^ 128`,
which no value computed from an `int` reaches. -/
def to_float (q : ℚ) : ℚ :=
  if q = 0 then 0
  else
    let e := max (binade |q|) (-126)
    let ulp : ℚ := 2 ^ (e - 23)
    (round_half_even (q / ulp) : ℚ) * ulp

/-! ## Wave parameters -/

/-- Compile-time constants of `flipper_td.h`.  The header is not part of the
sources, so the constants are parameters of the model. -/
structure Config where
  GRID_WIDTH : Nat
  GRID_HEIGHT : Nat
  MAX_ENEMIES : Nat
  MAX_PROJECTILES : Nat
  PRE_WAVE_TICKS : Int

/-- The `Wave` struct of the source.  The `float` field `enemy_speed` holds
the rational number that the `float` value denotes. -/
structure Wave where
  wave_number : Int
  enemy_speed : ℚ
  enemy_hp : Int
  enemy_count : Int
  spawn_interval_ticks : Int

/-- Meaning of the arithmetic operations of `get_wave_params`: `int_result v`
is the value of an `int` operation whose mathematical result is `v`, and
`float_result q` is the value of a `float` literal, conversion or operation
whose mathematical result is `q`. -/
structure Arithmetic where
  int_result : Int → Int
  float_result : ℚ → ℚ

/-- The arithmetic of the compiled program: 32-bit `int` with wrap-around and
single-precision `float` rounded to nearest. -/
def machine_arithmetic : Arithmetic :=
  { int_result := wrap_int
    float_result := to_float }

/-- Arithmetic without overflow and without rounding. -/
def exact_arithmetic : Arithmetic :=
  { int_result := fun v => v
    float_result := fun q => q }

/-- Source `get_wave_params`.  In `0.20f + 0.05f * wave_number` the two
literals, the conversion of `wave_number` to `float`, the product and the sum
each yield a `float_result` (the product and the sum are two operations, not
one fused multiply-add); `3 + wave_number`, `wave_number + 2` and
`10 - w.wave_number` each yield an `int_result`. -/
def get_wave_params (ar : Arithmetic) (MAX_ENEMIES : Nat) (wave_number : Int) : Wave :=
  let enemy_speed : ℚ :=
    ar.float_result (ar.float_result (20 / 100)
      + ar.float_result (ar.float_result (5 / 100) * ar.float_result (wave_number : ℚ)))
  let enemy_hp := ar.int_result (3 + wave_number)
  let enemy_count0 := ar.int_result (wave_number + 2)
  let enemy_count := if enemy_count0 > (MAX_ENEMIES : Int) then (MAX_ENEMIES : Int) else enemy_count0
  let spawn_interval_ticks := if wave_number < 7 then ar.int_result (10 - wave_number) else 3
  { wave_number := wave_number
    enemy_speed := enemy_speed
    enemy_hp := enemy_hp
    enemy_count := enemy_count
    spawn_interval_ticks := spawn_interval_ticks }

/-! ## Game session state -/

/-- The `Enemy` struct of the source (`progress` is a `float`). -/
structure Enemy where
  active : Bool
  hp : Int
  pos : Coord
  path_index : Int
  progress : ℚ
  freeze_timer : Int

/-- The `Projectile` struct of the source (`x`, `y`, `vx`, `vy` are `float`s). -/
structure Projectile where
  active : Bool
  x : ℚ
  y : ℚ
  vx : ℚ
  vy : ℚ
  damage : Int
  tower_type : TowerType

/-- The `GameState` struct of the source. -/
structure GameState where
  lives : Int
  gold : Int
  wave : Int
  grid : Grid
  cursor : Coord
  enemies : Nat → Enemy
  projectiles : Nat → Projectile
  wave_spawn_index : Int
  pre_wave_timer : Int
  wave_spawn_timer : Int

/-- Source `spawn_wave`. -/
def spawn_wave (cfg : Config) (game : GameState) : GameState :=
  let wave_params := get_wave_params exact_arithmetic cfg.MAX_ENEMIES game.wave
  let enemies := (List.range cfg.MAX_ENEMIES).foldl
    (fun es i => store es i { es i with active := false }) game.enemies
  { game with
    enemies := enemies
    wave_spawn_index := 0
    pre_wave_timer := cfg.PRE_WAVE_TICKS
    wave_spawn_timer := wave_params.spawn_interval_ticks }

/-- The nested loops of `init_game_state` that set every cell of the grid to
`TOWER_NONE`. -/
def clear_grid (W H : Nat) (grid : Grid) : Grid :=
  (List.range W).foldl
    (fun (g : Grid) (x : Nat) =>
      (List.range H).foldl (fun (g : Grid) (y : Nat) => g.set (x : Int) (y : Int) TOWER_NONE) g)
    grid

/-- Source `init_game_state`, applied to the freshly allocated state `game`. -/
def init_game_state (cfg : Config) (game : GameState) : GameState :=
  let grid0 := clear_grid cfg.GRID_WIDTH cfg.GRID_HEIGHT game.grid
  let grid1 := grid0.set 2 2 TOWER_NORMAL
  let grid2 := grid1.set 4 2 TOWER_RANGE
  let grid3 := grid2.set 6 2 TOWER_SPLASH
  let grid4 := grid3.set 8 2 TOWER_FREEZE
  let enemies := (List.range cfg.MAX_ENEMIES).foldl
    (fun es i => store es i { es i with active := false }) game.enemies
  let projectiles := (List.range cfg.MAX_PROJECTILES).foldl
    (fun ps i => store ps i { ps i with active := false }) game.projectiles
  spawn_wave cfg
    { game with
      lives := 10
      gold := 100
      wave := 1
      grid := grid4
      cursor := ⟨0, 0⟩
      enemies := enemies
      projectiles := projectiles }

/-! ## Input handling -/

/-- The fixed start cell `(0, 0)` of the enemies. -/
def start_cell : Coord := ⟨0, 0⟩

/-- The fixed goal cell `(GRID_WIDTH - 1, GRID_HEIGHT - 1)`. -/
def goal_cell (cfg : Config) : Coord :=
  ⟨(cfg.GRID_WIDTH : Int) - 1, (cfg.GRID_HEIGHT : Int) - 1⟩

/-- The `InputKeyOk` branch of `flipper_td_app`: place, upgrade or sell a tower
at the cursor.  `none` only arises when `find_path` does not return. -/
def on_input_key_ok (cfg : Config) (game : GameState) : Option GameState :=
  let start : Coord := ⟨0, 0⟩
  let goal : Coord := ⟨(cfg.GRID_WIDTH : Int) - 1, (cfg.GRID_HEIGHT : Int) - 1⟩
  if game.grid game.cursor.x game.cursor.y = TOWER_NONE then
    if game.gold ≥ 10 then
      let game1 := { game with grid := game.grid.set game.cursor.x game.cursor.y TOWER_NORMAL }
      match find_path cfg.GRID_WIDTH cfg.GRID_HEIGHT game1.grid start goal with
      | none => none
      | some (true, _) => some { game1 with gold := game1.gold - 10 }
      | some (false, _) =>
        some { game1 with grid := game1.grid.set game.cursor.x game.cursor.y TOWER_NONE }
    else some game
  else
    let current := game.grid game.cursor.x game.cursor.y
    let new_type := next_tower_type current
    let game1 := { game with grid := game.grid.set game.cursor.x game.cursor.y new_type }
    if new_type ≠ TOWER_NONE then
      match find_path cfg.GRID_WIDTH cfg.GRID_HEIGHT game1.grid start goal with
      | none => none
      | some (false, _) =>
        some { game1 with grid := game1.grid.set game.cursor.x game.cursor.y current }
      | some (true, _) => some game1
    else some { game1 with gold := game1.gold + 5 }

/-- Keys of the host input source that the game reacts to. -/
inductive InputKey where
  | InputKeyUp
  | InputKeyDown
  | InputKeyLeft
  | InputKeyRight
  | InputKeyOk
  | InputKeyBack
deriving DecidableEq, Repr

open InputKey

/-- The `switch(event.input.key)` of `flipper_td_app` for a key press. -/
def on_key_press (cfg : Config) (game : GameState) (key : InputKey) : Option GameState :=
  match key with
  | InputKeyUp =>
    if game.cursor.y > 0 then some { game with cursor := ⟨game.cursor.x, game.cursor.y - 1⟩ }
    else some game
  | InputKeyDown =>
    if game.cursor.y < (cfg.GRID_HEIGHT : Int) - 1 then
      some { game with cursor := ⟨game.cursor.x, game.cursor.y + 1⟩ }
    else some game
  | InputKeyLeft =>
    if game.cursor.x > 0 then some { game with cursor := ⟨game.cursor.x - 1, game.cursor.y⟩ }
    else some game
  | InputKeyRight =>
    if game.cursor.x < (cfg.GRID_WIDTH : Int) - 1 then
      some { game with cursor := ⟨game.cursor.x + 1, game.cursor.y⟩ }
    else some game
  | InputKeyOk => on_input_key_ok cfg game
  | InputKeyBack => some game

/-- A sequence of key presses, handled one after the other. -/
def run_keys (cfg : Config) : List InputKey → GameState → Option GameState
  | [], game => some game
  | key :: keys, game =>
    match on_key_press cfg game key with
    | none => none
    | some game1 => run_keys cfg keys game1

/-- The call `find_path(game, start, end, ...)` on this grid returns `true`. -/
def PathExists (cfg : Config) (grid : Grid) : Prop :=
  Option.map Prod.fst (find_path cfg.GRID_WIDTH cfg.GRID_HEIGHT grid start_cell (goal_cell cfg))
    = some true

instance (cfg : Config) (grid : Grid) : Decidable (PathExists cfg grid) := by
  unfold PathExists; infer_instance

/-- Sequential writes `path[count++] = a` for the entries `a` of a list. -/
def write_list (path : Nat → Coord) (count : Nat) : List Coord → (Nat → Coord)
  | [] => path
  | a :: l => write_list (store path count a) (count + 1) l

/-! ## Simulation tick -/

/-- Pixel-space constants of `flipper_td.h` and the C library function
`sqrtf`.  The header is not part of the sources, so they are parameters of the
model; `sqrtf` acts on the rational model of `float`. -/
structure Display where
  STATUS_BAR_HEIGHT : Int
  CELL_SIZE : Int
  SCREEN_WIDTH : Int
  SCREEN_HEIGHT : Int
  PROJECTILE_SPEED : ℚ
  sqrtf : ℚ → ℚ

/-- Source `all_enemies_inactive`. -/
def all_enemies_inactive (cfg : Config) (game : GameState) : Bool :=
  (List.range cfg.MAX_ENEMIES).all (fun i => !(game.enemies i).active)

/-- The loop `while(progress >= 1.0f && path_index < global_path_length - 1)`
of `update_enemies` for one enemy, together with the counter `lives`.  The
first argument bounds the number of iterations; `none` means the bound was
reached.  `global_path[k]` is the entry `k` of the list returned by
`find_path`. -/
def advance_enemy (global_path : List Coord) (global_path_length : Int) :
    Nat → Enemy → Int → Option (Enemy × Int)
  | 0, _, _ => none
  | fuel + 1, e, lives =>
    if e.progress ≥ 1 ∧ e.path_index < global_path_length - 1 then
      let e1 := { e with progress := e.progress - 1 }
      let e2 := { e1 with path_index := e1.path_index + 1 }
      let e3 := { e2 with pos := global_path.getD e2.path_index.toNat ⟨0, 0⟩ }
      if e3.path_index = global_path_length - 1 then
        some ({ e3 with active := false }, lives - 1)
      else advance_enemy global_path global_path_length fuel e3 lives
    else some (e, lives)

/-- Body of the `for` loop of `update_enemies` for the enemy in slot `i`. -/
def update_enemy (valid_path : Bool) (global_path : List Coord) (global_path_length : Int)
    (enemy_speed : ℚ) (game : GameState) (i : Nat) : Option GameState :=
  if (game.enemies i).active then
    if (game.enemies i).freeze_timer > 0 then
      some { game with
        enemies := store game.enemies i
          { game.enemies i with freeze_timer := (game.enemies i).freeze_timer - 1 } }
    else if valid_path = true ∧ (game.enemies i).path_index < global_path_length - 1 then
      let e1 := { game.enemies i with progress := (game.enemies i).progress + enemy_speed }
      match advance_enemy global_path global_path_length
          ((global_path_length - 1 - e1.path_index).toNat + 1) e1 game.lives with
      | none => none
      | some (e2, lives) => some { game with enemies := store game.enemies i e2, lives := lives }
    else some game
  else some game

/-- Source `update_enemies`.  `none` only arises when `find_path` or the inner
`while` loop does not end. -/
def update_enemies (cfg : Config) (game : GameState) : Option GameState :=
  match find_path cfg.GRID_WIDTH cfg.GRID_HEIGHT game.grid ⟨0, 0⟩
      ⟨(cfg.GRID_WIDTH : Int) - 1, (cfg.GRID_HEIGHT : Int) - 1⟩ with
  | none => none
  | some (valid_path, global_path) =>
    let wave_params := get_wave_params exact_arithmetic cfg.MAX_ENEMIES game.wave
    (List.range cfg.MAX_ENEMIES).foldlM
      (update_enemy valid_path global_path (global_path.length : Int) wave_params.enemy_speed)
      game

/-- The loop `for(int p = 0; p < MAX_PROJECTILES; p++)` of `spawn_projectile`:
the first inactive slot from `p` on receives the new projectile, then the loop
breaks.  The first argument is the number of slots left to look at. -/
def claim_slot (proj : Projectile) : Nat → Nat → (Nat → Projectile) → (Nat → Projectile)
  | 0, _, ps => ps
  | n + 1, p, ps =>
    if (ps p).active = false then store ps p proj
    else claim_slot proj n (p + 1) ps

/-- The projectile that `spawn_projectile` writes into the free slot. -/
def new_projectile (dsp : Display) (tx ty : Int) (type : TowerType) (target : Coord) :
    Projectile :=
  let grid_top := dsp.STATUS_BAR_HEIGHT
  let tower_cx : ℚ := ((tx * dsp.CELL_SIZE : Int) : ℚ) + (dsp.CELL_SIZE : ℚ) / 2
  let tower_cy : ℚ := ((grid_top + ty * dsp.CELL_SIZE : Int) : ℚ) + (dsp.CELL_SIZE : ℚ) / 2
  let enemy_cx : ℚ := ((target.x * dsp.CELL_SIZE : Int) : ℚ) + (dsp.CELL_SIZE : ℚ) / 2
  let enemy_cy : ℚ := ((grid_top + target.y * dsp.CELL_SIZE : Int) : ℚ) + (dsp.CELL_SIZE : ℚ) / 2
  let dx := enemy_cx - tower_cx
  let dy := enemy_cy - tower_cy
  let dist0 := dsp.sqrtf (dx * dx + dy * dy)
  let dist := if dist0 = 0 then 1 else dist0
  let vx := dsp.PROJECTILE_SPEED * dx / dist
  let vy := dsp.PROJECTILE_SPEED * dy / dist
  { active := true
    x := tower_cx
    y := tower_cy
    vx := vx
    vy := vy
    damage := 1
    tower_type := type }

/-- Source `spawn_projectile`. -/
def spawn_projectile (dsp : Display) (cfg : Config) (game : GameState) (tx ty : Int)
    (type : TowerType) (target : Coord) : GameState :=
  { game with
    projectiles := claim_slot (new_projectile dsp tx ty type target) cfg.MAX_PROJECTILES 0
      game.projectiles }

/-- The `switch(tower)` of `update_tower_firing` that sets `tower_range`. -/
def tower_range (tower : TowerType) : Int :=
  match tower with
  | TOWER_NORMAL => 1
  | TOWER_RANGE => 2
  | _ => 1

/-- The test of `update_tower_firing` on enemy `i` for the tower at `(tx, ty)`:
the enemy is active and both axis offsets are within `tower_range`. -/
def in_range (game : GameState) (tx ty : Int) (tower_range : Int) (i : Nat) : Prop :=
  (game.enemies i).active = true ∧
  (((game.enemies i).pos.x - tx).natAbs : Int) ≤ tower_range ∧
  (((game.enemies i).pos.y - ty).natAbs : Int) ≤ tower_range

instance (game : GameState) (tx ty : Int) (tower_range : Int) (i : Nat) :
    Decidable (in_range game tx ty tower_range i) := by
  unfold in_range; infer_instance

/-- The loop `for(int i = 0; i < MAX_ENEMIES; i++)` of `update_tower_firing`:
fire at the first enemy in range from slot `i` on, then break.  The first
argument is the number of slots left to look at. -/
def fire_scan (dsp : Display) (cfg : Config) (tx ty : Int) (tower : TowerType) :
    Nat → Nat → GameState → GameState
  | 0, _, game => game
  | n + 1, i, game =>
    if in_range game tx ty (tower_range tower) i then
      spawn_projectile dsp cfg game tx ty tower (game.enemies i).pos
    else fire_scan dsp cfg tx ty tower n (i + 1) game

/-- Body of the two nested loops of `update_tower_firing` for the cell
`(tx, ty)`. -/
def fire_tower (dsp : Display) (cfg : Config) (game : GameState) (tx ty : Int) : GameState :=
  if game.grid tx ty ≠ TOWER_NONE then
    fire_scan dsp cfg tx ty (game.grid tx ty) cfg.MAX_ENEMIES 0 game
  else game

/-- Source `update_tower_firing`. -/
def update_tower_firing (dsp : Display) (cfg : Config) (game : GameState) : GameState :=
  (List.range cfg.GRID_WIDTH).foldl
    (fun (g : GameState) (tx : Nat) =>
      (List.range cfg.GRID_HEIGHT).foldl
        (fun (g : GameState) (ty : Nat) => fire_tower dsp cfg g (tx : Int) (ty : Int)) g)
    game

/-- Body of the splash loop `for(int j = 0; j < MAX_ENEMIES; j++)` of
`update_projectiles` for the enemy in slot `j`, the primary target being in
slot `i`. -/
def splash_enemy (i : Nat) (damage : Int) (enemies : Nat → Enemy) (j : Nat) : Nat → Enemy :=
  if (enemies j).active = true ∧
      (((enemies j).pos.x - (enemies i).pos.x).natAbs : Int) ≤ 1 ∧
      (((enemies j).pos.y - (enemies i).pos.y).natAbs : Int) ≤ 1 then
    store enemies j { enemies j with hp := (enemies j).hp - damage }
  else enemies

/-- What `update_projectiles` does when projectile `p` lies in the cell of
enemy `i`: base damage, the freeze effect, the splash loop, and the
deactivation of the projectile. -/
def hit_enemy (cfg : Config) (game : GameState) (p i : Nat) : GameState :=
  let damage := (game.projectiles p).damage
  let enemies1 := store game.enemies i { game.enemies i with hp := (game.enemies i).hp - damage }
  let enemies2 :=
    if (game.projectiles p).tower_type = TOWER_FREEZE then
      store enemies1 i { enemies1 i with freeze_timer := 3 }
    else enemies1
  let enemies3 :=
    if (game.projectiles p).tower_type = TOWER_SPLASH then
      (List.range cfg.MAX_ENEMIES).foldl (splash_enemy i damage) enemies2
    else enemies2
  { game with
    enemies := enemies3
    projectiles := store game.projectiles p { game.projectiles p with active := false } }

/-- The collision test of `update_projectiles`: enemy `i` is active and the
projectile `p` lies in the axis-aligned box of the enemy's grid cell. -/
def overlaps (dsp : Display) (game : GameState) (p i : Nat) : Prop :=
  (game.enemies i).active = true ∧
  (game.projectiles p).x ≥ (((game.enemies i).pos.x * dsp.CELL_SIZE : Int) : ℚ) ∧
  (game.projectiles p).x <
    (((game.enemies i).pos.x * dsp.CELL_SIZE + dsp.CELL_SIZE : Int) : ℚ) ∧
  (game.projectiles p).y ≥
    ((dsp.STATUS_BAR_HEIGHT + (game.enemies i).pos.y * dsp.CELL_SIZE : Int) : ℚ) ∧
  (game.projectiles p).y <
    ((dsp.STATUS_BAR_HEIGHT + (game.enemies i).pos.y * dsp.CELL_SIZE + dsp.CELL_SIZE : Int) : ℚ)

instance (dsp : Display) (game : GameState) (p i : Nat) : Decidable (overlaps dsp game p i) := by
  unfold overlaps; infer_instance

/-- The loop `for(int i = 0; i < MAX_ENEMIES; i++)` of `update_projectiles` for
the projectile `p`: the first overlapping enemy from slot `i` on is hit, then
the loop breaks.  The first argument is the number of slots left to look at. -/
def collide_scan (dsp : Display) (cfg : Config) (p : Nat) : Nat → Nat → GameState → GameState
  | 0, _, game => game
  | n + 1, i, game =>
    if overlaps dsp game p i then hit_enemy cfg game p i
    else collide_scan dsp cfg p n (i + 1) game

/-- The projectile `p` after `x += vx` and `y += vy`. -/
def moved (pr : Projectile) : Projectile :=
  { pr with x := pr.x + pr.vx, y := pr.y + pr.vy }

/-- The bounds test of `update_projectiles`: the projectile has left the
playfield. -/
def off_screen (dsp : Display) (pr : Projectile) : Prop :=
  pr.x < 0 ∨ pr.x ≥ (dsp.SCREEN_WIDTH : ℚ) ∨ pr.y < (dsp.STATUS_BAR_HEIGHT : ℚ) ∨
    pr.y ≥ (dsp.SCREEN_HEIGHT : ℚ)

instance (dsp : Display) (pr : Projectile) : Decidable (off_screen dsp pr) := by
  unfold off_screen; infer_instance

/-- Body of the loop `for(int p = 0; p < MAX_PROJECTILES; p++)` of
`update_projectiles` for the projectile in slot `p`. -/
def update_projectile (dsp : Display) (cfg : Config) (game : GameState) (p : Nat) : GameState :=
  if (game.projectiles p).active = true then
    let game1 := { game with projectiles := store game.projectiles p (moved (game.projectiles p)) }
    if off_screen dsp (game1.projectiles p) then
      { game1 with
        projectiles := store game1.projectiles p { game1.projectiles p with active := false } }
    else collide_scan dsp cfg p cfg.MAX_ENEMIES 0 game1
  else game

/-- The first loop of `update_projectiles`: every projectile moves and
resolves its collision. -/
def resolve_projectiles (dsp : Display) (cfg : Config) (game : GameState) : GameState :=
  (List.range cfg.MAX_PROJECTILES).foldl (update_projectile dsp cfg) game

/-- Body of the last loop of `update_projectiles` for the enemy in slot `i`. -/
def reap_enemy (game : GameState) (i : Nat) : GameState :=
  if (game.enemies i).active = true ∧ (game.enemies i).hp ≤ 0 then
    { game with
      enemies := store game.enemies i { game.enemies i with active := false }
      gold := game.gold + 5 }
  else game

/-- The last loop of `update_projectiles`: active enemies with `hp <= 0` are
deactivated and pay 5 gold each. -/
def reap_enemies (cfg : Config) (game : GameState) : GameState :=
  (List.range cfg.MAX_ENEMIES).foldl reap_enemy game

/-- Source `update_projectiles`. -/
def update_projectiles (dsp : Display) (cfg : Config) (game : GameState) : GameState :=
  reap_enemies cfg (resolve_projectiles dsp cfg game)

/-- The first part of the game logic updates of `flipper_td_app`: the pre-wave
countdown and the spawn of the next enemy.  The slot written is
`enemies[wave_spawn_index]`. -/
def spawn_step (cfg : Config) (game : GameState) : GameState :=
  if game.pre_wave_timer > 0 then
    { game with pre_wave_timer := game.pre_wave_timer - 1 }
  else
    let wave_params := get_wave_params exact_arithmetic cfg.MAX_ENEMIES game.wave
    if game.wave_spawn_index < wave_params.enemy_count then
      let game1 := { game with wave_spawn_timer := game.wave_spawn_timer - 1 }
      if game1.wave_spawn_timer ≤ 0 then
        let i := game1.wave_spawn_index
        let game2 := { game1 with wave_spawn_index := game1.wave_spawn_index + 1 }
        let enemy : Enemy :=
          { active := true
            hp := wave_params.enemy_hp
            pos := ⟨0, 0⟩
            path_index := 0
            progress := 0
            freeze_timer := 0 }
        { game2 with
          enemies := store game2.enemies i.toNat enemy
          wave_spawn_timer := wave_params.spawn_interval_ticks }
      else game1
    else game

/-- The test at the end of the game logic updates: every enemy of the wave has
been spawned and none is active. -/
def wave_cleared (cfg : Config) (game : GameState) : Prop :=
  game.wave_spawn_index ≥ (get_wave_params exact_arithmetic cfg.MAX_ENEMIES game.wave).enemy_count ∧
    all_enemies_inactive cfg game = true

instance (cfg : Config) (game : GameState) : Decidable (wave_cleared cfg game) := by
  unfold wave_cleared; infer_instance

/-- The last part of the game logic updates: `wave++` and `spawn_wave` once the
wave is cleared. -/
def wave_rollover (cfg : Config) (game : GameState) : GameState :=
  if wave_cleared cfg game then spawn_wave cfg { game with wave := game.wave + 1 }
  else game

/-- The game logic updates of one iteration of the main loop up to and
including `update_projectiles`. -/
def tick_updates (dsp : Display) (cfg : Config) (game : GameState) : Option GameState :=
  match update_enemies cfg (spawn_step cfg game) with
  | none => none
  | some game1 => some (update_projectiles dsp cfg (update_tower_firing dsp cfg game1))

/-- The game logic updates of one iteration of the main loop of
`flipper_td_app`. -/
def game_tick (dsp : Display) (cfg : Config) (game : GameState) : Option GameState :=
  match tick_updates dsp cfg game with
  | none => none
  | some game1 => some (wave_rollover cfg game1)

/-- One iteration of the main loop: the pending key press, if any, and then
the game logic updates. -/
def loop_iteration (dsp : Display) (cfg : Config) (game : GameState)
    (event : Option InputKey) : Option GameState :=
  match event with
  | none => game_tick dsp cfg game
  | some key =>
    match on_key_press cfg game key with
    | none => none
    | some game1 => game_tick dsp cfg game1

/-- A run of the main loop from `game`, one entry of the list per iteration. -/
def run_loop (dsp : Display) (cfg : Config) : List (Option InputKey) → GameState →
    Option GameState
  | [], game => some game
  | event :: events, game =>
    match loop_iteration dsp cfg game event with
    | none => none
    | some game1 => run_loop dsp cfg events game1

/-- The single state changes that make up a session: a key press and the five
parts of the game logic updates. -/
inductive GameStep where
  | key_press (key : InputKey)
  | spawn
  | enemies
  | firing
  | projectiles
  | rollover

/-- One state change. -/
def apply_step (dsp : Display) (cfg : Config) (game : GameState) (step : GameStep) :
    Option GameState :=
  match step with
  | GameStep.key_press key => on_key_press cfg game key
  | GameStep.spawn => some (spawn_step cfg game)
  | GameStep.enemies => update_enemies cfg game
  | GameStep.firing => some (update_tower_firing dsp cfg game)
  | GameStep.projectiles => some (update_projectiles dsp cfg game)
  | GameStep.rollover => some (wave_rollover cfg game)

/-- A sequence of state changes, applied one after the other. -/
def run_steps (dsp : Display) (cfg : Config) : List GameStep → GameState → Option GameState
  | [], game => some game
  | step :: steps, game =>
    match apply_step dsp cfg game step with
    | none => none
    | some game1 => run_steps dsp cfg steps game1

/-! ## Sample inputs -/

/-- A 3 x 3 grid with a `TOWER_NORMAL` on the cell `(1, 0)` and a
`TOWER_FREEZE` on the cell `(1, 1)`: the only way from the left column to the
right column is through `(1, 2)`. -/
def wall_grid : Grid :=
  fun x y =>
    if x = 1 ∧ y = 0 then TOWER_NORMAL
    else if x = 1 ∧ y = 1 then TOWER_FREEZE
    else TOWER_NONE

/-- The route that `find_path` returns on `wall_grid` from `(0, 0)` to `(2, 2)`. -/
def wall_route : List Coord := [⟨0, 0⟩, ⟨0, 1⟩, ⟨0, 2⟩, ⟨1, 2⟩, ⟨2, 2⟩]

/-- Constants for a 3 x 3 grid. -/
def small_cfg : Config :=
  { GRID_WIDTH := 3
    GRID_HEIGHT := 3
    MAX_ENEMIES := 4
    MAX_PROJECTILES := 4
    PRE_WAVE_TICKS := 20 }

/-- Constants for a 16 x 7 grid. -/
def wide_cfg : Config :=
  { GRID_WIDTH := 16
    GRID_HEIGHT := 7
    MAX_ENEMIES := 10
    MAX_PROJECTILES := 20
    PRE_WAVE_TICKS := 20 }

/-- A state with nothing on the grid, no gold and empty pools; it also stands
for the memory handed to `init_game_state`. -/
def blank_game : GameState :=
  { lives := 0
    gold := 0
    wave := 0
    grid := fun _ _ => TOWER_NONE
    cursor := ⟨0, 0⟩
    enemies := fun _ => ⟨false, 0, ⟨0, 0⟩, 0, 0, 0⟩
    projectiles := fun _ => ⟨false, 0, 0, 0, 0, 0, TOWER_NONE⟩
    wave_spawn_index := 0
    pre_wave_timer := 0
    wave_spawn_timer := 0 }

/-- A state on `wall_grid` with the given cursor and gold balance. -/
def wall_game (cursor : Coord) (gold : Int) : GameState :=
  { blank_game with grid := wall_grid, cursor := cursor, gold := gold }

/-- Pixel constants of a 128 x 64 screen with cells of 8 pixels below a status
bar of 8 pixels; `sqrtf` is the square root rounded down to a multiple of the
reciprocal of the denominator. -/
def sample_dsp : Display :=
  { STATUS_BAR_HEIGHT := 8
    CELL_SIZE := 8
    SCREEN_WIDTH := 128
    SCREEN_HEIGHT := 64
    PROJECTILE_SPEED := 2
    sqrtf := fun q => ((Nat.sqrt (q.num.toNat * q.den) : Nat) : ℚ) / (q.den : ℚ) }

/-- A state with an enemy `A` of the given `hp` on the cell `(1, 1)` in slot 0,
an enemy `B` with `hp = 5` on the cell `(2, 1)` in slot 1, and one projectile
of the given tower kind in slot 0 that moves from `(11, 19)` to `(12, 20)`, a
pixel of the cell `(1, 1)`. -/
def shot_game (kind : TowerType) (hp : Int) : GameState :=
  { blank_game with
    enemies := fun i =>
      if i = 0 then ⟨true, hp, ⟨1, 1⟩, 0, 0, 0⟩
      else if i = 1 then ⟨true, 5, ⟨2, 1⟩, 0, 0, 0⟩
      else ⟨false, 0, ⟨0, 0⟩, 0, 0, 0⟩
    projectiles := fun p =>
      if p = 0 then ⟨true, 11, 19, 1, 1, 1, kind⟩
      else ⟨false, 0, 0, 0, 0, 0, TOWER_NONE⟩ }

/-- The state after `update_enemies`, or the given state if the call does not
return. -/
def after_update_enemies (cfg : Config) (game : GameState) : GameState :=
  (update_enemies cfg game).getD game

/-- The state after a freeze projectile has hit enemy `A` of `shot_game`. -/
def frozen_game : GameState :=
  update_projectiles sample_dsp wide_cfg (shot_game TOWER_FREEZE 5)

/-- A state on `wall_grid` in wave 2 (speed 0.30) with three active enemies on
the route of five nodes: slot 0 one node before the goal with progress 0.9,
slot 1 at the start with progress 0.1, and slot 2 frozen one node before the
goal. -/
def breach_game : GameState :=
  { blank_game with
    grid := wall_grid
    wave := 2
    lives := 10
    gold := 40
    enemies := fun i =>
      if i = 0 then ⟨true, 4, ⟨1, 2⟩, 3, 9 / 10, 0⟩
      else if i = 1 then ⟨true, 4, ⟨0, 0⟩, 0, 1 / 10, 0⟩
      else if i = 2 then ⟨true, 4, ⟨1, 2⟩, 3, 9 / 10, 2⟩
      else ⟨false, 0, ⟨0, 0⟩, 0, 0, 0⟩ }

/-- Slot `i` is the first of the `n` slots of a pool that satisfies `P`. -/
def IsFirst (P : Nat → Prop) (n i : Nat) : Prop :=
  i < n ∧ P i ∧ ∀ j, j < i → ¬ P j

instance (P : Nat → Prop) [DecidablePred P] (n i : Nat) : Decidable (IsFirst P n i) := by
  unfold IsFirst; infer_instance

/-- What `update_tower_firing` leaves alone: everything but `projectiles`. -/
def ProjectilesOnly (g g' : GameState) : Prop :=
  g' = { g with projectiles := g'.projectiles }

/-- A state on `wall_grid` (towers on `(1, 0)` and `(1, 1)`) with an enemy out
of reach of the tower on `(1, 0)` in slot 0, an enemy within its reach in slot
1, a projectile in flight in slot 0 and all other slots free. -/
def tower_game : GameState :=
  { blank_game with
    grid := wall_grid
    enemies := fun i =>
      if i = 0 then ⟨true, 4, ⟨2, 2⟩, 0, 0, 0⟩
      else if i = 1 then ⟨true, 4, ⟨0, 1⟩, 0, 0, 0⟩
      else ⟨false, 0, ⟨0, 0⟩, 0, 0, 0⟩
    projectiles := fun p =>
      if p = 0 then ⟨true, 30, 30, 1, 1, 1, TOWER_NORMAL⟩
      else ⟨false, 0, 0, 0, 0, 0, TOWER_NONE⟩ }

/-- Invariant of a session: the cursor is on the grid, gold is not negative,
the wave number is at least 1, and no enemy of the wave has been spawned while
the pre-wave countdown runs. -/
structure SessionInv (cfg : Config) (g : GameState) : Prop where
  cursor : InBounds cfg.GRID_WIDTH cfg.GRID_HEIGHT g.cursor
  gold : 0 ≤ g.gold
  wave : 1 ≤ g.wave
  prewave : g.pre_wave_timer > 0 → g.wave_spawn_index = 0

/-- What the steps of the game logic other than the spawn step and the wave
rollover leave alone: cursor, wave number, spawn index and the two countdowns;
gold does not decrease. -/
structure TickFrame (g g' : GameState) : Prop where
  cursor : g'.cursor = g.cursor
  gold : g.gold ≤ g'.gold
  wave : g'.wave = g.wave
  wave_spawn_index : g'.wave_spawn_index = g.wave_spawn_index
  pre_wave_timer : g'.pre_wave_timer = g.pre_wave_timer
  wave_spawn_timer : g'.wave_spawn_timer = g.wave_spawn_timer

/-- A state on `wall_grid` in wave 1 whose three enemies have all been spawned
and none of which is active. -/
def cleared_game : GameState :=
  { blank_game with grid := wall_grid, wave := 1, wave_spawn_index := 3 }

/-- Two grids that differ at most on the cell `c`. -/
def AgreeOff (c : Coord) (g g' : Grid) : Prop :=
  ∀ a b, ¬ (a = c.x ∧ b = c.y) → g a b = g' a b

/-! ## Frames of the simulation steps -/

/-- What the projectile loop may change on an enemy: its `hp`, and its
`freeze_timer`, which can only be set to 3. -/
structure Damaged (e e' : Enemy) : Prop where
  active : e'.active = e.active
  pos : e'.pos = e.pos
  path_index : e'.path_index = e.path_index
  progress : e'.progress = e.progress
  timer : e'.freeze_timer = e.freeze_timer ∨ e'.freeze_timer = 3

/-- What the projectile loop may change on the state: the projectiles, and on
the enemies what `Damaged` allows. -/
structure DamageOnly (g g' : GameState) : Prop where
  lives : g'.lives = g.lives
  gold : g'.gold = g.gold
  wave : g'.wave = g.wave
  grid : g'.grid = g.grid
  cursor : g'.cursor = g.cursor
  wave_spawn_index : g'.wave_spawn_index = g.wave_spawn_index
  pre_wave_timer : g'.pre_wave_timer = g.pre_wave_timer
  wave_spawn_timer : g'.wave_spawn_timer = g.wave_spawn_timer
  enemies : ∀ i, Damaged (g.enemies i) (g'.enemies i)

/-- The number of enemy slots below `n` that are active in `es` and inactive
in `es'`. -/
def deactivated (n : Nat) (es es' : Nat → Enemy) : Nat :=
  (List.range n).countP (fun i => (es i).active && !(es' i).active)

/-- What `update_enemies` leaves alone: everything but `enemies` and `lives`. -/
structure EnemiesOnly (g g' : GameState) : Prop where
  gold : g'.gold = g.gold
  wave : g'.wave = g.wave
  grid : g'.grid = g.grid
  cursor : g'.cursor = g.cursor
  projectiles : g'.projectiles = g.projectiles
  wave_spawn_index : g'.wave_spawn_index = g.wave_spawn_index
  pre_wave_timer : g'.pre_wave_timer = g.pre_wave_timer
  wave_spawn_timer : g'.wave_spawn_timer = g.wave_spawn_timer

/-- What `update_enemies` does to one enemy, `e` before and `e'` after, on a
path of `len` nodes (`valid_path` tells whether `find_path` returned `true`). -/
structure EnemyMoved (valid_path : Bool) (len : Int) (e e' : Enemy) : Prop where
  hp : e'.hp = e.hp
  inactive : e.active = false → e' = e
  frozen : e.active = true → e.freeze_timer > 0 →
    e' = { e with freeze_timer := e.freeze_timer - 1 }
  breach : e.active = true → e'.active = false →
    valid_path = true ∧ e'.path_index = len - 1
  final : e.active = true → e'.path_index ≠ e.path_index → e'.path_index = len - 1 →
    e'.active = false

/-- The projectile `pr` lies in the box of the grid cell of the active enemy
`e`: the collision test of `update_projectiles` on the two records. -/
def cell_hit (dsp : Display) (e : Enemy) (pr : Projectile) : Prop :=
  e.active = true ∧
  pr.x ≥ ((e.pos.x * dsp.CELL_SIZE : Int) : ℚ) ∧
  pr.x < ((e.pos.x * dsp.CELL_SIZE + dsp.CELL_SIZE : Int) : ℚ) ∧
  pr.y ≥ ((dsp.STATUS_BAR_HEIGHT + e.pos.y * dsp.CELL_SIZE : Int) : ℚ) ∧
  pr.y < ((dsp.STATUS_BAR_HEIGHT + e.pos.y * dsp.CELL_SIZE + dsp.CELL_SIZE : Int) : ℚ)

instance (dsp : Display) (e : Enemy) (pr : Projectile) : Decidable (cell_hit dsp e pr) := by
  unfold cell_hit; infer_instance

/-- In the state `game`, the projectile in slot `p` hits the enemy in slot `i`
during `update_projectiles`: it is active, after its move it is still on the
playfield, and `i` is the first slot of the pool whose enemy it overlaps. -/
def FirstHit (dsp : Display) (cfg : Config) (game : GameState) (p i : Nat) : Prop :=
  p < cfg.MAX_PROJECTILES ∧ (game.projectiles p).active = true ∧
  ¬ off_screen dsp (moved (game.projectiles p)) ∧
  i < cfg.MAX_ENEMIES ∧ cell_hit dsp (game.enemies i) (moved (game.projectiles p)) ∧
  ∀ j, j < i → ¬ cell_hit dsp (game.enemies j) (moved (game.projectiles p))

instance (dsp : Display) (cfg : Config) (game : GameState) (p i : Nat) :
    Decidable (FirstHit dsp cfg game p i) := by
  unfold FirstHit; infer_instance

/-- The projectile in slot `p` is the only active projectile of the pool. -/
def OnlyProjectile (cfg : Config) (game : GameState) (p : Nat) : Prop :=
  ∀ q, q < cfg.MAX_PROJECTILES → q ≠ p → (game.projectiles q).active = false

instance (cfg : Config) (game : GameState) (p : Nat) : Decidable (OnlyProjectile cfg game p) := by
  unfold OnlyProjectile; infer_instance

/-- The test of the splash loop: the enemy in slot `j` is active and within one
cell of the enemy in slot `i` on both axes. -/
def SplashHit (enemies : Nat → Enemy) (i j : Nat) : Prop :=
  (enemies j).active = true ∧
  (((enemies j).pos.x - (enemies i).pos.x).natAbs : Int) ≤ 1 ∧
  (((enemies j).pos.y - (enemies i).pos.y).natAbs : Int) ≤ 1

instance (enemies : Nat → Enemy) (i j : Nat) : Decidable (SplashHit enemies i j) := by
  unfold SplashHit; infer_instance

/-- Chebyshev distance of two grid cells. -/
def chebyshev (a b : Coord) : Nat :=
  max (a.x - b.x).natAbs (a.y - b.y).natAbs

/-! ## Invariant of the search loop -/

/-- Invariant of the `while(front < rear)` loop of `find_path`.  `lev i` is
the depth of `queue[i]` in the tree of parents and `done` is the number of
queue entries whose four neighbours have all been examined. -/
structure BfsInv (W H : Nat) (grid : Grid) (start goal : Coord) (lev : Nat → Nat)
    (done : Nat) (s : BfsState) : Prop where
  front_le : s.front ≤ s.rear
  done_le : done ≤ s.front
  rear_pos : 0 < s.rear
  q0 : s.queue 0 = start
  inb : ∀ i, i < s.rear → InBounds W H (s.queue i)
  vis : ∀ c, InBounds W H c →
    (s.visited (idx H c.x c.y) = true ↔ ∃ i, i < s.rear ∧ s.queue i = c)
  inj : ∀ i j, i < s.rear → j < s.rear → s.queue i = s.queue j → i = j
  par0 : s.parent (idx H start.x start.y) = ⟨-1, -1⟩
  par : ∀ i, 0 < i → i < s.rear → ∃ j, j < i ∧ j < s.front ∧
    s.parent (idx H (s.queue i).x (s.queue i).y) = s.queue j ∧
    Step W H grid (s.queue j) (s.queue i) ∧ lev i = lev j + 1
  lev0 : lev 0 = 0
  mono : ∀ i j, i ≤ j → j < s.rear → lev i ≤ lev j
  closed : ∀ j, j < done → ∀ c, Step W H grid (s.queue j) c →
    ∃ i, i < s.rear ∧ s.queue i = c ∧ lev i ≤ lev j + 1
  notgoal : ∀ j, j < done → s.queue j ≠ goal

/-- Invariant of the inner `for` loop while the neighbours of `queue[done]`
are examined: the directions in `ds` have been dealt with. -/
structure ExpandInv (W H : Nat) (grid : Grid) (start goal : Coord) (lev : Nat → Nat)
    (done : Nat) (cur : Coord) (ds : List (Int × Int)) (s : BfsState) : Prop where
  base : BfsInv W H grid start goal lev done s
  front_eq : s.front = done + 1
  cur_eq : s.queue done = cur
  handled : ∀ d, d ∈ ds → InBounds W H ⟨cur.x + d.1, cur.y + d.2⟩ →
    grid (cur.x + d.1) (cur.y + d.2) = TOWER_NONE →
    ∃ i, i < s.rear ∧ s.queue i = ⟨cur.x + d.1, cur.y + d.2⟩ ∧ lev i ≤ lev done + 1

/-! ## Arrays as functions -/

theorem store_same {ι α : Type} [DecidableEq ι] (a : ι → α) (i : ι) (v : α) :
    store a i v i = v := by
  simp [store]

theorem store_ne {ι α : Type} [DecidableEq ι] (a : ι → α) (i j : ι) (v : α) (h : j ≠ i) :
    store a i v j = a j := by
  simp [store, h]

theorem coord_ext (a b : Coord) (hx : a.x = b.x) (hy : a.y = b.y) : a = b := by
  obtain ⟨ax, ay⟩ := a
  obtain ⟨bx, byy⟩ := b
  simp only at hx hy
  rw [hx, hy]

theorem idx_inj (W H : Nat) (a b : Coord) (ha : InBounds W H a) (hb : InBounds W H b)
    (h : idx H a.x a.y = idx H b.x b.y) : a = b := by
  obtain ⟨ax, ay⟩ := a
  obtain ⟨bx, byy⟩ := b
  simp only [InBounds, idx] at ha hb h
  have hx : ax = bx := by
    rcases lt_trichotomy ax bx with hlt | heq | hgt
    · exfalso
      have h1 : (ax + 1) * (H : Int) ≤ bx * (H : Int) :=
        Int.mul_le_mul_of_nonneg_right (by omega) (by omega)
      have h2 : (ax + 1) * (H : Int) = ax * (H : Int) + H := by ring
      omega
    · exact heq
    · exfalso
      have h1 : (bx + 1) * (H : Int) ≤ ax * (H : Int) :=
        Int.mul_le_mul_of_nonneg_right (by omega) (by omega)
      have h2 : (bx + 1) * (H : Int) = bx * (H : Int) + H := by ring
      omega
  subst hx
  have hy : ay = byy := by omega
  subst hy
  rfl

theorem idx_range (W H : Nat) (c : Coord) (hc : InBounds W H c) :
    0 ≤ idx H c.x c.y ∧ idx H c.x c.y < ((W * H : Nat) : Int) := by
  obtain ⟨cx, cy⟩ := c
  simp only [InBounds, idx] at hc ⊢
  have h0 : 0 ≤ cx * (H : Int) := Int.mul_nonneg hc.1 (by omega)
  have h1 : (cx + 1) * (H : Int) ≤ (W : Int) * (H : Int) :=
    Int.mul_le_mul_of_nonneg_right (by omega) (by omega)
  have h2 : (cx + 1) * (H : Int) = cx * (H : Int) + H := by ring
  push_cast
  constructor
  · omega
  · omega

/-- The queue holds pairwise different cells of the grid, so it never holds
more than `W * H` entries. -/
theorem BfsInv.rear_le {W H : Nat} {grid : Grid} {start goal : Coord} {lev : Nat → Nat}
    {done : Nat} {s : BfsState} (h : BfsInv W H grid start goal lev done s) :
    s.rear ≤ W * H := by
  have hcard : (Finset.range s.rear).card ≤ (Finset.range (W * H)).card :=
    Finset.card_le_card_of_injOn
    (fun i => (idx H (s.queue i).x (s.queue i).y).toNat)
    (by
      intro i hi
      have hi' : i < s.rear := by simpa using hi
      have hr := idx_range W H _ (h.inb i hi')
      exact Finset.mem_range.2 ((Int.toNat_lt hr.1).2 hr.2))
    (by
      intro i hi j hj hij
      have hi' : i < s.rear := by simpa using hi
      have hj' : j < s.rear := by simpa using hj
      have hri := idx_range W H _ (h.inb i hi')
      have hrj := idx_range W H _ (h.inb j hj')
      simp only at hij
      have : idx H (s.queue i).x (s.queue i).y = idx H (s.queue j).x (s.queue j).y := by
        omega
      exact h.inj i j hi' hj' (idx_inj W H _ _ (h.inb i hi') (h.inb j hj') this))
  simpa using hcard

/-! ## The inner loop keeps the invariant -/

theorem adjacent_of_direction (cur : Coord) (d : Int × Int) (hd : d ∈ directions) :
    Adjacent cur ⟨cur.x + d.1, cur.y + d.2⟩ := by
  simp only [directions, List.mem_cons, List.mem_singleton, List.not_mem_nil, or_false] at hd
  rcases hd with rfl | rfl | rfl | rfl <;> simp [Adjacent] <;> omega

theorem direction_of_adjacent (a b : Coord) (h : Adjacent a b) :
    ∃ d, d ∈ directions ∧ b = ⟨a.x + d.1, a.y + d.2⟩ := by
  obtain ⟨bx, byy⟩ := b
  simp only [Adjacent] at h
  rcases h with ⟨h1, h2⟩ | ⟨h1, h2⟩ | ⟨h1, h2⟩ | ⟨h1, h2⟩
  · exact ⟨(1, 0), by simp [directions], by simp [h1, h2]⟩
  · exact ⟨(-1, 0), by simp [directions], by simp [h1, h2]; omega⟩
  · exact ⟨(0, 1), by simp [directions], by simp [h1, h2]⟩
  · exact ⟨(0, -1), by simp [directions], by simp [h1, h2]; omega⟩

/-- A cell already in the queue while `queue[done]` is examined has depth at
most one more than `queue[done]`. -/
theorem ExpandInv.lev_le {W H : Nat} {grid : Grid} {start goal : Coord} {lev : Nat → Nat}
    {done : Nat} {cur : Coord} {ds : List (Int × Int)} {s : BfsState}
    (h : ExpandInv W H grid start goal lev done cur ds s) (i : Nat) (hi : i < s.rear) :
    lev i ≤ lev done + 1 := by
  have hb := h.base
  have hdone : done < s.rear := by
    have h1 := hb.front_le
    have h2 := h.front_eq
    omega
  rcases Nat.eq_zero_or_pos i with h0 | hpos
  · subst h0
    rw [hb.lev0]
    omega
  · obtain ⟨j, _, hjf, _, _, hlev⟩ := hb.par i hpos hi
    have hjd : j ≤ done := by
      have h2 := h.front_eq
      omega
    have := hb.mono j done hjd hdone
    omega

theorem visit_neighbour_inv {W H : Nat} {grid : Grid} {start goal : Coord} {lev : Nat → Nat}
    {done : Nat} {cur : Coord} {ds : List (Int × Int)} {s : BfsState}
    (d : Int × Int) (hd : d ∈ directions)
    (h : ExpandInv W H grid start goal lev done cur ds s) :
    ∃ lev', ExpandInv W H grid start goal lev' done cur (d :: ds)
      (visit_neighbour W H grid cur s d) := by
  have hb := h.base
  have hfe := h.front_eq
  have hdone : done < s.rear := by
    have h1 := hb.front_le
    omega
  unfold visit_neighbour
  simp only
  by_cases hoob : cur.x + d.1 < 0 ∨ cur.x + d.1 ≥ (W : Int) ∨ cur.y + d.2 < 0 ∨
      cur.y + d.2 ≥ (H : Int)
  · rw [if_pos hoob]
    refine ⟨lev, h.base, h.front_eq, h.cur_eq, ?_⟩
    intro d' hd' hin hfree
    rcases List.mem_cons.1 hd' with rfl | hmem
    · exfalso
      simp only [InBounds] at hin
      omega
    · exact h.handled d' hmem hin hfree
  · rw [if_neg hoob]
    have hin : InBounds W H ⟨cur.x + d.1, cur.y + d.2⟩ := by
      simp only [InBounds]
      omega
    by_cases hc : ((!s.visited (idx H (cur.x + d.1) (cur.y + d.2))) &&
        decide (grid (cur.x + d.1) (cur.y + d.2) = TOWER_NONE)) = true
    · rw [if_pos hc]
      simp only [Bool.and_eq_true, Bool.not_eq_true', decide_eq_true_eq] at hc
      obtain ⟨hnv, hfree⟩ := hc
      have hnq : ∀ i, i < s.rear → s.queue i ≠ ⟨cur.x + d.1, cur.y + d.2⟩ := by
        intro i hi heq
        have hv := (hb.vis _ hin).2 ⟨i, hi, heq⟩
        simp only at hv
        rw [hnv] at hv
        exact Bool.false_ne_true hv
      have hidx : ∀ i, i < s.rear →
          idx H (s.queue i).x (s.queue i).y ≠ idx H (cur.x + d.1) (cur.y + d.2) := by
        intro i hi heq
        exact hnq i hi (idx_inj W H _ _ (hb.inb i hi) hin heq)
      have hq : ∀ i, i < s.rear → store s.queue s.rear ⟨cur.x + d.1, cur.y + d.2⟩ i
          = s.queue i := by
        intro i hi
        exact store_ne _ _ _ _ (by omega)
      have hl : ∀ i, i < s.rear → store lev s.rear (lev done + 1) i = lev i := by
        intro i hi
        exact store_ne _ _ _ _ (by omega)
      refine ⟨store lev s.rear (lev done + 1), ?_, ?_, ?_, ?_⟩
      · constructor
        · show s.front ≤ s.rear + 1
          have := hb.front_le
          omega
        · exact hb.done_le
        · show 0 < s.rear + 1
          omega
        · show store s.queue s.rear _ 0 = start
          rw [hq 0 hb.rear_pos]
          exact hb.q0
        · intro i hi
          show InBounds W H (store s.queue s.rear _ i)
          have hi' : i < s.rear + 1 := hi
          rcases Nat.lt_succ_iff_lt_or_eq.1 hi' with hlt | heq
          · rw [hq i hlt]
            exact hb.inb i hlt
          · subst heq
            rw [store_same]
            exact hin
        · intro c hcin
          show store s.visited _ true (idx H c.x c.y) = true ↔
            ∃ i, i < s.rear + 1 ∧ store s.queue s.rear _ i = c
          by_cases hcn : c = ⟨cur.x + d.1, cur.y + d.2⟩
          · subst hcn
            simp only [store_same, true_iff]
            exact ⟨s.rear, by omega, store_same _ _ _⟩
          · have hne : idx H c.x c.y ≠ idx H (cur.x + d.1) (cur.y + d.2) := by
              intro heq
              exact hcn (idx_inj W H _ _ hcin hin heq)
            rw [store_ne _ _ _ _ hne, hb.vis c hcin]
            constructor
            · rintro ⟨i, hi, hqi⟩
              exact ⟨i, by omega, by rw [hq i hi]; exact hqi⟩
            · rintro ⟨i, hi, hqi⟩
              rcases Nat.lt_succ_iff_lt_or_eq.1 hi with hlt | heq
              · exact ⟨i, hlt, by rw [hq i hlt] at hqi; exact hqi⟩
              · subst heq
                rw [store_same] at hqi
                exact absurd hqi.symm hcn
        · intro i j hi hj hij
          have hi' : i < s.rear + 1 := hi
          have hj' : j < s.rear + 1 := hj
          change store s.queue s.rear _ i = store s.queue s.rear _ j at hij
          rcases Nat.lt_succ_iff_lt_or_eq.1 hi' with hilt | hieq
          · rcases Nat.lt_succ_iff_lt_or_eq.1 hj' with hjlt | hjeq
            · rw [hq i hilt, hq j hjlt] at hij
              exact hb.inj i j hilt hjlt hij
            · subst hjeq
              rw [hq i hilt, store_same] at hij
              exact absurd hij (hnq i hilt)
          · rcases Nat.lt_succ_iff_lt_or_eq.1 hj' with hjlt | hjeq
            · subst hieq
              rw [hq j hjlt, store_same] at hij
              exact absurd hij.symm (hnq j hjlt)
            · omega
        · show store s.parent _ cur (idx H start.x start.y) = ⟨-1, -1⟩
          have h0 := hidx 0 hb.rear_pos
          rw [hb.q0] at h0
          rw [store_ne _ _ _ _ h0]
          exact hb.par0
        · intro i hpos hi
          have hi' : i < s.rear + 1 := hi
          show ∃ j, j < i ∧ j < s.front ∧
            store s.parent _ cur (idx H (store s.queue s.rear _ i).x
              (store s.queue s.rear _ i).y) = store s.queue s.rear _ j ∧
            Step W H grid (store s.queue s.rear _ j) (store s.queue s.rear _ i) ∧
            store lev s.rear (lev done + 1) i = store lev s.rear (lev done + 1) j + 1
          rcases Nat.lt_succ_iff_lt_or_eq.1 hi' with hlt | heq
          · obtain ⟨j, hji, hjf, hp, hstep, hlev⟩ := hb.par i hpos hlt
            have hjr : j < s.rear := by omega
            refine ⟨j, hji, hjf, ?_, ?_, ?_⟩
            · rw [hq i hlt, hq j hjr, store_ne _ _ _ _ (hidx i hlt)]
              exact hp
            · rw [hq i hlt, hq j hjr]
              exact hstep
            · rw [hl i hlt, hl j hjr]
              exact hlev
          · subst heq
            refine ⟨done, hdone, by omega, ?_, ?_, ?_⟩
            · rw [store_same, hq done hdone, store_same]
              exact h.cur_eq.symm
            · rw [store_same, hq done hdone, h.cur_eq]
              exact ⟨adjacent_of_direction cur d hd, hin, hfree⟩
            · rw [store_same, hl done hdone]
        · show store lev s.rear (lev done + 1) 0 = 0
          rw [hl 0 hb.rear_pos]
          exact hb.lev0
        · intro i j hij hj
          have hj' : j < s.rear + 1 := hj
          show store lev s.rear (lev done + 1) i ≤ store lev s.rear (lev done + 1) j
          rcases Nat.lt_succ_iff_lt_or_eq.1 hj' with hlt | heq
          · rw [hl i (by omega), hl j hlt]
            exact hb.mono i j hij hlt
          · subst heq
            rw [store_same]
            rcases Nat.lt_or_ge i s.rear with hilt | hige
            · rw [hl i hilt]
              exact h.lev_le i hilt
            · have : i = s.rear := by omega
              subst this
              rw [store_same]
        · intro j hj c hstep
          have hjr : j < s.rear := by
            have := hb.done_le
            omega
          change Step W H grid (store s.queue s.rear _ j) c at hstep
          rw [hq j hjr] at hstep
          obtain ⟨i, hi, hqi, hlev⟩ := hb.closed j hj c hstep
          refine ⟨i, Nat.lt_succ_of_lt hi, ?_, ?_⟩
          · show store s.queue s.rear _ i = c
            rw [hq i hi]
            exact hqi
          · rw [hl i hi, hl j hjr]
            exact hlev
        · intro j hj
          have hjr : j < s.rear := by
            have := hb.done_le
            omega
          show store s.queue s.rear _ j ≠ goal
          rw [hq j hjr]
          exact hb.notgoal j hj
      · exact hfe
      · show store s.queue s.rear _ done = cur
        rw [hq done hdone]
        exact h.cur_eq
      · intro d' hd' hin' hfree'
        show ∃ i, i < s.rear + 1 ∧ store s.queue s.rear _ i = _ ∧
          store lev s.rear (lev done + 1) i ≤ store lev s.rear (lev done + 1) done + 1
        rcases List.mem_cons.1 hd' with rfl | hmem
        · refine ⟨s.rear, by omega, store_same _ _ _, ?_⟩
          rw [store_same, hl done hdone]
        · obtain ⟨i, hi, hqi, hlev⟩ := h.handled d' hmem hin' hfree'
          refine ⟨i, Nat.lt_succ_of_lt hi, ?_, ?_⟩
          · rw [hq i hi]
            exact hqi
          · rw [hl i hi, hl done hdone]
            exact hlev
    · rw [if_neg hc]
      refine ⟨lev, h.base, h.front_eq, h.cur_eq, ?_⟩
      intro d' hd' hin' hfree'
      rcases List.mem_cons.1 hd' with rfl | hmem
      · have hv : s.visited (idx H (cur.x + d'.1) (cur.y + d'.2)) = true := by
          simp only [Bool.and_eq_true, Bool.not_eq_true', decide_eq_true_eq, not_and] at hc
          by_contra hnv
          exact hc (by simpa using hnv) hfree'
        obtain ⟨i, hi, hqi⟩ := (hb.vis _ hin').1 hv
        exact ⟨i, hi, hqi, h.lev_le i hi⟩
      · exact h.handled d' hmem hin' hfree'

theorem foldl_visit_inv {W H : Nat} {grid : Grid} {start goal : Coord} {done : Nat}
    {cur : Coord} (l : List (Int × Int)) (hl : ∀ d, d ∈ l → d ∈ directions) :
    ∀ (ds : List (Int × Int)) (s : BfsState) (lev : Nat → Nat),
      ExpandInv W H grid start goal lev done cur ds s →
      ∃ lev' ds', ExpandInv W H grid start goal lev' done cur ds'
          (l.foldl (visit_neighbour W H grid cur) s) ∧
        (∀ d, d ∈ ds → d ∈ ds') ∧ (∀ d, d ∈ l → d ∈ ds') := by
  induction l with
  | nil =>
    intro ds s lev h
    exact ⟨lev, ds, h, fun _ hd => hd, fun _ hd => absurd hd (List.not_mem_nil _)⟩
  | cons d l ih =>
    intro ds s lev h
    obtain ⟨lev1, h1⟩ := visit_neighbour_inv d (hl d (List.mem_cons_self d l)) h
    obtain ⟨lev2, ds2, h2, hsub, hmem⟩ :=
      ih (fun e he => hl e (List.mem_cons_of_mem d he)) (d :: ds) _ lev1 h1
    refine ⟨lev2, ds2, ?_, ?_, ?_⟩
    · simpa [List.foldl_cons] using h2
    · intro e he
      exact hsub e (List.mem_cons_of_mem d he)
    · intro e he
      rcases List.mem_cons.1 he with rfl | he'
      · exact hsub e (List.mem_cons_self e ds)
      · exact hmem e he'

/-- Examining the four neighbours of `queue[front]` re-establishes the loop
invariant for the next iteration. -/
theorem expand_inv {W H : Nat} {grid : Grid} {start goal : Coord} {lev : Nat → Nat}
    {s : BfsState} (h : BfsInv W H grid start goal lev s.front s)
    (hlt : s.front < s.rear) (hng : s.queue s.front ≠ goal) :
    ∃ lev', BfsInv W H grid start goal lev' (s.front + 1)
        (expand W H grid (s.queue s.front) { s with front := s.front + 1 }) ∧
      (expand W H grid (s.queue s.front) { s with front := s.front + 1 }).front
        = s.front + 1 := by
  have h0 : ExpandInv W H grid start goal lev s.front (s.queue s.front) []
      { s with front := s.front + 1 } := by
    refine ⟨?_, rfl, rfl, ?_⟩
    · exact
        { front_le := hlt
          done_le := Nat.le_succ _
          rear_pos := h.rear_pos
          q0 := h.q0
          inb := h.inb
          vis := h.vis
          inj := h.inj
          par0 := h.par0
          par := by
            intro i hpos hi
            obtain ⟨j, hji, hjf, hrest⟩ := h.par i hpos hi
            exact ⟨j, hji, Nat.lt_succ_of_lt hjf, hrest⟩
          lev0 := h.lev0
          mono := h.mono
          closed := h.closed
          notgoal := h.notgoal }
    · intro d hd
      exact absurd hd (List.not_mem_nil _)
  obtain ⟨lev', ds', h1, _, hmem⟩ :=
    foldl_visit_inv directions (fun _ hd => hd) [] _ lev h0
  have hb := h1.base
  refine ⟨lev', ?_, h1.front_eq⟩
  exact
    { front_le := hb.front_le
      done_le := by
        show s.front + 1 ≤ (expand W H grid (s.queue s.front) _).front
        rw [expand, h1.front_eq]
      rear_pos := hb.rear_pos
      q0 := hb.q0
      inb := hb.inb
      vis := hb.vis
      inj := hb.inj
      par0 := hb.par0
      par := hb.par
      lev0 := hb.lev0
      mono := hb.mono
      closed := by
        intro j hj c hstep
        rcases Nat.lt_succ_iff_lt_or_eq.1 hj with hjlt | hjeq
        · exact hb.closed j hjlt c hstep
        · subst hjeq
          change Step W H grid
            ((directions.foldl (visit_neighbour W H grid (s.queue s.front)) _).queue s.front)
            c at hstep
          rw [h1.cur_eq] at hstep
          obtain ⟨d, hd, hcd⟩ := direction_of_adjacent _ _ hstep.1
          subst hcd
          exact h1.handled d (hmem d hd) hstep.2.1 hstep.2.2
      notgoal := by
        intro j hj
        rcases Nat.lt_succ_iff_lt_or_eq.1 hj with hjlt | hjeq
        · exact hb.notgoal j hjlt
        · subst hjeq
          show (directions.foldl (visit_neighbour W H grid (s.queue s.front)) _).queue
            s.front ≠ goal
          rw [h1.cur_eq]
          exact hng }

/-- The search loop ends within `W * H + 1` iterations, either with the goal
at `queue[g]` for an index `g` below `rear`, or with every queue entry
examined. -/
theorem bfs_loop_spec (W H : Nat) (grid : Grid) (start goal : Coord) :
    ∀ (fuel : Nat) (s : BfsState) (lev : Nat → Nat),
      BfsInv W H grid start goal lev s.front s → W * H < fuel + s.front →
      ∃ s' lev',
        (bfs_loop W H grid goal fuel s = some (true, s') ∧
          ∃ g, BfsInv W H grid start goal lev' g s' ∧ g < s'.rear ∧ s'.queue g = goal) ∨
        (bfs_loop W H grid goal fuel s = some (false, s') ∧
          BfsInv W H grid start goal lev' s'.rear s') := by
  intro fuel
  induction fuel with
  | zero =>
    intro s lev h hf
    have h1 := h.rear_le
    have h2 := h.front_le
    omega
  | succ fuel ih =>
    intro s lev h hf
    unfold bfs_loop
    by_cases hlt : s.front < s.rear
    · rw [if_pos hlt]
      simp only
      by_cases hg : (s.queue s.front).x = goal.x ∧ (s.queue s.front).y = goal.y
      · rw [if_pos hg]
        have hgoal : s.queue s.front = goal := coord_ext _ _ hg.1 hg.2
        refine ⟨{ s with front := s.front + 1 }, lev, Or.inl ⟨rfl, s.front, ?_, hlt, hgoal⟩⟩
        exact
          { front_le := hlt
            done_le := Nat.le_succ _
            rear_pos := h.rear_pos
            q0 := h.q0
            inb := h.inb
            vis := h.vis
            inj := h.inj
            par0 := h.par0
            par := by
              intro i hpos hi
              obtain ⟨j, hji, hjf, hrest⟩ := h.par i hpos hi
              exact ⟨j, hji, Nat.lt_succ_of_lt hjf, hrest⟩
            lev0 := h.lev0
            mono := h.mono
            closed := h.closed
            notgoal := h.notgoal }
      · rw [if_neg hg]
        have hng : s.queue s.front ≠ goal := by
          intro heq
          apply hg
          rw [heq]
          exact ⟨rfl, rfl⟩
        obtain ⟨lev1, h1, hfront⟩ := expand_inv h hlt hng
        generalize expand W H grid (s.queue s.front) { s with front := s.front + 1 } = s2
          at h1 hfront
        rw [← hfront] at h1
        exact ih s2 lev1 h1 (by rw [hfront]; omega)
    · rw [if_neg hlt]
      have heq : s.front = s.rear := by
        have := h.front_le
        omega
      refine ⟨s, lev, Or.inr ⟨rfl, ?_⟩⟩
      rw [← heq]
      exact h

/-- The state set up before the loop satisfies the invariant. -/
theorem bfs_init_inv (W H : Nat) (grid : Grid) (start goal : Coord)
    (hs : InBounds W H start) :
    BfsInv W H grid start goal (fun _ => 0) 0 (bfs_init H start) := by
  refine
    { front_le := Nat.zero_le _
      done_le := Nat.le_refl _
      rear_pos := Nat.one_pos
      q0 := store_same (fun _ => (⟨0, 0⟩ : Coord)) (0 : Nat) start
      inb := ?_
      vis := ?_
      inj := ?_
      par0 := store_same (fun _ => (⟨0, 0⟩ : Coord)) (idx H start.x start.y) ⟨-1, -1⟩
      par := ?_
      lev0 := rfl
      mono := fun _ _ _ _ => Nat.le_refl _
      closed := fun j hj => absurd hj (Nat.not_lt_zero j)
      notgoal := fun j hj => absurd hj (Nat.not_lt_zero j) }
  · intro i hi
    have hi' : i < 1 := hi
    have : i = 0 := by omega
    subst this
    show InBounds W H (store _ 0 start 0)
    rw [store_same]
    exact hs
  · intro c hc
    show store (fun _ => false) (idx H start.x start.y) true (idx H c.x c.y) = true ↔
      ∃ i, i < 1 ∧ store (fun _ => (⟨0, 0⟩ : Coord)) 0 start i = c
    constructor
    · intro hv
      by_cases heq : idx H c.x c.y = idx H start.x start.y
      · exact ⟨0, Nat.one_pos, by rw [store_same]; exact (idx_inj W H _ _ hc hs heq).symm⟩
      · rw [store_ne _ _ _ _ heq] at hv
        exact absurd hv Bool.false_ne_true
    · rintro ⟨i, hi, hq⟩
      have : i = 0 := by omega
      subst this
      rw [store_same] at hq
      subst hq
      exact store_same _ _ _
  · intro i j hi hj _
    have hi' : i < 1 := hi
    have hj' : j < 1 := hj
    omega
  · intro i hpos hi
    have hi' : i < 1 := hi
    omega

/-! ## Walking the parents and reversing the path -/

theorem write_list_below (l : List Coord) :
    ∀ (path : Nat → Coord) (count k : Nat), k < count →
      write_list path count l k = path k := by
  induction l with
  | nil => intro path count k _; rfl
  | cons a l ih =>
    intro path count k hk
    rw [write_list, ih _ _ _ (Nat.lt_succ_of_lt hk)]
    exact store_ne _ _ _ _ (by omega)

theorem write_list_get (l : List Coord) :
    ∀ (path : Nat → Coord) (count k : Nat) (hk : k < l.length),
      write_list path count l (count + k) = l[k] := by
  induction l with
  | nil => intro path count k hk; exact absurd hk (Nat.not_lt_zero k)
  | cons a l ih =>
    intro path count k hk
    rw [write_list]
    cases k with
    | zero =>
      show write_list (store path count a) (count + 1) l count = a
      rw [write_list_below l _ _ _ (Nat.lt_succ_self count)]
      exact store_same _ _ _
    | succ k =>
      have hk' : k < l.length := Nat.lt_of_succ_lt_succ hk
      have := ih (store path count a) (count + 1) k hk'
      rw [show count + (k + 1) = count + 1 + k by omega, this]
      rfl

theorem map_write_list (l : List Coord) (path : Nat → Coord) :
    (List.range l.length).map (write_list path 0 l) = l := by
  apply List.ext_getElem
  · simp
  · intro k h1 h2
    rw [List.getElem_map, List.getElem_range]
    have := write_list_get l path 0 k h2
    rw [Nat.zero_add] at this
    exact this

theorem foldl_swap_step (count : Nat) (path : Nat → Coord) :
    ∀ m, m ≤ count / 2 → ∀ k,
      (List.range m).foldl (swap_step count) path k =
        if k < m ∨ (count - m ≤ k ∧ k < count) then path (count - 1 - k) else path k := by
  intro m
  induction m with
  | zero =>
    intro _ k
    have : ¬ (k < 0 ∨ (count - 0 ≤ k ∧ k < count)) := by omega
    rw [if_neg this]
    rfl
  | succ m ih =>
    intro hm k
    have hm2 : m + 1 ≤ count / 2 := hm
    have hlt : 2 * (m + 1) ≤ count := by omega
    rw [List.range_succ, List.foldl_append]
    simp only [List.foldl_cons, List.foldl_nil]
    have ih' := ih (by omega)
    generalize (List.range m).foldl (swap_step count) path = q at ih'
    show swap_step count q m k = _
    simp only [swap_step, store]
    by_cases h1 : k = count - m - 1
    · rw [if_pos h1, ih' m]
      have hn : ¬ (m < m ∨ (count - m ≤ m ∧ m < count)) := by omega
      rw [if_neg hn]
      have hp : k < m + 1 ∨ (count - (m + 1) ≤ k ∧ k < count) := by omega
      rw [if_pos hp]
      congr 1
      omega
    · rw [if_neg h1]
      by_cases h2 : k = m
      · rw [if_pos h2, ih' (count - m - 1)]
        have hn : ¬ (count - m - 1 < m ∨ (count - m ≤ count - m - 1 ∧ count - m - 1 < count)) := by
          omega
        rw [if_neg hn]
        have hp : k < m + 1 ∨ (count - (m + 1) ≤ k ∧ k < count) := by omega
        rw [if_pos hp]
        congr 1
        omega
      · rw [if_neg h2, ih' k]
        by_cases h3 : k < m ∨ (count - m ≤ k ∧ k < count)
        · have hp : k < m + 1 ∨ (count - (m + 1) ≤ k ∧ k < count) := by omega
          rw [if_pos h3, if_pos hp]
        · have hp : ¬ (k < m + 1 ∨ (count - (m + 1) ≤ k ∧ k < count)) := by omega
          rw [if_neg h3, if_neg hp]

/-- The in-place reversal loop turns `path[k]` into the old `path[count-1-k]`. -/
theorem reverse_path_get (count : Nat) (path : Nat → Coord) (k : Nat) (hk : k < count) :
    reverse_path count path k = path (count - 1 - k) := by
  unfold reverse_path
  rw [foldl_swap_step count path (count / 2) (Nat.le_refl _) k]
  by_cases h : k < count / 2 ∨ (count - count / 2 ≤ k ∧ k < count)
  · rw [if_pos h]
  · rw [if_neg h]
    congr 1
    omega

theorem map_reverse_path (count : Nat) (path : Nat → Coord) :
    (List.range count).map (reverse_path count path) =
      ((List.range count).map path).reverse := by
  apply List.ext_getElem
  · simp
  · intro k h1 h2
    have hk : k < count := by simpa using h1
    rw [List.getElem_map, List.getElem_range, List.getElem_reverse, List.getElem_map,
      List.getElem_range, reverse_path_get count path k hk]
    simp

theorem inBounds_ne_sentinel {W H : Nat} {c : Coord} (h : InBounds W H c) :
    c.x ≠ -1 ∧ c.y ≠ -1 := by
  simp only [InBounds] at h
  constructor <;> omega

/-- Following the parents from `queue[i]` ends at the start after `lev i`
moves; the cells written form the route to `queue[i]`, backwards. -/
theorem walk_parents_spec {W H : Nat} {grid : Grid} {start goal : Coord} {lev : Nat → Nat}
    {done : Nat} {s : BfsState} (h : BfsInv W H grid start goal lev done s) :
    ∀ i, i < s.rear → ∀ fuel, i + 1 < fuel → ∀ (path : Nat → Coord) (count : Nat),
      ∃ l : List Coord,
        walk_parents H s.parent fuel (s.queue i) path count
          = some (write_list path count l, count + l.length) ∧
        l.length = lev i + 1 ∧ l.head? = some (s.queue i) ∧ l.getLast? = some start ∧
        List.Chain' (fun a b => Step W H grid b a) l := by
  intro i
  induction i using Nat.strong_induction_on with
  | _ i ih =>
    intro hi fuel hfuel path count
    obtain ⟨f, rfl⟩ : ∃ f, fuel = f + 1 := ⟨fuel - 1, by omega⟩
    have hcond := inBounds_ne_sentinel (h.inb i hi)
    rw [walk_parents, if_pos hcond]
    rcases Nat.eq_zero_or_pos i with h0 | hpos
    · subst h0
      obtain ⟨f', rfl⟩ : ∃ f', f = f' + 1 := ⟨f - 1, by omega⟩
      rw [h.q0, h.par0, walk_parents]
      have hn : ¬ ((⟨-1, -1⟩ : Coord).x ≠ -1 ∧ (⟨-1, -1⟩ : Coord).y ≠ -1) := by simp
      rw [if_neg hn]
      refine ⟨[start], rfl, ?_, rfl, rfl, List.chain'_singleton _⟩
      rw [h.lev0]
      rfl
    · obtain ⟨j, hji, _, hp, hstep, hlev⟩ := h.par i hpos hi
      rw [hp]
      obtain ⟨l, hw, hlen, hhead, hlast, hchain⟩ :=
        ih j hji (by omega) f (by omega) (store path count (s.queue i)) (count + 1)
      refine ⟨s.queue i :: l, ?_, ?_, rfl, ?_, ?_⟩
      · rw [hw]
        simp only [write_list, List.length_cons]
        congr 2
        omega
      · simp only [List.length_cons]
        omega
      · cases l with
        | nil => simp at hlen
        | cons b l' =>
          rw [List.getLast?_cons_cons]
          exact hlast
      · rw [List.chain'_cons']
        refine ⟨?_, hchain⟩
        intro y hy
        rw [hhead] at hy
        simp only [Option.mem_def, Option.some.injEq] at hy
        subst hy
        exact hstep

/-- Along any route that starts at a cell of the queue, either every cell is
in the queue with depth bounded by the number of steps taken, or some entry
that is not yet examined has such a depth. -/
theorem route_in_queue {W H : Nat} {grid : Grid} {start goal : Coord} {lev : Nat → Nat}
    {done : Nat} {s : BfsState} (h : BfsInv W H grid start goal lev done s) :
    ∀ (tail : List Coord) (a b : Coord) (m : Nat),
      List.Chain (Step W H grid) a tail → (a :: tail).getLast? = some b →
      ((∃ i, i < s.rear ∧ s.queue i = a ∧ lev i ≤ m) ∨
        (∃ i, done ≤ i ∧ i < s.rear ∧ lev i ≤ m)) →
      ((∃ i, i < s.rear ∧ s.queue i = b ∧ lev i ≤ m + tail.length) ∨
        (∃ i, done ≤ i ∧ i < s.rear ∧ lev i ≤ m + tail.length)) := by
  intro tail
  induction tail with
  | nil =>
    intro a b m _ hlast hyp
    simp only [List.getLast?_singleton, Option.some.injEq] at hlast
    subst hlast
    simpa using hyp
  | cons c tail ih =>
    intro a b m hchain hlast hyp
    rw [List.getLast?_cons_cons] at hlast
    rw [List.chain_cons] at hchain
    obtain ⟨hstep, hrest⟩ := hchain
    have hnext : (∃ i, i < s.rear ∧ s.queue i = c ∧ lev i ≤ m + 1) ∨
        (∃ i, done ≤ i ∧ i < s.rear ∧ lev i ≤ m + 1) := by
      rcases hyp with ⟨i, hi, hqi, hlev⟩ | ⟨i, hdi, hi, hlev⟩
      · rcases Nat.lt_or_ge i done with hlt | hge
        · subst hqi
          obtain ⟨i', hi', hqi', hlev'⟩ := h.closed i hlt c hstep
          exact Or.inl ⟨i', hi', hqi', by omega⟩
        · exact Or.inr ⟨i, hge, hi, by omega⟩
      · exact Or.inr ⟨i, hdi, hi, by omega⟩
    have := ih c b (m + 1) hrest hlast hnext
    simp only [List.length_cons]
    rw [show m + (tail.length + 1) = m + 1 + tail.length by omega]
    exact this

/-- Functional description of `find_path`: for a start cell inside the grid
the function always returns; it returns `true` with a shortest route, or
`false` when no route exists. -/
theorem find_path_spec (W H : Nat) (grid : Grid) (start goal : Coord)
    (hs : InBounds W H start) :
    (∃ p, find_path W H grid start goal = some (true, p) ∧
      IsRoute W H grid start goal p ∧
      (∀ r, IsRoute W H grid start goal r → p.length ≤ r.length)) ∨
    (find_path W H grid start goal = some (false, []) ∧
      ¬ Reachable W H grid start goal) := by
  have h0 := bfs_init_inv W H grid start goal hs
  obtain ⟨s', lev', hres⟩ :=
    bfs_loop_spec W H grid start goal (W * H + 1) (bfs_init H start) (fun _ => 0) h0
      (by show W * H < W * H + 1 + 0; omega)
  rcases hres with ⟨hbfs, g, hinv, hg, hqg⟩ | ⟨hbfs, hinv⟩
  · left
    have hrear := hinv.rear_le
    obtain ⟨l, hw, hlen, hhead, hlast, hchain⟩ :=
      walk_parents_spec hinv g hg (W * H + 1) (by omega) (fun _ => ⟨0, 0⟩) 0
    rw [hqg] at hw hhead
    refine ⟨l.reverse, ?_, ⟨?_, ?_, ?_⟩, ?_⟩
    · unfold find_path
      simp only [hbfs, hw, Nat.zero_add]
      rw [map_reverse_path, map_write_list]
    · rw [List.head?_reverse]
      exact hlast
    · rw [List.getLast?_reverse]
      exact hhead
    · rw [List.chain'_reverse]
      exact hchain
    · intro r hr
      obtain ⟨hrh, hrl, hrc⟩ := hr
      cases r with
      | nil => simp at hrh
      | cons a tail =>
        simp only [List.head?_cons, Option.some.injEq] at hrh
        subst hrh
        have := route_in_queue hinv tail a goal 0 hrc hrl
          (Or.inl ⟨0, hinv.rear_pos, hinv.q0, by rw [hinv.lev0]⟩)
        have hle : lev' g ≤ tail.length := by
          rcases this with ⟨i, hi, hqi, hlev⟩ | ⟨i, hgi, hi, hlev⟩
          · have : i = g := hinv.inj i g hi hg (by rw [hqi, hqg])
            subst this
            omega
          · have := hinv.mono g i hgi hi
            omega
        simp only [List.length_reverse, List.length_cons]
        omega
  · right
    refine ⟨?_, ?_⟩
    · unfold find_path
      simp only [hbfs]
    · rintro ⟨r, hrh, hrl, hrc⟩
      cases r with
      | nil => simp at hrh
      | cons a tail =>
        simp only [List.head?_cons, Option.some.injEq] at hrh
        subst hrh
        have := route_in_queue hinv tail a goal 0 hrc hrl
          (Or.inl ⟨0, hinv.rear_pos, hinv.q0, by rw [hinv.lev0]⟩)
        rcases this with ⟨i, hi, hqi, _⟩ | ⟨i, hgi, hi, _⟩
        · exact hinv.notgoal i hi hqi
        · omega

/-! ## Pathfinder contract -/

theorem find_path_ne_none (W H : Nat) (grid : Grid) (start goal : Coord)
    (hs : InBounds W H start) : find_path W H grid start goal ≠ none := by
  rcases find_path_spec W H grid start goal hs with ⟨p, hp, _⟩ | ⟨hp, _⟩ <;>
    rw [hp] <;> exact Option.some_ne_none _

theorem find_path_true_route (W H : Nat) (grid : Grid) (start goal : Coord)
    (hs : InBounds W H start) (p : List Coord)
    (hp : find_path W H grid start goal = some (true, p)) :
    IsRoute W H grid start goal p ∧
      ∀ r, IsRoute W H grid start goal r → p.length ≤ r.length := by
  rcases find_path_spec W H grid start goal hs with ⟨p', hp', hr, hmin⟩ | ⟨hp', _⟩
  · rw [hp] at hp'
    simp only [Option.some.injEq, Prod.mk.injEq, true_and] at hp'
    subst hp'
    exact ⟨hr, hmin⟩
  · rw [hp] at hp'
    simp at hp'

theorem find_path_true_iff (W H : Nat) (grid : Grid) (start goal : Coord)
    (hs : InBounds W H start) :
    (∃ p, find_path W H grid start goal = some (true, p)) ↔
      Reachable W H grid start goal := by
  constructor
  · rintro ⟨p, hp⟩
    exact ⟨p, (find_path_true_route W H grid start goal hs p hp).1⟩
  · intro hr
    rcases find_path_spec W H grid start goal hs with ⟨p, hp, _⟩ | ⟨_, hn⟩
    · exact ⟨p, hp⟩
    · exact absurd hr hn

theorem route_step_get {W H : Nat} {grid : Grid} {start goal : Coord} {p : List Coord}
    (h : IsRoute W H grid start goal p) (k : Nat) (hk : k + 1 < p.length) :
    Step W H grid (p.get ⟨k, Nat.lt_of_succ_lt hk⟩) (p.get ⟨k + 1, hk⟩) :=
  List.chain'_iff_get.1 h.2.2 k (by omega)

theorem route_get_zero {W H : Nat} {grid : Grid} {start goal : Coord} {p : List Coord}
    (h : IsRoute W H grid start goal p) (hk : 0 < p.length) :
    p.get ⟨0, hk⟩ = start := by
  obtain ⟨hh, _, _⟩ := h
  cases p with
  | nil => simp at hk
  | cons a l =>
    simp only [List.head?_cons, Option.some.injEq] at hh
    simpa using hh

theorem route_free_get {W H : Nat} {grid : Grid} {start goal : Coord} {p : List Coord}
    (h : IsRoute W H grid start goal p) (k : Nat) (hk : k < p.length) (hpos : 0 < k) :
    InBounds W H (p.get ⟨k, hk⟩) ∧ grid (p.get ⟨k, hk⟩).x (p.get ⟨k, hk⟩).y = TOWER_NONE := by
  obtain ⟨j, rfl⟩ : ∃ j, k = j + 1 := ⟨k - 1, by omega⟩
  exact (route_step_get h j hk).2

theorem route_inBounds_get {W H : Nat} {grid : Grid} {start goal : Coord} {p : List Coord}
    (h : IsRoute W H grid start goal p) (hs : InBounds W H start) (k : Nat)
    (hk : k < p.length) : InBounds W H (p.get ⟨k, hk⟩) := by
  rcases Nat.eq_zero_or_pos k with h0 | hpos
  · subst h0
    rw [route_get_zero h hk]
    exact hs
  · exact (route_free_get h k hk hpos).1

/-- C1: for every grid and every in-bounds start and goal, `find_path`
returns, and it returns `true` if and only if the goal can be reached from the
start by 4-directional steps that stay inside the grid and enter only cells
whose occupancy is `TOWER_NONE`. -/
theorem find_path_true_iff_reachable (W H : Nat) (grid : Grid) (start goal : Coord)
    (hs : InBounds W H start) (_hg : InBounds W H goal) :
    find_path W H grid start goal ≠ none ∧
    ((∃ p, find_path W H grid start goal = some (true, p)) ↔
      Reachable W H grid start goal) :=
  ⟨find_path_ne_none W H grid start goal hs, find_path_true_iff W H grid start goal hs⟩

theorem find_path_true_iff_reachable_witness :
    InBounds 3 3 ⟨0, 0⟩ ∧ InBounds 3 3 ⟨2, 2⟩ ∧
    (find_path 3 3 wall_grid ⟨0, 0⟩ ⟨2, 2⟩ ≠ none ∧
      ((∃ p, find_path 3 3 wall_grid ⟨0, 0⟩ ⟨2, 2⟩ = some (true, p)) ↔
        Reachable 3 3 wall_grid ⟨0, 0⟩ ⟨2, 2⟩)) :=
  ⟨by decide, by decide,
    find_path_true_iff_reachable 3 3 wall_grid ⟨0, 0⟩ ⟨2, 2⟩ (by decide) (by decide)⟩

/-- C2: whenever `find_path` returns `true` for in-bounds start and goal, the
written path is an ordered route from start to goal inclusive: its first
entry is the start, its last entry is the goal, every two consecutive entries
are 4-directional neighbours inside the grid, and every entry after the first
is a cell whose occupancy is `TOWER_NONE`. -/
theorem find_path_returns_route (W H : Nat) (grid : Grid) (start goal : Coord)
    (hs : InBounds W H start) (_hg : InBounds W H goal) (p : List Coord)
    (hp : find_path W H grid start goal = some (true, p)) :
    p.head? = some start ∧ p.getLast? = some goal ∧
    (∀ (k : Nat) (hk : k + 1 < p.length),
      Adjacent (p.get ⟨k, Nat.lt_of_succ_lt hk⟩) (p.get ⟨k + 1, hk⟩) ∧
      InBounds W H (p.get ⟨k, Nat.lt_of_succ_lt hk⟩) ∧ InBounds W H (p.get ⟨k + 1, hk⟩)) ∧
    (∀ (k : Nat) (hk : k < p.length), 0 < k →
      grid (p.get ⟨k, hk⟩).x (p.get ⟨k, hk⟩).y = TOWER_NONE) := by
  have hr := (find_path_true_route W H grid start goal hs p hp).1
  refine ⟨hr.1, hr.2.1, ?_, ?_⟩
  · intro k hk
    exact ⟨(route_step_get hr k hk).1, route_inBounds_get hr hs k _,
      route_inBounds_get hr hs (k + 1) hk⟩
  · intro k hk hpos
    exact (route_free_get hr k hk hpos).2

theorem find_path_returns_route_witness :
    InBounds 3 3 ⟨0, 0⟩ ∧ InBounds 3 3 ⟨2, 2⟩ ∧
    find_path 3 3 wall_grid ⟨0, 0⟩ ⟨2, 2⟩ =
      some (true, wall_route) ∧
    (wall_route.head? = some ⟨0, 0⟩ ∧ wall_route.getLast? = some ⟨2, 2⟩ ∧
    (∀ (k : Nat) (hk : k + 1 < wall_route.length),
      Adjacent (wall_route.get ⟨k, Nat.lt_of_succ_lt hk⟩) (wall_route.get ⟨k + 1, hk⟩) ∧
      InBounds 3 3 (wall_route.get ⟨k, Nat.lt_of_succ_lt hk⟩) ∧
      InBounds 3 3 (wall_route.get ⟨k + 1, hk⟩)) ∧
    (∀ (k : Nat) (hk : k < wall_route.length), 0 < k →
      wall_grid (wall_route.get ⟨k, hk⟩).x (wall_route.get ⟨k, hk⟩).y = TOWER_NONE)) :=
  ⟨by decide, by decide, by decide,
    find_path_returns_route 3 3 wall_grid ⟨0, 0⟩ ⟨2, 2⟩ (by decide) (by decide)
      wall_route (by decide)⟩

/-- C3: whenever `find_path` returns `true` for in-bounds start and goal, the
returned path is a route whose number of steps (`path_length - 1`) is the
shortest-path distance: no route of 4-directional steps through unoccupied
in-bounds cells from start to goal has fewer steps. -/
theorem find_path_shortest (W H : Nat) (grid : Grid) (start goal : Coord)
    (hs : InBounds W H start) (_hg : InBounds W H goal) (p : List Coord)
    (hp : find_path W H grid start goal = some (true, p)) :
    IsRoute W H grid start goal p ∧
    ∀ r, IsRoute W H grid start goal r → p.length - 1 ≤ r.length - 1 := by
  obtain ⟨hr, hmin⟩ := find_path_true_route W H grid start goal hs p hp
  refine ⟨hr, ?_⟩
  intro r hrr
  have := hmin r hrr
  omega

theorem find_path_shortest_witness :
    InBounds 3 3 ⟨0, 0⟩ ∧ InBounds 3 3 ⟨2, 2⟩ ∧
    find_path 3 3 wall_grid ⟨0, 0⟩ ⟨2, 2⟩ =
      some (true, wall_route) ∧
    (IsRoute 3 3 wall_grid ⟨0, 0⟩ ⟨2, 2⟩ wall_route ∧
      ∀ r, IsRoute 3 3 wall_grid ⟨0, 0⟩ ⟨2, 2⟩ r →
        wall_route.length - 1 ≤ r.length - 1) :=
  ⟨by decide, by decide, by decide,
    find_path_shortest 3 3 wall_grid ⟨0, 0⟩ ⟨2, 2⟩ (by decide) (by decide)
      wall_route (by decide)⟩

/-! ## Placement, upgrade and sale at the cursor -/

theorem Grid.set_same (g : Grid) (x y : Int) (v : TowerType) : g.set x y v x y = v := by
  simp [Grid.set]

theorem Grid.set_ne (g : Grid) (x y a b : Int) (v : TowerType) (h : ¬ (a = x ∧ b = y)) :
    g.set x y v a b = g a b := by
  simp only [Grid.set, if_neg h]

theorem Grid.set_restore (g : Grid) (x y : Int) (v w : TowerType) (h : g x y = w) :
    (g.set x y v).set x y w = g := by
  funext a b
  by_cases hab : a = x ∧ b = y
  · simp only [Grid.set, if_pos hab]
    rw [hab.1, hab.2, h]
  · simp only [Grid.set, if_neg hab]

theorem pathExists_iff (cfg : Config) (grid : Grid) :
    PathExists cfg grid ↔
      ∃ p, find_path cfg.GRID_WIDTH cfg.GRID_HEIGHT grid start_cell (goal_cell cfg)
        = some (true, p) := by
  unfold PathExists
  cases h : find_path cfg.GRID_WIDTH cfg.GRID_HEIGHT grid start_cell (goal_cell cfg) with
  | none => simp
  | some r =>
    obtain ⟨b, p⟩ := r
    cases b <;> simp

theorem start_inBounds {W H : Nat} {c : Coord} (hc : InBounds W H c) :
    InBounds W H start_cell := by
  simp only [InBounds, start_cell] at hc ⊢
  omega

theorem pathExists_iff_reachable (cfg : Config) (grid : Grid)
    (hs : InBounds cfg.GRID_WIDTH cfg.GRID_HEIGHT start_cell) :
    PathExists cfg grid ↔
      Reachable cfg.GRID_WIDTH cfg.GRID_HEIGHT grid start_cell (goal_cell cfg) := by
  rw [pathExists_iff]
  exact find_path_true_iff _ _ grid start_cell (goal_cell cfg) hs

/-- Freeing cells never destroys a route. -/
theorem Reachable.mono {W H : Nat} {g g' : Grid} {start goal : Coord}
    (hsub : ∀ a b, g a b = TOWER_NONE → g' a b = TOWER_NONE)
    (h : Reachable W H g start goal) : Reachable W H g' start goal := by
  obtain ⟨p, hh, hl, hc⟩ := h
  refine ⟨p, hh, hl, hc.imp ?_⟩
  intro a b hstep
  exact ⟨hstep.1, hstep.2.1, hsub _ _ hstep.2.2⟩

/-- The outcome of `find_path` from the fixed start to the fixed goal is
`true` with some path or `false`. -/
theorem find_path_cases (cfg : Config) (grid : Grid)
    (hs : InBounds cfg.GRID_WIDTH cfg.GRID_HEIGHT start_cell) :
    (∃ p, find_path cfg.GRID_WIDTH cfg.GRID_HEIGHT grid start_cell (goal_cell cfg)
        = some (true, p)) ∨
    (find_path cfg.GRID_WIDTH cfg.GRID_HEIGHT grid start_cell (goal_cell cfg)
        = some (false, []) ∧ ¬ PathExists cfg grid) := by
  rcases find_path_spec cfg.GRID_WIDTH cfg.GRID_HEIGHT grid start_cell (goal_cell cfg) hs
    with ⟨p, hp, _⟩ | ⟨hp, hn⟩
  · exact Or.inl ⟨p, hp⟩
  · refine Or.inr ⟨hp, ?_⟩
    rw [pathExists_iff_reachable cfg grid hs]
    exact hn

theorem key_ok_place (cfg : Config) (game : GameState) (p : List Coord)
    (hcell : game.grid game.cursor.x game.cursor.y = TOWER_NONE) (hgold : game.gold ≥ 10)
    (hp : find_path cfg.GRID_WIDTH cfg.GRID_HEIGHT
      (game.grid.set game.cursor.x game.cursor.y TOWER_NORMAL) start_cell (goal_cell cfg)
        = some (true, p)) :
    on_input_key_ok cfg game = some
      { game with
        grid := game.grid.set game.cursor.x game.cursor.y TOWER_NORMAL
        gold := game.gold - 10 } := by
  unfold on_input_key_ok
  simp only [start_cell, goal_cell] at hp
  simp only [hcell, if_true, hgold, hp]

theorem key_ok_reject (cfg : Config) (game : GameState) (p : List Coord)
    (hcell : game.grid game.cursor.x game.cursor.y = TOWER_NONE) (hgold : game.gold ≥ 10)
    (hp : find_path cfg.GRID_WIDTH cfg.GRID_HEIGHT
      (game.grid.set game.cursor.x game.cursor.y TOWER_NORMAL) start_cell (goal_cell cfg)
        = some (false, p)) :
    on_input_key_ok cfg game = some game := by
  unfold on_input_key_ok
  simp only [start_cell, goal_cell] at hp
  simp only [hcell, if_true, hgold, hp]
  rw [Grid.set_restore game.grid _ _ _ _ hcell]

theorem key_ok_poor (cfg : Config) (game : GameState)
    (hcell : game.grid game.cursor.x game.cursor.y = TOWER_NONE) (hgold : game.gold < 10) :
    on_input_key_ok cfg game = some game := by
  unfold on_input_key_ok
  have : ¬ game.gold ≥ 10 := by omega
  simp only [hcell, if_true, this, if_false]

theorem key_ok_sell (cfg : Config) (game : GameState)
    (hcell : game.grid game.cursor.x game.cursor.y = TOWER_FREEZE) :
    on_input_key_ok cfg game = some
      { game with
        grid := game.grid.set game.cursor.x game.cursor.y TOWER_NONE
        gold := game.gold + 5 } := by
  unfold on_input_key_ok
  simp [hcell, next_tower_type]

theorem key_ok_upgrade (cfg : Config) (game : GameState) (p : List Coord)
    (hcell : game.grid game.cursor.x game.cursor.y ≠ TOWER_NONE)
    (hnext : next_tower_type (game.grid game.cursor.x game.cursor.y) ≠ TOWER_NONE)
    (hp : find_path cfg.GRID_WIDTH cfg.GRID_HEIGHT
      (game.grid.set game.cursor.x game.cursor.y
        (next_tower_type (game.grid game.cursor.x game.cursor.y))) start_cell (goal_cell cfg)
        = some (true, p)) :
    on_input_key_ok cfg game = some
      { game with
        grid := game.grid.set game.cursor.x game.cursor.y
          (next_tower_type (game.grid game.cursor.x game.cursor.y)) } := by
  unfold on_input_key_ok
  simp only [start_cell, goal_cell] at hp
  simp only [hcell, if_false, hnext, ne_eq, not_false_eq_true, if_true, hp]

theorem key_ok_upgrade_reject (cfg : Config) (game : GameState) (p : List Coord)
    (hcell : game.grid game.cursor.x game.cursor.y ≠ TOWER_NONE)
    (hnext : next_tower_type (game.grid game.cursor.x game.cursor.y) ≠ TOWER_NONE)
    (hp : find_path cfg.GRID_WIDTH cfg.GRID_HEIGHT
      (game.grid.set game.cursor.x game.cursor.y
        (next_tower_type (game.grid game.cursor.x game.cursor.y))) start_cell (goal_cell cfg)
        = some (false, p)) :
    on_input_key_ok cfg game = some game := by
  unfold on_input_key_ok
  simp only [start_cell, goal_cell] at hp
  simp only [hcell, if_false, hnext, ne_eq, not_false_eq_true, if_true, hp]
  rw [Grid.set_restore game.grid _ _ _ _ rfl]

/-- Every outcome of the confirm command: the state is unchanged, or the new
grid has a path from start to goal, or the cursor cell was sold. -/
theorem key_ok_outcome (cfg : Config) (game : GameState)
    (hc : InBounds cfg.GRID_WIDTH cfg.GRID_HEIGHT game.cursor) :
    ∃ game', on_input_key_ok cfg game = some game' ∧ game'.cursor = game.cursor ∧
      (game' = game ∨ PathExists cfg game'.grid ∨
        game'.grid = game.grid.set game.cursor.x game.cursor.y TOWER_NONE) := by
  have hs := start_inBounds hc
  by_cases hcell : game.grid game.cursor.x game.cursor.y = TOWER_NONE
  · by_cases hgold : game.gold ≥ 10
    · rcases find_path_cases cfg (game.grid.set game.cursor.x game.cursor.y TOWER_NORMAL) hs
        with ⟨p, hp⟩ | ⟨hp, _⟩
      · refine ⟨_, key_ok_place cfg game p hcell hgold hp, rfl, Or.inr (Or.inl ?_)⟩
        exact (pathExists_iff cfg _).2 ⟨p, hp⟩
      · exact ⟨game, key_ok_reject cfg game [] hcell hgold hp, rfl, Or.inl rfl⟩
    · exact ⟨game, key_ok_poor cfg game hcell (by omega), rfl, Or.inl rfl⟩
  · by_cases hnext : next_tower_type (game.grid game.cursor.x game.cursor.y) = TOWER_NONE
    · have hfreeze : game.grid game.cursor.x game.cursor.y = TOWER_FREEZE := by
        cases hk : game.grid game.cursor.x game.cursor.y <;>
          simp [hk, next_tower_type] at hnext hcell ⊢
      exact ⟨_, key_ok_sell cfg game hfreeze, rfl, Or.inr (Or.inr rfl)⟩
    · rcases find_path_cases cfg (game.grid.set game.cursor.x game.cursor.y
          (next_tower_type (game.grid game.cursor.x game.cursor.y))) hs
        with ⟨p, hp⟩ | ⟨hp, _⟩
      · refine ⟨_, key_ok_upgrade cfg game p hcell hnext hp, rfl, Or.inr (Or.inl ?_)⟩
        exact (pathExists_iff cfg _).2 ⟨p, hp⟩
      · exact ⟨game, key_ok_upgrade_reject cfg game [] hcell hnext hp, rfl, Or.inl rfl⟩

/-- A key press keeps the cursor inside the grid, and every outcome is one of
those of `key_ok_outcome` up to the cursor position. -/
theorem key_press_outcome (cfg : Config) (game : GameState) (key : InputKey)
    (hc : InBounds cfg.GRID_WIDTH cfg.GRID_HEIGHT game.cursor) :
    ∃ game', on_key_press cfg game key = some game' ∧
      InBounds cfg.GRID_WIDTH cfg.GRID_HEIGHT game'.cursor ∧
      (game'.grid = game.grid ∨ PathExists cfg game'.grid ∨
        game'.grid = game.grid.set game.cursor.x game.cursor.y TOWER_NONE) := by
  have hc' := hc
  simp only [InBounds] at hc'
  cases key with
  | InputKeyUp =>
    simp only [on_key_press]
    by_cases h : game.cursor.y > 0
    · rw [if_pos h]
      exact ⟨_, rfl, by simp only [InBounds]; omega, Or.inl rfl⟩
    · rw [if_neg h]
      exact ⟨_, rfl, hc, Or.inl rfl⟩
  | InputKeyDown =>
    simp only [on_key_press]
    by_cases h : game.cursor.y < (cfg.GRID_HEIGHT : Int) - 1
    · rw [if_pos h]
      exact ⟨_, rfl, by simp only [InBounds]; omega, Or.inl rfl⟩
    · rw [if_neg h]
      exact ⟨_, rfl, hc, Or.inl rfl⟩
  | InputKeyLeft =>
    simp only [on_key_press]
    by_cases h : game.cursor.x > 0
    · rw [if_pos h]
      exact ⟨_, rfl, by simp only [InBounds]; omega, Or.inl rfl⟩
    · rw [if_neg h]
      exact ⟨_, rfl, hc, Or.inl rfl⟩
  | InputKeyRight =>
    simp only [on_key_press]
    by_cases h : game.cursor.x < (cfg.GRID_WIDTH : Int) - 1
    · rw [if_pos h]
      exact ⟨_, rfl, by simp only [InBounds]; omega, Or.inl rfl⟩
    · rw [if_neg h]
      exact ⟨_, rfl, hc, Or.inl rfl⟩
  | InputKeyOk =>
    obtain ⟨game', hok, hcur, hout⟩ := key_ok_outcome cfg game hc
    refine ⟨game', hok, by rw [hcur]; exact hc, ?_⟩
    rcases hout with h | h | h
    · exact Or.inl (by rw [h])
    · exact Or.inr (Or.inl h)
    · exact Or.inr (Or.inr h)
  | InputKeyBack => exact ⟨game, rfl, hc, Or.inl rfl⟩

/-- Removing a tower keeps an existing path. -/
theorem pathExists_set_none (cfg : Config) (grid : Grid) (x y : Int)
    (hs : InBounds cfg.GRID_WIDTH cfg.GRID_HEIGHT start_cell) (h : PathExists cfg grid) :
    PathExists cfg (grid.set x y TOWER_NONE) := by
  rw [pathExists_iff_reachable cfg _ hs] at h ⊢
  refine Reachable.mono ?_ h
  intro a b hab
  by_cases hxy : a = x ∧ b = y
  · simp only [Grid.set, if_pos hxy]
  · simp only [Grid.set, if_neg hxy]
    exact hab

theorem key_press_keeps_path (cfg : Config) (game : GameState) (key : InputKey)
    (hc : InBounds cfg.GRID_WIDTH cfg.GRID_HEIGHT game.cursor)
    (hp : PathExists cfg game.grid) :
    ∃ game', on_key_press cfg game key = some game' ∧
      InBounds cfg.GRID_WIDTH cfg.GRID_HEIGHT game'.cursor ∧ PathExists cfg game'.grid := by
  obtain ⟨game', hk, hcur, hout⟩ := key_press_outcome cfg game key hc
  refine ⟨game', hk, hcur, ?_⟩
  rcases hout with h | h | h
  · rw [h]
    exact hp
  · exact h
  · rw [h]
    exact pathExists_set_none cfg _ _ _ (start_inBounds hc) hp

theorem run_keys_keeps_path (cfg : Config) (keys : List InputKey) :
    ∀ game : GameState, InBounds cfg.GRID_WIDTH cfg.GRID_HEIGHT game.cursor →
      PathExists cfg game.grid →
      ∃ game', run_keys cfg keys game = some game' ∧
        InBounds cfg.GRID_WIDTH cfg.GRID_HEIGHT game'.cursor ∧ PathExists cfg game'.grid := by
  induction keys with
  | nil =>
    intro game hc hp
    exact ⟨game, rfl, hc, hp⟩
  | cons key keys ih =>
    intro game hc hp
    obtain ⟨game1, hk, hc1, hp1⟩ := key_press_keeps_path cfg game key hc hp
    obtain ⟨game2, hr, hc2, hp2⟩ := ih game1 hc1 hp1
    refine ⟨game2, ?_, hc2, hp2⟩
    simp only [run_keys, hk]
    exact hr

/-- C4: for every state in which `find_path` from the fixed start `(0, 0)` to
the fixed goal `(GRID_WIDTH - 1, GRID_HEIGHT - 1)` succeeds and every
in-bounds cursor cell, the confirm command returns a state in which
`find_path` from start to goal succeeds again; hence the same holds after
every sequence of key presses (confirm commands and cursor moves). -/
theorem confirm_preserves_path (cfg : Config) (game : GameState)
    (hc : InBounds cfg.GRID_WIDTH cfg.GRID_HEIGHT game.cursor)
    (hp : PathExists cfg game.grid) :
    (∃ game', on_input_key_ok cfg game = some game' ∧ PathExists cfg game'.grid) ∧
    (∀ keys : List InputKey, ∃ game', run_keys cfg keys game = some game' ∧
      PathExists cfg game'.grid) := by
  constructor
  · obtain ⟨game', hk, _, hp'⟩ := key_press_keeps_path cfg game InputKeyOk hc hp
    exact ⟨game', hk, hp'⟩
  · intro keys
    obtain ⟨game', hk, _, hp'⟩ := run_keys_keeps_path cfg keys game hc hp
    exact ⟨game', hk, hp'⟩

theorem confirm_preserves_path_witness :
    InBounds small_cfg.GRID_WIDTH small_cfg.GRID_HEIGHT (wall_game ⟨1, 1⟩ 100).cursor ∧
    PathExists small_cfg (wall_game ⟨1, 1⟩ 100).grid ∧
    ((∃ game', on_input_key_ok small_cfg (wall_game ⟨1, 1⟩ 100) = some game' ∧
        PathExists small_cfg game'.grid) ∧
      (∀ keys : List InputKey, ∃ game',
        run_keys small_cfg keys (wall_game ⟨1, 1⟩ 100) = some game' ∧
        PathExists small_cfg game'.grid)) :=
  ⟨by decide, by decide,
    confirm_preserves_path small_cfg (wall_game ⟨1, 1⟩ 100) (by decide) (by decide)⟩

/-! ## Start and goal cells -/

theorem foldl_clear_column (x : Int) (n : Nat) (g : Grid) :
    (List.range n).foldl (fun (g : Grid) (y : Nat) => g.set x (y : Int) TOWER_NONE) g =
      fun a b => if a = x ∧ 0 ≤ b ∧ b < (n : Int) then TOWER_NONE else g a b := by
  induction n with
  | zero =>
    funext a b
    have : ¬ (a = x ∧ 0 ≤ b ∧ b < ((0 : Nat) : Int)) := by omega
    simp only [List.range_zero, List.foldl_nil, if_neg this]
  | succ n ih =>
    rw [List.range_succ, List.foldl_append, ih]
    funext a b
    simp only [List.foldl_cons, List.foldl_nil, Grid.set]
    by_cases h1 : a = x ∧ b = (n : Int)
    · have h2 : a = x ∧ 0 ≤ b ∧ b < ((n + 1 : Nat) : Int) := by
        push_cast
        omega
      rw [if_pos h1, if_pos h2]
    · rw [if_neg h1]
      by_cases h3 : a = x ∧ 0 ≤ b ∧ b < (n : Int)
      · have h2 : a = x ∧ 0 ≤ b ∧ b < ((n + 1 : Nat) : Int) := by
          push_cast
          omega
        rw [if_pos h3, if_pos h2]
      · have h2 : ¬ (a = x ∧ 0 ≤ b ∧ b < ((n + 1 : Nat) : Int)) := by
          push_cast
          omega
        rw [if_neg h3, if_neg h2]

theorem clear_grid_eq (W H : Nat) (g : Grid) :
    clear_grid W H g =
      fun a b => if 0 ≤ a ∧ a < (W : Int) ∧ 0 ≤ b ∧ b < (H : Int) then TOWER_NONE
        else g a b := by
  unfold clear_grid
  induction W with
  | zero =>
    funext a b
    have : ¬ (0 ≤ a ∧ a < ((0 : Nat) : Int) ∧ 0 ≤ b ∧ b < (H : Int)) := by omega
    simp only [List.range_zero, List.foldl_nil, if_neg this]
  | succ n ih =>
    rw [List.range_succ, List.foldl_append, ih]
    simp only [List.foldl_cons, List.foldl_nil]
    rw [foldl_clear_column]
    funext a b
    by_cases h1 : a = (n : Int) ∧ 0 ≤ b ∧ b < (H : Int)
    · have h2 : 0 ≤ a ∧ a < ((n + 1 : Nat) : Int) ∧ 0 ≤ b ∧ b < (H : Int) := by
        push_cast
        omega
      rw [if_pos h1, if_pos h2]
    · rw [if_neg h1]
      by_cases h3 : 0 ≤ a ∧ a < (n : Int) ∧ 0 ≤ b ∧ b < (H : Int)
      · have h2 : 0 ≤ a ∧ a < ((n + 1 : Nat) : Int) ∧ 0 ≤ b ∧ b < (H : Int) := by
          push_cast
          omega
        rw [if_pos h3, if_pos h2]
      · have h2 : ¬ (0 ≤ a ∧ a < ((n + 1 : Nat) : Int) ∧ 0 ≤ b ∧ b < (H : Int)) := by
          push_cast
          omega
        rw [if_neg h3, if_neg h2]

theorem init_game_state_grid (cfg : Config) (game : GameState) :
    (init_game_state cfg game).grid =
      ((((clear_grid cfg.GRID_WIDTH cfg.GRID_HEIGHT game.grid).set 2 2 TOWER_NORMAL).set 4 2
        TOWER_RANGE).set 6 2 TOWER_SPLASH).set 8 2 TOWER_FREEZE := rfl

theorem init_game_state_cursor (cfg : Config) (game : GameState) :
    (init_game_state cfg game).cursor = ⟨0, 0⟩ := rfl

/-- After `init_game_state` every cell inside the grid other than the four
preset towers is unoccupied. -/
theorem init_game_state_free (cfg : Config) (game : GameState) (a b : Int)
    (hin : InBounds cfg.GRID_WIDTH cfg.GRID_HEIGHT ⟨a, b⟩)
    (hne : ¬ (b = 2 ∧ (a = 2 ∨ a = 4 ∨ a = 6 ∨ a = 8))) :
    (init_game_state cfg game).grid a b = TOWER_NONE := by
  rw [init_game_state_grid, clear_grid_eq]
  simp only [InBounds] at hin
  have h8 : ¬ (a = 8 ∧ b = 2) := by omega
  have h6 : ¬ (a = 6 ∧ b = 2) := by omega
  have h4 : ¬ (a = 4 ∧ b = 2) := by omega
  have h2 : ¬ (a = 2 ∧ b = 2) := by omega
  simp only [Grid.set, if_neg h8, if_neg h6, if_neg h4, if_neg h2, if_pos hin]

/-- The last cell of a route that is not its first cell has been entered, so
it is unoccupied. -/
theorem chain_last_free {W H : Nat} {grid : Grid} :
    ∀ (tail : List Coord) (a e : Coord), List.Chain (Step W H grid) a tail →
      (a :: tail).getLast? = some e → a ≠ e → grid e.x e.y = TOWER_NONE := by
  intro tail
  induction tail with
  | nil =>
    intro a e _ hl hne
    simp only [List.getLast?_singleton, Option.some.injEq] at hl
    exact absurd hl hne
  | cons c tail ih =>
    intro a e hchain hl hne
    rw [List.getLast?_cons_cons] at hl
    rw [List.chain_cons] at hchain
    by_cases hce : c = e
    · subst hce
      exact hchain.1.2.2
    · exact ih c e hchain.2 hl hce

theorem goal_free_of_reachable {W H : Nat} {grid : Grid} {start goal : Coord}
    (h : Reachable W H grid start goal) (hne : start ≠ goal) :
    grid goal.x goal.y = TOWER_NONE := by
  obtain ⟨p, hh, hl, hc⟩ := h
  cases p with
  | nil => simp at hh
  | cons a tail =>
    simp only [List.head?_cons, Option.some.injEq] at hh
    subst hh
    exact chain_last_free tail a goal hc hl hne

theorem key_press_keeps_goal_free (cfg : Config) (game : GameState) (key : InputKey)
    (hc : InBounds cfg.GRID_WIDTH cfg.GRID_HEIGHT game.cursor)
    (hne : start_cell ≠ goal_cell cfg)
    (hfree : game.grid (goal_cell cfg).x (goal_cell cfg).y = TOWER_NONE) :
    ∃ game', on_key_press cfg game key = some game' ∧
      InBounds cfg.GRID_WIDTH cfg.GRID_HEIGHT game'.cursor ∧
      game'.grid (goal_cell cfg).x (goal_cell cfg).y = TOWER_NONE := by
  obtain ⟨game', hk, hcur, hout⟩ := key_press_outcome cfg game key hc
  refine ⟨game', hk, hcur, ?_⟩
  rcases hout with h | h | h
  · rw [h]
    exact hfree
  · rw [pathExists_iff_reachable cfg _ (start_inBounds hc)] at h
    exact goal_free_of_reachable h hne
  · rw [h]
    by_cases hxy : (goal_cell cfg).x = game.cursor.x ∧ (goal_cell cfg).y = game.cursor.y
    · simp only [Grid.set, if_pos hxy]
    · simp only [Grid.set, if_neg hxy]
      exact hfree

theorem run_keys_keeps_goal_free (cfg : Config) (keys : List InputKey)
    (hne : start_cell ≠ goal_cell cfg) :
    ∀ game : GameState, InBounds cfg.GRID_WIDTH cfg.GRID_HEIGHT game.cursor →
      game.grid (goal_cell cfg).x (goal_cell cfg).y = TOWER_NONE →
      ∃ game', run_keys cfg keys game = some game' ∧
        game'.grid (goal_cell cfg).x (goal_cell cfg).y = TOWER_NONE := by
  induction keys with
  | nil =>
    intro game _ hfree
    exact ⟨game, rfl, hfree⟩
  | cons key keys ih =>
    intro game hc hfree
    obtain ⟨game1, hk, hc1, hf1⟩ := key_press_keeps_goal_free cfg game key hc hne hfree
    obtain ⟨game2, hr, hf2⟩ := ih game1 hc1 hf1
    refine ⟨game2, ?_, hf2⟩
    simp only [run_keys, hk]
    exact hr

/-- C5 (as the code behaves): in every state reached from `init_game_state`
by any sequence of cursor moves and confirm commands the goal cell
`(GRID_WIDTH - 1, GRID_HEIGHT - 1)` is unoccupied, and the start cell `(0, 0)`
is unoccupied in the initial state.  The grid must hold the four preset
towers (`GRID_WIDTH ≥ 9`, `GRID_HEIGHT ≥ 3`) and its goal must not be the
preset tower cell `(8, 2)`. -/
theorem goal_cell_stays_free (cfg : Config) (memory : GameState) (keys : List InputKey)
    (hW : 9 ≤ cfg.GRID_WIDTH) (hH : 3 ≤ cfg.GRID_HEIGHT)
    (hgoal : ¬ (cfg.GRID_WIDTH = 9 ∧ cfg.GRID_HEIGHT = 3)) :
    (init_game_state cfg memory).grid start_cell.x start_cell.y = TOWER_NONE ∧
    ∃ game, run_keys cfg keys (init_game_state cfg memory) = some game ∧
      game.grid (goal_cell cfg).x (goal_cell cfg).y = TOWER_NONE := by
  constructor
  · apply init_game_state_free
    · simp only [InBounds, start_cell]
      omega
    · simp only [start_cell]
      omega
  · apply run_keys_keeps_goal_free
    · intro h
      have := congrArg Coord.x h
      simp only [start_cell, goal_cell] at this
      omega
    · rw [init_game_state_cursor]
      simp only [InBounds]
      omega
    · apply init_game_state_free
      · simp only [InBounds, goal_cell]
        omega
      · simp only [goal_cell]
        omega

theorem goal_cell_stays_free_witness :
    9 ≤ wide_cfg.GRID_WIDTH ∧ 3 ≤ wide_cfg.GRID_HEIGHT ∧
    ¬ (wide_cfg.GRID_WIDTH = 9 ∧ wide_cfg.GRID_HEIGHT = 3) ∧
    ((init_game_state wide_cfg blank_game).grid start_cell.x start_cell.y = TOWER_NONE ∧
    ∃ game, run_keys wide_cfg [InputKeyRight, InputKeyOk, InputKeyOk]
        (init_game_state wide_cfg blank_game) = some game ∧
      game.grid (goal_cell wide_cfg).x (goal_cell wide_cfg).y = TOWER_NONE) :=
  ⟨by decide, by decide, by decide,
    goal_cell_stays_free wide_cfg blank_game [InputKeyRight, InputKeyOk, InputKeyOk]
      (by decide) (by decide) (by decide)⟩

/-- C5 fails for the start cell: on a 16 x 7 grid, one confirm command in the
initial state (cursor on `(0, 0)`, gold 100) puts a `TOWER_NORMAL` on the
start cell. -/
theorem start_cell_occupied_after_confirm :
    Option.map (fun game => game.grid start_cell.x start_cell.y)
      (run_keys wide_cfg [InputKeyOk] (init_game_state wide_cfg blank_game))
      = some TOWER_NORMAL := by
  decide!

/-! ## Placement rules -/

theorem not_reachable_of_find_path_false (W H : Nat) (grid : Grid) (start goal : Coord)
    (hs : InBounds W H start) (p : List Coord)
    (h : find_path W H grid start goal = some (false, p)) :
    ¬ Reachable W H grid start goal := by
  intro hr
  obtain ⟨q, hq⟩ := (find_path_true_iff W H grid start goal hs).2 hr
  rw [hq] at h
  simp at h

/-- C6: for every state with gold >= 10 and an unoccupied cursor cell such
that putting a tower there leaves no route from start to goal, the confirm
command is rejected: it returns, and afterwards the whole grid (including the
cursor cell, still `TOWER_NONE`) and the gold balance equal their values
before the command. -/
theorem blocking_placement_rejected (cfg : Config) (game : GameState)
    (hc : InBounds cfg.GRID_WIDTH cfg.GRID_HEIGHT game.cursor)
    (hgold : game.gold ≥ 10)
    (hcell : game.grid game.cursor.x game.cursor.y = TOWER_NONE)
    (hblock : ¬ Reachable cfg.GRID_WIDTH cfg.GRID_HEIGHT
      (game.grid.set game.cursor.x game.cursor.y TOWER_NORMAL) start_cell (goal_cell cfg)) :
    ∃ game', on_input_key_ok cfg game = some game' ∧ game'.grid = game.grid ∧
      game'.grid game.cursor.x game.cursor.y = TOWER_NONE ∧ game'.gold = game.gold := by
  have hs := start_inBounds hc
  rcases find_path_cases cfg (game.grid.set game.cursor.x game.cursor.y TOWER_NORMAL) hs
    with ⟨p, hp⟩ | ⟨hp, _⟩
  · exact absurd ((find_path_true_iff _ _ _ _ _ hs).1 ⟨p, hp⟩) hblock
  · exact ⟨game, key_ok_reject cfg game [] hcell hgold hp, rfl, hcell, rfl⟩

theorem blocking_placement_rejected_witness :
    InBounds small_cfg.GRID_WIDTH small_cfg.GRID_HEIGHT (wall_game ⟨1, 2⟩ 100).cursor ∧
    (wall_game ⟨1, 2⟩ 100).gold ≥ 10 ∧
    (wall_game ⟨1, 2⟩ 100).grid (wall_game ⟨1, 2⟩ 100).cursor.x
      (wall_game ⟨1, 2⟩ 100).cursor.y = TOWER_NONE ∧
    ¬ Reachable small_cfg.GRID_WIDTH small_cfg.GRID_HEIGHT
      ((wall_game ⟨1, 2⟩ 100).grid.set (wall_game ⟨1, 2⟩ 100).cursor.x
        (wall_game ⟨1, 2⟩ 100).cursor.y TOWER_NORMAL) start_cell (goal_cell small_cfg) ∧
    ∃ game', on_input_key_ok small_cfg (wall_game ⟨1, 2⟩ 100) = some game' ∧
      game'.grid = (wall_game ⟨1, 2⟩ 100).grid ∧
      game'.grid (wall_game ⟨1, 2⟩ 100).cursor.x (wall_game ⟨1, 2⟩ 100).cursor.y
        = TOWER_NONE ∧
      game'.gold = (wall_game ⟨1, 2⟩ 100).gold :=
  have hblock : ¬ Reachable small_cfg.GRID_WIDTH small_cfg.GRID_HEIGHT
      ((wall_game ⟨1, 2⟩ 100).grid.set (wall_game ⟨1, 2⟩ 100).cursor.x
        (wall_game ⟨1, 2⟩ 100).cursor.y TOWER_NORMAL) start_cell (goal_cell small_cfg) :=
    not_reachable_of_find_path_false _ _ _ _ _ (by decide) [] (by decide)
  ⟨by decide, by decide, by decide, hblock,
    blocking_placement_rejected small_cfg (wall_game ⟨1, 2⟩ 100) (by decide) (by decide)
      (by decide) hblock⟩

/-- C7: for every state with an unoccupied cursor cell, gold >= 10 and a route
from start to goal still existing once the cell holds a tower, the confirm
command sets exactly that cell to `TOWER_NORMAL`, leaves every other grid
cell unchanged, and decreases gold by exactly 10. -/
theorem placement_commits (cfg : Config) (game : GameState)
    (hc : InBounds cfg.GRID_WIDTH cfg.GRID_HEIGHT game.cursor)
    (hcell : game.grid game.cursor.x game.cursor.y = TOWER_NONE)
    (hgold : game.gold ≥ 10)
    (hroute : Reachable cfg.GRID_WIDTH cfg.GRID_HEIGHT
      (game.grid.set game.cursor.x game.cursor.y TOWER_NORMAL) start_cell (goal_cell cfg)) :
    ∃ game', on_input_key_ok cfg game = some game' ∧
      game'.grid game.cursor.x game.cursor.y = TOWER_NORMAL ∧
      (∀ a b, ¬ (a = game.cursor.x ∧ b = game.cursor.y) → game'.grid a b = game.grid a b) ∧
      game'.gold = game.gold - 10 := by
  have hs := start_inBounds hc
  obtain ⟨p, hp⟩ := (find_path_true_iff _ _ _ _ _ hs).2 hroute
  refine ⟨_, key_ok_place cfg game p hcell hgold hp, ?_, ?_, rfl⟩
  · exact Grid.set_same _ _ _ _
  · intro a b hab
    exact Grid.set_ne _ _ _ _ _ _ hab

theorem placement_commits_witness :
    InBounds small_cfg.GRID_WIDTH small_cfg.GRID_HEIGHT (wall_game ⟨2, 0⟩ 100).cursor ∧
    (wall_game ⟨2, 0⟩ 100).grid (wall_game ⟨2, 0⟩ 100).cursor.x
      (wall_game ⟨2, 0⟩ 100).cursor.y = TOWER_NONE ∧
    (wall_game ⟨2, 0⟩ 100).gold ≥ 10 ∧
    Reachable small_cfg.GRID_WIDTH small_cfg.GRID_HEIGHT
      ((wall_game ⟨2, 0⟩ 100).grid.set (wall_game ⟨2, 0⟩ 100).cursor.x
        (wall_game ⟨2, 0⟩ 100).cursor.y TOWER_NORMAL) start_cell (goal_cell small_cfg) ∧
    ∃ game', on_input_key_ok small_cfg (wall_game ⟨2, 0⟩ 100) = some game' ∧
      game'.grid (wall_game ⟨2, 0⟩ 100).cursor.x (wall_game ⟨2, 0⟩ 100).cursor.y
        = TOWER_NORMAL ∧
      (∀ a b, ¬ (a = (wall_game ⟨2, 0⟩ 100).cursor.x ∧ b = (wall_game ⟨2, 0⟩ 100).cursor.y) →
        game'.grid a b = (wall_game ⟨2, 0⟩ 100).grid a b) ∧
      game'.gold = (wall_game ⟨2, 0⟩ 100).gold - 10 :=
  have hroute : Reachable small_cfg.GRID_WIDTH small_cfg.GRID_HEIGHT
      ((wall_game ⟨2, 0⟩ 100).grid.set (wall_game ⟨2, 0⟩ 100).cursor.x
        (wall_game ⟨2, 0⟩ 100).cursor.y TOWER_NORMAL) start_cell (goal_cell small_cfg) :=
    (find_path_true_iff _ _ _ _ _ (by decide)).1 ⟨wall_route, by decide⟩
  ⟨by decide, by decide, by decide, hroute,
    placement_commits small_cfg (wall_game ⟨2, 0⟩ 100) (by decide) (by decide) (by decide)
      hroute⟩

/-- C8: for every state with gold < 10 and an unoccupied cursor cell, the
confirm command is a no-op: it returns the state it was given, so grid, gold,
lives, wave, enemies and projectiles are all unchanged. -/
theorem poor_placement_noop (cfg : Config) (game : GameState)
    (_hc : InBounds cfg.GRID_WIDTH cfg.GRID_HEIGHT game.cursor)
    (hgold : game.gold < 10)
    (hcell : game.grid game.cursor.x game.cursor.y = TOWER_NONE) :
    ∃ game', on_input_key_ok cfg game = some game' ∧ game' = game ∧
      game'.grid = game.grid ∧ game'.gold = game.gold ∧ game'.lives = game.lives ∧
      game'.wave = game.wave ∧ game'.enemies = game.enemies ∧
      game'.projectiles = game.projectiles :=
  ⟨game, key_ok_poor cfg game hcell hgold, rfl, rfl, rfl, rfl, rfl, rfl, rfl⟩

theorem poor_placement_noop_witness :
    InBounds small_cfg.GRID_WIDTH small_cfg.GRID_HEIGHT (wall_game ⟨2, 0⟩ 9).cursor ∧
    (wall_game ⟨2, 0⟩ 9).gold < 10 ∧
    (wall_game ⟨2, 0⟩ 9).grid (wall_game ⟨2, 0⟩ 9).cursor.x (wall_game ⟨2, 0⟩ 9).cursor.y
      = TOWER_NONE ∧
    ∃ game', on_input_key_ok small_cfg (wall_game ⟨2, 0⟩ 9) = some game' ∧
      game' = wall_game ⟨2, 0⟩ 9 ∧
      game'.grid = (wall_game ⟨2, 0⟩ 9).grid ∧ game'.gold = (wall_game ⟨2, 0⟩ 9).gold ∧
      game'.lives = (wall_game ⟨2, 0⟩ 9).lives ∧ game'.wave = (wall_game ⟨2, 0⟩ 9).wave ∧
      game'.enemies = (wall_game ⟨2, 0⟩ 9).enemies ∧
      game'.projectiles = (wall_game ⟨2, 0⟩ 9).projectiles :=
  ⟨by decide, by decide, by decide,
    poor_placement_noop small_cfg (wall_game ⟨2, 0⟩ 9) (by decide) (by decide) (by decide)⟩

/-- C9: `next_tower_type` advances through the cycle None -> Normal -> Range
-> Splash -> Freeze -> None, so five applications return any kind to itself;
the confirm command on a cell holding Freeze is a sale (the cell becomes
`TOWER_NONE`, gold increases by exactly 5, no other cell changes); and the
confirm command on a cell holding Normal, Range or Splash whose re-validation
passes moves the cell to the next kind with gold and all other cells
unchanged. -/
theorem upgrade_cycle_and_sale (cfg : Config) (game : GameState)
    (hc : InBounds cfg.GRID_WIDTH cfg.GRID_HEIGHT game.cursor) :
    (next_tower_type TOWER_NONE = TOWER_NORMAL ∧ next_tower_type TOWER_NORMAL = TOWER_RANGE ∧
      next_tower_type TOWER_RANGE = TOWER_SPLASH ∧
      next_tower_type TOWER_SPLASH = TOWER_FREEZE ∧
      next_tower_type TOWER_FREEZE = TOWER_NONE) ∧
    (∀ t : TowerType,
      next_tower_type (next_tower_type (next_tower_type (next_tower_type
        (next_tower_type t)))) = t) ∧
    (game.grid game.cursor.x game.cursor.y = TOWER_FREEZE →
      ∃ game', on_input_key_ok cfg game = some game' ∧
        game'.grid game.cursor.x game.cursor.y = TOWER_NONE ∧
        (∀ a b, ¬ (a = game.cursor.x ∧ b = game.cursor.y) →
          game'.grid a b = game.grid a b) ∧
        game'.gold = game.gold + 5) ∧
    ((game.grid game.cursor.x game.cursor.y = TOWER_NORMAL ∨
        game.grid game.cursor.x game.cursor.y = TOWER_RANGE ∨
        game.grid game.cursor.x game.cursor.y = TOWER_SPLASH) →
      PathExists cfg (game.grid.set game.cursor.x game.cursor.y
        (next_tower_type (game.grid game.cursor.x game.cursor.y))) →
      ∃ game', on_input_key_ok cfg game = some game' ∧
        game'.grid game.cursor.x game.cursor.y
          = next_tower_type (game.grid game.cursor.x game.cursor.y) ∧
        (∀ a b, ¬ (a = game.cursor.x ∧ b = game.cursor.y) →
          game'.grid a b = game.grid a b) ∧
        game'.gold = game.gold) := by
  have _hs := start_inBounds hc
  refine ⟨⟨rfl, rfl, rfl, rfl, rfl⟩, ?_, ?_, ?_⟩
  · intro t
    cases t <;> rfl
  · intro hcell
    refine ⟨_, key_ok_sell cfg game hcell, ?_, ?_, rfl⟩
    · exact Grid.set_same _ _ _ _
    · intro a b hab
      exact Grid.set_ne _ _ _ _ _ _ hab
  · intro hkind hval
    obtain ⟨p, hp⟩ := (pathExists_iff cfg _).1 hval
    have hcell : game.grid game.cursor.x game.cursor.y ≠ TOWER_NONE := by
      rcases hkind with h | h | h <;> rw [h] <;> decide
    have hnext : next_tower_type (game.grid game.cursor.x game.cursor.y) ≠ TOWER_NONE := by
      rcases hkind with h | h | h <;> rw [h] <;> decide
    refine ⟨_, key_ok_upgrade cfg game p hcell hnext hp, ?_, ?_, rfl⟩
    · exact Grid.set_same _ _ _ _
    · intro a b hab
      exact Grid.set_ne _ _ _ _ _ _ hab

theorem upgrade_cycle_and_sale_witness :
    (InBounds small_cfg.GRID_WIDTH small_cfg.GRID_HEIGHT (wall_game ⟨1, 1⟩ 7).cursor ∧
      (wall_game ⟨1, 1⟩ 7).grid (wall_game ⟨1, 1⟩ 7).cursor.x (wall_game ⟨1, 1⟩ 7).cursor.y
        = TOWER_FREEZE ∧
      ∃ game', on_input_key_ok small_cfg (wall_game ⟨1, 1⟩ 7) = some game' ∧
        game'.grid (wall_game ⟨1, 1⟩ 7).cursor.x (wall_game ⟨1, 1⟩ 7).cursor.y
          = TOWER_NONE ∧
        (∀ a b, ¬ (a = (wall_game ⟨1, 1⟩ 7).cursor.x ∧ b = (wall_game ⟨1, 1⟩ 7).cursor.y) →
          game'.grid a b = (wall_game ⟨1, 1⟩ 7).grid a b) ∧
        game'.gold = (wall_game ⟨1, 1⟩ 7).gold + 5) ∧
    (InBounds small_cfg.GRID_WIDTH small_cfg.GRID_HEIGHT (wall_game ⟨1, 0⟩ 7).cursor ∧
      (wall_game ⟨1, 0⟩ 7).grid (wall_game ⟨1, 0⟩ 7).cursor.x (wall_game ⟨1, 0⟩ 7).cursor.y
        = TOWER_NORMAL ∧
      PathExists small_cfg ((wall_game ⟨1, 0⟩ 7).grid.set (wall_game ⟨1, 0⟩ 7).cursor.x
        (wall_game ⟨1, 0⟩ 7).cursor.y
        (next_tower_type ((wall_game ⟨1, 0⟩ 7).grid (wall_game ⟨1, 0⟩ 7).cursor.x
          (wall_game ⟨1, 0⟩ 7).cursor.y))) ∧
      ∃ game', on_input_key_ok small_cfg (wall_game ⟨1, 0⟩ 7) = some game' ∧
        game'.grid (wall_game ⟨1, 0⟩ 7).cursor.x (wall_game ⟨1, 0⟩ 7).cursor.y
          = next_tower_type ((wall_game ⟨1, 0⟩ 7).grid (wall_game ⟨1, 0⟩ 7).cursor.x
            (wall_game ⟨1, 0⟩ 7).cursor.y) ∧
        (∀ a b, ¬ (a = (wall_game ⟨1, 0⟩ 7).cursor.x ∧ b = (wall_game ⟨1, 0⟩ 7).cursor.y) →
          game'.grid a b = (wall_game ⟨1, 0⟩ 7).grid a b) ∧
        game'.gold = (wall_game ⟨1, 0⟩ 7).gold) :=
  ⟨⟨by decide, by decide,
      (upgrade_cycle_and_sale small_cfg (wall_game ⟨1, 1⟩ 7) (by decide)).2.2.1 (by decide)⟩,
    ⟨by decide, by decide, by decide,
      (upgrade_cycle_and_sale small_cfg (wall_game ⟨1, 0⟩ 7) (by decide)).2.2.2
        (Or.inl (by decide)) (by decide)⟩⟩

/-! ## Machine arithmetic -/

theorem wrap_int_eq (v : Int) (h1 : -2147483648 ≤ v) (h2 : v ≤ 2147483647) :
    wrap_int v = v := by
  unfold wrap_int
  omega

theorem bit_length_zero (fuel : Nat) : bit_length fuel 0 = 0 := by
  cases fuel <;> simp [bit_length]

theorem bit_length_spec : ∀ (fuel n : Nat), n ≤ fuel → 0 < n →
    ∃ k, bit_length fuel n = k + 1 ∧ 2 ^ k ≤ n ∧ n < 2 ^ (k + 1) := by
  intro fuel
  induction fuel with
  | zero =>
    intro n h hn
    omega
  | succ f ih =>
    intro n h hn
    have hn0 : n ≠ 0 := by omega
    rw [bit_length, if_neg hn0]
    rcases Nat.eq_zero_or_pos (n / 2) with h2 | h2
    · rw [h2, bit_length_zero]
      refine ⟨0, rfl, ?_, ?_⟩
      · simpa using hn
      · have : n < 2 := by omega
        simpa using this
    · obtain ⟨k, hk, hlo, hhi⟩ := ih (n / 2) (by omega) h2
      refine ⟨k + 1, by rw [hk], ?_, ?_⟩
      · rw [pow_succ]
        omega
      · rw [pow_succ]
        omega

theorem binade_spec (q : ℚ) (hq : 0 < q) :
    (2 : ℚ) ^ binade q ≤ q ∧ q < (2 : ℚ) ^ (binade q + 1) := by
  have hnum : 0 < q.num := Rat.num_pos.2 hq
  have hden : 0 < q.den := q.den_pos
  obtain ⟨a, ha, ha1, ha2⟩ := bit_length_spec q.num.natAbs q.num.natAbs (Nat.le_refl _)
    (Int.natAbs_pos.2 (ne_of_gt hnum))
  obtain ⟨b, hb, hb1, hb2⟩ := bit_length_spec q.den q.den (Nat.le_refl _) hden
  have hnumq : (q.num.natAbs : ℚ) = (q.num : ℚ) := by
    have h0 : (q.num.natAbs : Int) = q.num := Int.natAbs_of_nonneg (le_of_lt hnum)
    have h1 := congrArg (Int.cast : Int → ℚ) h0
    rw [Int.cast_natCast] at h1
    exact h1
  have hqeq : q = (q.num.natAbs : ℚ) / (q.den : ℚ) := by
    rw [hnumq]
    exact (Rat.num_div_den q).symm
  have hdq : (0 : ℚ) < (q.den : ℚ) := by exact_mod_cast hden
  have ha1q : (2 : ℚ) ^ a ≤ (q.num.natAbs : ℚ) := by exact_mod_cast ha1
  have ha2q : (q.num.natAbs : ℚ) < (2 : ℚ) ^ (a + 1) := by exact_mod_cast ha2
  have hb1q : (2 : ℚ) ^ b ≤ (q.den : ℚ) := by exact_mod_cast hb1
  have hb2q : (q.den : ℚ) < (2 : ℚ) ^ (b + 1) := by exact_mod_cast hb2
  have h2 : (0 : ℚ) < 2 := by norm_num
  have hpa : (0 : ℚ) < (2 : ℚ) ^ a := pow_pos h2 a
  have hpb : (0 : ℚ) < (2 : ℚ) ^ b := pow_pos h2 b
  -- bounds on q
  have hlow : (2 : ℚ) ^ ((a : Int) - (b : Int) - 1) ≤ q := by
    have he : (2 : ℚ) ^ ((a : Int) - (b : Int) - 1) = (2 : ℚ) ^ a / (2 : ℚ) ^ (b + 1) := by
      rw [show (a : Int) - (b : Int) - 1 = (a : Int) - ((b + 1 : Nat) : Int) by push_cast; ring,
        zpow_sub₀ (ne_of_gt h2), zpow_natCast, zpow_natCast]
    rw [he, hqeq]
    calc (2 : ℚ) ^ a / (2 : ℚ) ^ (b + 1) ≤ (q.num.natAbs : ℚ) / (2 : ℚ) ^ (b + 1) :=
          div_le_div_of_nonneg_right ha1q (pow_pos h2 _).le
      _ ≤ (q.num.natAbs : ℚ) / (q.den : ℚ) :=
          div_le_div_of_nonneg_left (le_trans hpa.le ha1q) hdq hb2q.le
  have hhigh : q < (2 : ℚ) ^ ((a : Int) - (b : Int) + 1) := by
    have he : (2 : ℚ) ^ ((a : Int) - (b : Int) + 1) = (2 : ℚ) ^ (a + 1) / (2 : ℚ) ^ b := by
      rw [show (a : Int) - (b : Int) + 1 = ((a + 1 : Nat) : Int) - (b : Int) by push_cast; ring,
        zpow_sub₀ (ne_of_gt h2), zpow_natCast, zpow_natCast]
    rw [he]
    calc q = (q.num.natAbs : ℚ) / (q.den : ℚ) := hqeq
      _ < (2 : ℚ) ^ (a + 1) / (q.den : ℚ) := div_lt_div_of_pos_right ha2q hdq
      _ ≤ (2 : ℚ) ^ (a + 1) / (2 : ℚ) ^ b :=
        div_le_div_of_nonneg_left (pow_pos h2 _).le hpb hb1q
  unfold binade
  simp only [ha, hb]
  have hcast : (((a + 1 : Nat) : Int) - ((b + 1 : Nat) : Int)) = (a : Int) - (b : Int) := by
    push_cast
    ring
  rw [hcast]
  by_cases hc : (2 : ℚ) ^ ((a : Int) - (b : Int)) ≤ q
  · rw [if_pos hc]
    exact ⟨hc, hhigh⟩
  · rw [if_neg hc]
    refine ⟨hlow, ?_⟩
    rw [sub_add_cancel]
    exact lt_of_not_le hc

theorem round_half_even_ge (x : ℚ) : ⌊x⌋ ≤ round_half_even x := by
  unfold round_half_even
  simp only
  split_ifs <;> omega

theorem round_half_even_le (x : ℚ) : round_half_even x ≤ ⌊x⌋ + 1 := by
  unfold round_half_even
  simp only
  split_ifs <;> omega

theorem round_half_even_err (x : ℚ) : |(round_half_even x : ℚ) - x| ≤ 1 / 2 := by
  have h1 : ((⌊x⌋ : Int) : ℚ) ≤ x := Int.floor_le x
  have h2 : x < ((⌊x⌋ : Int) : ℚ) + 1 := Int.lt_floor_add_one x
  unfold round_half_even
  simp only
  rw [abs_le]
  split_ifs with c1 c2 c3
  · constructor <;> linarith
  · push_cast
    constructor <;> linarith
  · constructor <;> linarith
  · push_cast
    constructor <;> linarith

theorem round_half_even_mono {x y : ℚ} (h : x ≤ y) :
    round_half_even x ≤ round_half_even y := by
  have hf : ⌊x⌋ ≤ ⌊y⌋ := Int.floor_mono h
  rcases lt_or_eq_of_le hf with hlt | heq
  · have h1 := round_half_even_le x
    have h2 := round_half_even_ge y
    omega
  · unfold round_half_even
    simp only
    rw [heq]
    split_ifs <;> first | omega | (exfalso; linarith)

theorem round_half_even_intCast (k : Int) : round_half_even (k : ℚ) = k := by
  unfold round_half_even
  simp

theorem two_zpow_pos (e : Int) : (0 : ℚ) < (2 : ℚ) ^ e :=
  zpow_pos (by norm_num) e

theorem binade_mono {x y : ℚ} (hx : 0 < x) (h : x ≤ y) : binade x ≤ binade y := by
  have h1 := (binade_spec x hx).1
  have h2 := (binade_spec y (lt_of_lt_of_le hx h)).2
  have h3 : (2 : ℚ) ^ binade x < (2 : ℚ) ^ (binade y + 1) :=
    lt_of_le_of_lt (le_trans h1 h) h2
  have h4 := (zpow_lt_zpow_iff_right₀ (by norm_num : (1 : ℚ) < 2)).1 h3
  omega

/-- Unfolding of `to_float` at a positive rational. -/
theorem to_float_pos (q : ℚ) (hq : 0 < q) :
    to_float q = (round_half_even (q / (2 : ℚ) ^ (max (binade q) (-126) - 23)) : ℚ)
      * (2 : ℚ) ^ (max (binade q) (-126) - 23) := by
  unfold to_float
  rw [if_neg (ne_of_gt hq), abs_of_pos hq]

theorem to_float_zero : to_float 0 = 0 := by
  unfold to_float
  rw [if_pos rfl]

theorem to_float_nonneg (q : ℚ) (hq : 0 ≤ q) : 0 ≤ to_float q := by
  rcases eq_or_lt_of_le hq with h0 | hpos
  · rw [← h0, to_float_zero]
  · rw [to_float_pos q hpos]
    have hu := two_zpow_pos (max (binade q) (-126) - 23)
    have h1 : (0 : ℚ) ≤ q / (2 : ℚ) ^ (max (binade q) (-126) - 23) :=
      div_nonneg hq hu.le
    have h2 := round_half_even_mono h1
    rw [show (0 : ℚ) = ((0 : Int) : ℚ) by norm_num, round_half_even_intCast] at h2
    have h3 : (0 : ℚ) ≤ (round_half_even (q / (2 : ℚ) ^ (max (binade q) (-126) - 23)) : ℚ) := by
      exact_mod_cast h2
    exact mul_nonneg h3 hu.le

/-- A positive rational is rounded to at most the power of two above it. -/
theorem to_float_le_pow (q : ℚ) (hq : 0 < q) :
    to_float q ≤ (2 : ℚ) ^ (max (binade q) (-126) + 1) := by
  rw [to_float_pos q hq]
  generalize he : max (binade q) (-126) = e
  have hb : binade q ≤ e := by
    rw [← he]
    exact le_max_left _ _
  have hu := two_zpow_pos (e - 23)
  have hq2 : q < (2 : ℚ) ^ (e + 1) :=
    lt_of_lt_of_le (binade_spec q hq).2
      (zpow_le_zpow_right₀ (by norm_num) (by omega))
  have hsplit : (2 : ℚ) ^ (e + 1) = ((2 ^ 24 : Int) : ℚ) * (2 : ℚ) ^ (e - 23) := by
    rw [show e + 1 = 24 + (e - 23) by ring, zpow_add₀ (by norm_num : (2 : ℚ) ≠ 0)]
    norm_num
  have h1 : q / (2 : ℚ) ^ (e - 23) ≤ ((2 ^ 24 : Int) : ℚ) := by
    rw [div_le_iff₀ hu, ← hsplit]
    exact hq2.le
  have h2 := round_half_even_mono h1
  rw [round_half_even_intCast] at h2
  have h3 : (round_half_even (q / (2 : ℚ) ^ (e - 23)) : ℚ) ≤ ((2 ^ 24 : Int) : ℚ) := by
    exact_mod_cast h2
  rw [hsplit]
  exact mul_le_mul_of_nonneg_right h3 hu.le

/-- A rational in the normal range is rounded to at least the power of two
below it. -/
theorem pow_le_to_float (q : ℚ) (hq : 0 < q) (hn : -126 ≤ binade q) :
    (2 : ℚ) ^ binade q ≤ to_float q := by
  have hq1 := (binade_spec q hq).1
  rw [to_float_pos q hq, max_eq_left hn]
  generalize binade q = e at hq1
  have hu := two_zpow_pos (e - 23)
  have hsplit : (2 : ℚ) ^ e = ((2 ^ 23 : Int) : ℚ) * (2 : ℚ) ^ (e - 23) := by
    rw [show e = 23 + (e - 23) by ring, zpow_add₀ (by norm_num : (2 : ℚ) ≠ 0)]
    norm_num
  have h1 : ((2 ^ 23 : Int) : ℚ) ≤ q / (2 : ℚ) ^ (e - 23) := by
    rw [le_div_iff₀ hu, ← hsplit]
    exact hq1
  have h2 := round_half_even_mono h1
  rw [round_half_even_intCast] at h2
  have h3 : ((2 ^ 23 : Int) : ℚ) ≤ (round_half_even (q / (2 : ℚ) ^ (e - 23)) : ℚ) := by
    exact_mod_cast h2
  rw [hsplit]
  exact mul_le_mul_of_nonneg_right h3 hu.le

/-- Rounding to `float` is monotone on the non-negative rationals. -/
theorem to_float_mono {x y : ℚ} (hx : 0 ≤ x) (h : x ≤ y) : to_float x ≤ to_float y := by
  rcases eq_or_lt_of_le hx with h0 | hpos
  · rw [← h0, to_float_zero]
    exact to_float_nonneg y (le_trans hx h)
  · have hy : 0 < y := lt_of_lt_of_le hpos h
    have hb := binade_mono hpos h
    rcases lt_or_eq_of_le (max_le_max hb (le_refl (-126 : Int))) with hlt | heq
    · have hny : -126 < binade y := by
        by_contra hc
        rw [max_eq_right (not_lt.1 hc)] at hlt
        have := le_max_right (binade x) (-126)
        omega
      have h1 := to_float_le_pow x hpos
      have h2 := pow_le_to_float y hy hny.le
      rw [max_eq_left hny.le] at hlt
      have h3 : (2 : ℚ) ^ (max (binade x) (-126) + 1) ≤ (2 : ℚ) ^ binade y :=
        zpow_le_zpow_right₀ (by norm_num) (by omega)
      exact le_trans h1 (le_trans h3 h2)
    · rw [to_float_pos x hpos, to_float_pos y hy, heq]
      have hu := two_zpow_pos (max (binade y) (-126) - 23)
      have h1 : x / (2 : ℚ) ^ (max (binade y) (-126) - 23)
          ≤ y / (2 : ℚ) ^ (max (binade y) (-126) - 23) :=
        div_le_div_of_nonneg_right h hu.le
      have h2 := round_half_even_mono h1
      have h3 : (round_half_even (x / (2 : ℚ) ^ (max (binade y) (-126) - 23)) : ℚ)
          ≤ (round_half_even (y / (2 : ℚ) ^ (max (binade y) (-126) - 23)) : ℚ) := by
        exact_mod_cast h2
      exact mul_le_mul_of_nonneg_right h3 hu.le

/-- Rounding a rational of the normal range to `float` changes it by at most
the fraction `2^-24` of its value. -/
theorem to_float_err (q : ℚ) (hq : (2 : ℚ) ^ (-126 : Int) ≤ q) :
    |to_float q - q| ≤ q / 2 ^ 24 := by
  have hpos : 0 < q := lt_of_lt_of_le (two_zpow_pos _) hq
  obtain ⟨hlo, hhi⟩ := binade_spec q hpos
  have hn : -126 ≤ binade q := by
    have h3 : (2 : ℚ) ^ (-126 : Int) < (2 : ℚ) ^ (binade q + 1) := lt_of_le_of_lt hq hhi
    have h4 := (zpow_lt_zpow_iff_right₀ (by norm_num : (1 : ℚ) < 2)).1 h3
    omega
  rw [to_float_pos q hpos, max_eq_left hn]
  generalize binade q = e at hlo
  have hu := two_zpow_pos (e - 23)
  have herr := round_half_even_err (q / (2 : ℚ) ^ (e - 23))
  have hsplit : (2 : ℚ) ^ e = 2 ^ 23 * (2 : ℚ) ^ (e - 23) := by
    rw [show e = 23 + (e - 23) by ring, zpow_add₀ (by norm_num : (2 : ℚ) ≠ 0)]
    norm_num
  have heq : (round_half_even (q / (2 : ℚ) ^ (e - 23)) : ℚ) * (2 : ℚ) ^ (e - 23) - q
      = ((round_half_even (q / (2 : ℚ) ^ (e - 23)) : ℚ) - q / (2 : ℚ) ^ (e - 23))
        * (2 : ℚ) ^ (e - 23) := by
    field_simp
  rw [heq, abs_mul, abs_of_pos hu]
  have h1 : |(round_half_even (q / (2 : ℚ) ^ (e - 23)) : ℚ) - q / (2 : ℚ) ^ (e - 23)|
      * (2 : ℚ) ^ (e - 23) ≤ 1 / 2 * (2 : ℚ) ^ (e - 23) :=
    mul_le_mul_of_nonneg_right herr hu.le
  have h2 : 1 / 2 * (2 : ℚ) ^ (e - 23) ≤ q / 2 ^ 24 := by
    rw [le_div_iff₀ (by norm_num : (0 : ℚ) < 2 ^ 24)]
    rw [hsplit] at hlo
    nlinarith
  exact le_trans h1 h2

/-! ## Wave parameters -/

/-- The literals `0.20f` and `0.05f` denote the `float` values
`13421773 / 2^26` and `13421773 / 2^28`. -/
theorem float_literals :
    to_float (20 / 100) = 13421773 / 67108864 ∧ to_float (5 / 100) = 13421773 / 268435456 ∧
    to_float (13421773 / 67108864) = 13421773 / 67108864 := by
  decide!

theorem to_float_bounds (q : ℚ) (hq : 1 / 64 ≤ q) :
    q - q / 2 ^ 24 ≤ to_float q ∧ to_float q ≤ q + q / 2 ^ 24 := by
  have h1 : (2 : ℚ) ^ (-126 : Int) ≤ (2 : ℚ) ^ (-6 : Int) :=
    zpow_le_zpow_right₀ (by norm_num) (by norm_num)
  have h2 : (2 : ℚ) ^ (-6 : Int) = 1 / 64 := by norm_num [zpow_neg]
  have h3 := to_float_err q (by rw [h2] at h1; exact le_trans h1 hq)
  rw [abs_le] at h3
  constructor <;> linarith [h3.1, h3.2]

/-- The speed computed in `float` arithmetic is within the fraction `2^-22` of
`0.20 + 0.05 * n`. -/
theorem enemy_speed_err (MAX_ENEMIES : Nat) (n : Nat) :
    |(get_wave_params machine_arithmetic MAX_ENEMIES (n : Int)).enemy_speed
        - ((0.20 : ℚ) + (0.05 : ℚ) * (n : ℚ))|
      ≤ ((0.20 : ℚ) + (0.05 : ℚ) * (n : ℚ)) / 2 ^ 22 := by
  obtain ⟨hc2, hc5, hfix⟩ := float_literals
  simp only [get_wave_params, machine_arithmetic]
  rw [hc2, hc5]
  push_cast
  rcases Nat.eq_zero_or_pos n with h0 | hpos
  · subst h0
    simp only [Nat.cast_zero, to_float_zero, mul_zero, add_zero]
    rw [hfix]
    norm_num [abs_le]
  · have hN : (1 : ℚ) ≤ (n : ℚ) := by exact_mod_cast hpos
    obtain ⟨l1, u1⟩ := to_float_bounds (n : ℚ) (by linarith)
    generalize to_float (n : ℚ) = x1 at l1 u1 ⊢
    obtain ⟨l2, u2⟩ := to_float_bounds (13421773 / 268435456 * x1) (by linarith)
    generalize to_float (13421773 / 268435456 * x1) = x2 at l2 u2 ⊢
    obtain ⟨l3, u3⟩ := to_float_bounds (13421773 / 67108864 + x2) (by linarith)
    generalize to_float (13421773 / 67108864 + x2) = x3 at l3 u3 ⊢
    rw [abs_le]
    constructor
    · norm_num at l1 l2 l3 ⊢
      linarith
    · norm_num at u1 u2 u3 ⊢
      linarith

/-- The speed computed in `float` arithmetic does not decrease with the wave
number: conversion, product and sum are monotone and so is each rounding. -/
theorem enemy_speed_mono (MAX_ENEMIES : Nat) (m n : Nat) (h : m ≤ n) :
    (get_wave_params machine_arithmetic MAX_ENEMIES (m : Int)).enemy_speed
      ≤ (get_wave_params machine_arithmetic MAX_ENEMIES (n : Int)).enemy_speed := by
  simp only [get_wave_params, machine_arithmetic]
  push_cast
  have hm : (0 : ℚ) ≤ (m : ℚ) := Nat.cast_nonneg m
  have hmn : (m : ℚ) ≤ (n : ℚ) := by exact_mod_cast h
  have h1 := to_float_mono hm hmn
  have hc : (0 : ℚ) ≤ to_float (5 / 100) := to_float_nonneg _ (by norm_num)
  have h2 : to_float (5 / 100) * to_float (m : ℚ) ≤ to_float (5 / 100) * to_float (n : ℚ) :=
    mul_le_mul_of_nonneg_left h1 hc
  have h3 := to_float_mono (mul_nonneg hc (to_float_nonneg _ hm)) h2
  have hc2 : (0 : ℚ) ≤ to_float (20 / 100) := to_float_nonneg _ (by norm_num)
  exact to_float_mono (add_nonneg hc2 (to_float_nonneg _ (mul_nonneg hc (to_float_nonneg _ hm))))
    (add_le_add_left h3 _)

/-- C10 (as the code behaves): for every wave number `n` with
`0 ≤ n ≤ INT_MAX`, `get_wave_params(n)` returns
`spawn_interval_ticks = 10 - n` when `n < 7` and `3` otherwise,
`enemy_hp = 3 + n` when `n ≤ INT_MAX - 3`,
`enemy_count = min(n + 2, MAX_ENEMIES)` when `n ≤ INT_MAX - 2`, and as
`enemy_speed` the single-precision value of `0.20f + 0.05f * n` (the two
literals, the conversion of `n`, the product and the sum each rounded to the
nearest `float`), which differs from `0.20 + 0.05 * n` by at most the fraction
`2^-22` of that number. -/
theorem get_wave_params_formula (MAX_ENEMIES : Nat) (n : Nat) (_hn : (n : Int) ≤ 2147483647) :
    ((n : Int) ≤ 2147483644 →
      (get_wave_params machine_arithmetic MAX_ENEMIES (n : Int)).enemy_hp = 3 + (n : Int)) ∧
    ((n : Int) ≤ 2147483645 →
      (get_wave_params machine_arithmetic MAX_ENEMIES (n : Int)).enemy_count
        = min ((n : Int) + 2) (MAX_ENEMIES : Int)) ∧
    (get_wave_params machine_arithmetic MAX_ENEMIES (n : Int)).spawn_interval_ticks
      = (if n < 7 then 10 - (n : Int) else 3) ∧
    (get_wave_params machine_arithmetic MAX_ENEMIES (n : Int)).enemy_speed
      = to_float (to_float (20 / 100) + to_float (to_float (5 / 100) * to_float (n : ℚ))) ∧
    |(get_wave_params machine_arithmetic MAX_ENEMIES (n : Int)).enemy_speed
        - ((0.20 : ℚ) + (0.05 : ℚ) * (n : ℚ))|
      ≤ ((0.20 : ℚ) + (0.05 : ℚ) * (n : ℚ)) / 2 ^ 22 := by
  refine ⟨?_, ?_, ?_, ?_, enemy_speed_err MAX_ENEMIES n⟩
  · intro h
    simp only [get_wave_params, machine_arithmetic]
    exact wrap_int_eq _ (by omega) (by omega)
  · intro h
    simp only [get_wave_params, machine_arithmetic]
    rw [wrap_int_eq _ (by omega) (by omega)]
    by_cases hc : (n : Int) + 2 > (MAX_ENEMIES : Int)
    · rw [if_pos hc, min_eq_right (by omega)]
    · rw [if_neg hc, min_eq_left (by omega)]
  · simp only [get_wave_params, machine_arithmetic]
    by_cases h7 : n < 7
    · have h7' : (n : Int) < 7 := by omega
      rw [if_pos h7, if_pos h7']
      exact wrap_int_eq _ (by omega) (by omega)
    · have h7' : ¬ (n : Int) < 7 := by omega
      rw [if_neg h7, if_neg h7']
  · simp only [get_wave_params, machine_arithmetic]
    push_cast
    rfl

theorem get_wave_params_formula_witness :
    ((2 : Nat) : Int) ≤ 2147483647 ∧
    ((((2 : Nat) : Int) ≤ 2147483644 →
      (get_wave_params machine_arithmetic 10 ((2 : Nat) : Int)).enemy_hp
        = 3 + ((2 : Nat) : Int)) ∧
    (((2 : Nat) : Int) ≤ 2147483645 →
      (get_wave_params machine_arithmetic 10 ((2 : Nat) : Int)).enemy_count
        = min (((2 : Nat) : Int) + 2) ((10 : Nat) : Int)) ∧
    (get_wave_params machine_arithmetic 10 ((2 : Nat) : Int)).spawn_interval_ticks
      = (if 2 < 7 then 10 - ((2 : Nat) : Int) else 3) ∧
    (get_wave_params machine_arithmetic 10 ((2 : Nat) : Int)).enemy_speed
      = to_float (to_float (20 / 100)
          + to_float (to_float (5 / 100) * to_float ((2 : Nat) : ℚ))) ∧
    |(get_wave_params machine_arithmetic 10 ((2 : Nat) : Int)).enemy_speed
        - ((0.20 : ℚ) + (0.05 : ℚ) * ((2 : Nat) : ℚ))|
      ≤ ((0.20 : ℚ) + (0.05 : ℚ) * ((2 : Nat) : ℚ)) / 2 ^ 22) :=
  ⟨by decide, get_wave_params_formula 10 2 (by decide)⟩

/-- C10 fails on the code in two ways.  At wave 2 the speed computed in
`float` arithmetic is `5033165 / 16777216`, which is not `0.20 + 0.05 * 2`.
At wave `INT_MAX = 2147483647` the sums `3 + wave_number` and
`wave_number + 2` wrap around: `enemy_hp` is `-2147483646`, not
`3 + 2147483647`, and `enemy_count` is `-2147483647`, not
`min(2147483647 + 2, 10)`. -/
theorem get_wave_params_rounds_and_wraps :
    (get_wave_params machine_arithmetic 10 2).enemy_speed = 5033165 / 16777216 ∧
    (get_wave_params machine_arithmetic 10 2).enemy_speed ≠ (0.20 : ℚ) + (0.05 : ℚ) * 2 ∧
    (get_wave_params machine_arithmetic 10 2147483647).enemy_hp = -2147483646 ∧
    (get_wave_params machine_arithmetic 10 2147483647).enemy_hp ≠ 3 + 2147483647 ∧
    (get_wave_params machine_arithmetic 10 2147483647).enemy_count = -2147483647 ∧
    (get_wave_params machine_arithmetic 10 2147483647).enemy_count
      ≠ min (2147483647 + 2) ((10 : Nat) : Int) := by
  decide!

/-- C11 (as the code behaves): for all wave numbers `0 ≤ m ≤ n ≤ INT_MAX`,
`get_wave_params(m).enemy_speed ≤ get_wave_params(n).enemy_speed` and
`get_wave_params(m).spawn_interval_ticks ≥ get_wave_params(n).spawn_interval_ticks ≥ 3`;
`get_wave_params(m).enemy_hp ≤ get_wave_params(n).enemy_hp` when
`n ≤ INT_MAX - 3`; and for every wave number, negative ones included, the
`enemy_count` is at most `MAX_ENEMIES`. -/
theorem get_wave_params_monotone (MAX_ENEMIES : Nat) (m n : Nat) (h : m ≤ n)
    (_hn : (n : Int) ≤ 2147483647) :
    ((n : Int) ≤ 2147483644 →
      (get_wave_params machine_arithmetic MAX_ENEMIES (m : Int)).enemy_hp
        ≤ (get_wave_params machine_arithmetic MAX_ENEMIES (n : Int)).enemy_hp) ∧
    (get_wave_params machine_arithmetic MAX_ENEMIES (m : Int)).enemy_speed
      ≤ (get_wave_params machine_arithmetic MAX_ENEMIES (n : Int)).enemy_speed ∧
    (get_wave_params machine_arithmetic MAX_ENEMIES (m : Int)).spawn_interval_ticks
      ≥ (get_wave_params machine_arithmetic MAX_ENEMIES (n : Int)).spawn_interval_ticks ∧
    (get_wave_params machine_arithmetic MAX_ENEMIES (n : Int)).spawn_interval_ticks ≥ 3 ∧
    (∀ k : Int, (get_wave_params machine_arithmetic MAX_ENEMIES k).enemy_count
      ≤ (MAX_ENEMIES : Int)) := by
  have hmn : (m : Int) ≤ (n : Int) := by exact_mod_cast h
  refine ⟨?_, enemy_speed_mono MAX_ENEMIES m n h, ?_, ?_, ?_⟩
  · intro hb
    simp only [get_wave_params, machine_arithmetic]
    rw [wrap_int_eq _ (by omega) (by omega), wrap_int_eq _ (by omega) (by omega)]
    omega
  · simp only [get_wave_params, machine_arithmetic]
    by_cases h1 : (m : Int) < 7 <;> by_cases h2 : (n : Int) < 7 <;>
      simp only [h1, h2, if_true, if_false] <;>
      first
      | (rw [wrap_int_eq _ (by omega) (by omega), wrap_int_eq _ (by omega) (by omega)]; omega)
      | (rw [wrap_int_eq _ (by omega) (by omega)]; omega)
      | omega
  · simp only [get_wave_params, machine_arithmetic]
    by_cases h2 : (n : Int) < 7
    · simp only [h2, if_true]
      rw [wrap_int_eq _ (by omega) (by omega)]
      omega
    · simp only [h2, if_false]
      omega
  · intro k
    simp only [get_wave_params, machine_arithmetic]
    by_cases h3 : wrap_int (k + 2) > (MAX_ENEMIES : Int)
    · rw [if_pos h3]
    · rw [if_neg h3]
      omega

theorem get_wave_params_monotone_witness :
    2 ≤ 9 ∧ ((9 : Nat) : Int) ≤ 2147483647 ∧
    ((((9 : Nat) : Int) ≤ 2147483644 →
      (get_wave_params machine_arithmetic 10 ((2 : Nat) : Int)).enemy_hp
        ≤ (get_wave_params machine_arithmetic 10 ((9 : Nat) : Int)).enemy_hp) ∧
    (get_wave_params machine_arithmetic 10 ((2 : Nat) : Int)).enemy_speed
      ≤ (get_wave_params machine_arithmetic 10 ((9 : Nat) : Int)).enemy_speed ∧
    (get_wave_params machine_arithmetic 10 ((2 : Nat) : Int)).spawn_interval_ticks
      ≥ (get_wave_params machine_arithmetic 10 ((9 : Nat) : Int)).spawn_interval_ticks ∧
    (get_wave_params machine_arithmetic 10 ((9 : Nat) : Int)).spawn_interval_ticks ≥ 3 ∧
    (∀ k : Int, (get_wave_params machine_arithmetic 10 k).enemy_count ≤ ((10 : Nat) : Int))) :=
  ⟨by decide, by decide, get_wave_params_monotone 10 2 9 (by decide) (by decide)⟩

/-- C11 fails on the code for `enemy_hp`: with `m = 0` and
`n = INT_MAX = 2147483647` the sum `3 + wave_number` wraps around at `n`, so
`get_wave_params(n).enemy_hp = -2147483646` is less than
`get_wave_params(m).enemy_hp = 3`. -/
theorem enemy_hp_not_monotone :
    (0 : Int) ≤ 2147483647 ∧
    (get_wave_params machine_arithmetic 10 0).enemy_hp = 3 ∧
    (get_wave_params machine_arithmetic 10 2147483647).enemy_hp = -2147483646 ∧
    ¬ ((get_wave_params machine_arithmetic 10 0).enemy_hp
      ≤ (get_wave_params machine_arithmetic 10 2147483647).enemy_hp) := by
  decide

/-! ## Occupancy of the start and goal cells in `find_path` -/

theorem visit_neighbour_agree {W H : Nat} {g g' : Grid} {start : Coord}
    (hag : AgreeOff start g g') (cur : Coord) (s : BfsState)
    (hv : s.visited (idx H start.x start.y) = true) (d : Int × Int) :
    visit_neighbour W H g cur s d = visit_neighbour W H g' cur s d ∧
      (visit_neighbour W H g cur s d).visited (idx H start.x start.y) = true := by
  unfold visit_neighbour
  simp only
  by_cases hoob : cur.x + d.1 < 0 ∨ cur.x + d.1 ≥ (W : Int) ∨ cur.y + d.2 < 0 ∨
      cur.y + d.2 ≥ (H : Int)
  · rw [if_pos hoob, if_pos hoob]
    exact ⟨rfl, hv⟩
  · rw [if_neg hoob, if_neg hoob]
    have hin : InBounds W H ⟨cur.x + d.1, cur.y + d.2⟩ := by
      simp only [InBounds]
      omega
    by_cases hst : cur.x + d.1 = start.x ∧ cur.y + d.2 = start.y
    · rw [hst.1, hst.2, hv]
      simp only [Bool.not_true, Bool.false_and, Bool.false_eq_true, if_false]
      exact ⟨trivial, hv⟩
    · rw [hag _ _ hst]
      refine ⟨rfl, ?_⟩
      by_cases hc : ((!s.visited (idx H (cur.x + d.1) (cur.y + d.2))) &&
          decide (g' (cur.x + d.1) (cur.y + d.2) = TOWER_NONE)) = true
      · rw [if_pos hc]
        show store s.visited _ true (idx H start.x start.y) = true
        by_cases he : idx H start.x start.y = idx H (cur.x + d.1) (cur.y + d.2)
        · rw [he]
          exact store_same _ _ _
        · rw [store_ne _ _ _ _ he]
          exact hv
      · rw [if_neg hc]
        exact hv

theorem foldl_visit_agree {W H : Nat} {g g' : Grid} {start : Coord}
    (hag : AgreeOff start g g') (cur : Coord)
    (l : List (Int × Int)) :
    ∀ s : BfsState, s.visited (idx H start.x start.y) = true →
      l.foldl (visit_neighbour W H g cur) s = l.foldl (visit_neighbour W H g' cur) s ∧
      (l.foldl (visit_neighbour W H g cur) s).visited (idx H start.x start.y) = true := by
  induction l with
  | nil =>
    intro s hv
    exact ⟨rfl, hv⟩
  | cons d l ih =>
    intro s hv
    obtain ⟨h1, h2⟩ := visit_neighbour_agree hag cur s hv d
    simp only [List.foldl_cons]
    rw [← h1]
    exact ih _ h2

theorem bfs_loop_agree {W H : Nat} {g g' : Grid} {start : Coord}
    (hag : AgreeOff start g g') (goal : Coord) :
    ∀ (fuel : Nat) (s : BfsState), s.visited (idx H start.x start.y) = true →
      bfs_loop W H g goal fuel s = bfs_loop W H g' goal fuel s := by
  intro fuel
  induction fuel with
  | zero =>
    intro s _
    rfl
  | succ fuel ih =>
    intro s hv
    unfold bfs_loop
    by_cases hlt : s.front < s.rear
    · rw [if_pos hlt, if_pos hlt]
      simp only
      by_cases hg : (s.queue s.front).x = goal.x ∧ (s.queue s.front).y = goal.y
      · rw [if_pos hg, if_pos hg]
      · rw [if_neg hg, if_neg hg]
        obtain ⟨h1, h2⟩ := foldl_visit_agree hag (s.queue s.front) directions
          { s with front := s.front + 1 } hv
        unfold expand
        rw [← h1]
        exact ih _ h2
    · rw [if_neg hlt, if_neg hlt]

/-- The occupancy of the start cell has no influence on `find_path`. -/
theorem find_path_agree {W H : Nat} {g g' : Grid} {start : Coord}
    (hag : AgreeOff start g g') (goal : Coord) :
    find_path W H g start goal = find_path W H g' start goal := by
  unfold find_path
  simp only
  have hv : (bfs_init H start).visited (idx H start.x start.y) = true :=
    store_same (fun _ => false) (idx H start.x start.y) true
  rw [bfs_loop_agree hag goal (W * H + 1) (bfs_init H start) hv]

theorem agreeOff_set (g : Grid) (c : Coord) (v : TowerType) :
    AgreeOff c (g.set c.x c.y v) g := by
  intro a b hab
  exact Grid.set_ne _ _ _ _ _ _ hab

/-- C20 (as the code behaves): `find_path` treats the start cell as passable
regardless of its occupancy value: changing the occupancy of the start cell
(all other cells fixed) does not change what `find_path` returns.  The goal
cell is not exempt: when the goal differs from the start, `find_path` returns
a path only if the goal cell's occupancy is `TOWER_NONE`, and it returns
`false` once the goal cell holds a tower. -/
theorem find_path_start_passable (W H : Nat) (grid : Grid) (start goal : Coord)
    (hs : InBounds W H start) (_hg : InBounds W H goal) (v : TowerType) :
    find_path W H (grid.set start.x start.y v) start goal = find_path W H grid start goal ∧
    (start ≠ goal → (∃ p, find_path W H grid start goal = some (true, p)) →
      grid goal.x goal.y = TOWER_NONE) ∧
    (start ≠ goal → v ≠ TOWER_NONE →
      find_path W H (grid.set goal.x goal.y v) start goal = some (false, [])) := by
  refine ⟨find_path_agree (agreeOff_set grid start v) goal, ?_, ?_⟩
  · intro hne hp
    exact goal_free_of_reachable ((find_path_true_iff W H grid start goal hs).1 hp) hne
  · intro hne hv
    rcases find_path_spec W H (grid.set goal.x goal.y v) start goal hs
      with ⟨p, _, hr, _⟩ | ⟨hp, _⟩
    · have := goal_free_of_reachable ⟨p, hr⟩ hne
      rw [Grid.set_same] at this
      exact absurd this hv
    · exact hp

theorem find_path_start_passable_witness :
    InBounds 3 3 ⟨0, 0⟩ ∧ InBounds 3 3 ⟨2, 2⟩ ∧
    (find_path 3 3 (wall_grid.set (⟨0, 0⟩ : Coord).x (⟨0, 0⟩ : Coord).y TOWER_SPLASH)
        ⟨0, 0⟩ ⟨2, 2⟩ = find_path 3 3 wall_grid ⟨0, 0⟩ ⟨2, 2⟩ ∧
      ((⟨0, 0⟩ : Coord) ≠ ⟨2, 2⟩ →
        (∃ p, find_path 3 3 wall_grid ⟨0, 0⟩ ⟨2, 2⟩ = some (true, p)) →
        wall_grid (⟨2, 2⟩ : Coord).x (⟨2, 2⟩ : Coord).y = TOWER_NONE) ∧
      ((⟨0, 0⟩ : Coord) ≠ ⟨2, 2⟩ → TOWER_SPLASH ≠ TOWER_NONE →
        find_path 3 3 (wall_grid.set (⟨2, 2⟩ : Coord).x (⟨2, 2⟩ : Coord).y TOWER_SPLASH)
          ⟨0, 0⟩ ⟨2, 2⟩ = some (false, []))) :=
  ⟨by decide, by decide,
    find_path_start_passable 3 3 wall_grid ⟨0, 0⟩ ⟨2, 2⟩ (by decide) (by decide) TOWER_SPLASH⟩

/-- C20 fails for the goal cell: on the 3 x 3 grid `wall_grid`, `find_path`
from `(0, 0)` to `(2, 2)` returns `true`, and it returns `false` once the goal
cell `(2, 2)` holds a tower while all other cells are unchanged. -/
theorem goal_occupancy_changes_find_path :
    Option.map Prod.fst (find_path 3 3 wall_grid ⟨0, 0⟩ ⟨2, 2⟩) = some true ∧
    Option.map Prod.fst (find_path 3 3 (wall_grid.set 2 2 TOWER_NORMAL) ⟨0, 0⟩ ⟨2, 2⟩)
      = some false := by
  decide

/-! ## Projectile resolution: what stays fixed -/

theorem damaged_refl (e : Enemy) : Damaged e e :=
  ⟨rfl, rfl, rfl, rfl, Or.inl rfl⟩

theorem damaged_trans {e e' e'' : Enemy} (h1 : Damaged e e') (h2 : Damaged e' e'') :
    Damaged e e'' := by
  refine ⟨h2.active.trans h1.active, h2.pos.trans h1.pos,
    h2.path_index.trans h1.path_index, h2.progress.trans h1.progress, ?_⟩
  rcases h2.timer with h | h
  · rcases h1.timer with h' | h'
    · exact Or.inl (h.trans h')
    · exact Or.inr (h.trans h')
  · exact Or.inr h

theorem damageOnly_refl (g : GameState) : DamageOnly g g :=
  ⟨rfl, rfl, rfl, rfl, rfl, rfl, rfl, rfl, fun _ => damaged_refl _⟩

theorem damageOnly_trans {g g' g'' : GameState} (h1 : DamageOnly g g')
    (h2 : DamageOnly g' g'') : DamageOnly g g'' :=
  ⟨h2.lives.trans h1.lives, h2.gold.trans h1.gold, h2.wave.trans h1.wave,
    h2.grid.trans h1.grid, h2.cursor.trans h1.cursor,
    h2.wave_spawn_index.trans h1.wave_spawn_index,
    h2.pre_wave_timer.trans h1.pre_wave_timer,
    h2.wave_spawn_timer.trans h1.wave_spawn_timer,
    fun i => damaged_trans (h1.enemies i) (h2.enemies i)⟩

theorem damaged_store_hp (es : Nat → Enemy) (j : Nat) (hp : Int) (k : Nat) :
    Damaged (es k) (store es j { es j with hp := hp } k) := by
  by_cases h : k = j
  · subst h
    rw [store_same]
    exact ⟨rfl, rfl, rfl, rfl, Or.inl rfl⟩
  · rw [store_ne _ _ _ _ h]
    exact damaged_refl _

theorem damaged_store_timer (es : Nat → Enemy) (j : Nat) (k : Nat) :
    Damaged (es k) (store es j { es j with freeze_timer := 3 } k) := by
  by_cases h : k = j
  · subst h
    rw [store_same]
    exact ⟨rfl, rfl, rfl, rfl, Or.inr rfl⟩
  · rw [store_ne _ _ _ _ h]
    exact damaged_refl _

theorem splash_enemy_damaged (i : Nat) (damage : Int) (es : Nat → Enemy) (j k : Nat) :
    Damaged (es k) (splash_enemy i damage es j k) := by
  unfold splash_enemy
  split
  · exact damaged_store_hp es j _ k
  · exact damaged_refl _

theorem foldl_splash_damaged (i : Nat) (damage : Int) (l : List Nat) :
    ∀ (es : Nat → Enemy) (k : Nat),
      Damaged (es k) (l.foldl (splash_enemy i damage) es k) := by
  induction l with
  | nil =>
    intro es k
    exact damaged_refl _
  | cons j l ih =>
    intro es k
    simp only [List.foldl_cons]
    exact damaged_trans (splash_enemy_damaged i damage es j k) (ih _ k)

theorem hit_enemy_damageOnly (cfg : Config) (g : GameState) (p i : Nat) :
    DamageOnly g (hit_enemy cfg g p i) := by
  refine ⟨rfl, rfl, rfl, rfl, rfl, rfl, rfl, rfl, ?_⟩
  intro k
  show Damaged (g.enemies k) ((hit_enemy cfg g p i).enemies k)
  unfold hit_enemy
  simp only
  have h1 := damaged_store_hp g.enemies i ((g.enemies i).hp - (g.projectiles p).damage) k
  generalize store g.enemies i
    { g.enemies i with hp := (g.enemies i).hp - (g.projectiles p).damage } = es1 at h1 ⊢
  have h2 : Damaged (g.enemies k)
      ((if (g.projectiles p).tower_type = TOWER_FREEZE then
        store es1 i { es1 i with freeze_timer := 3 } else es1) k) := by
    split
    · exact damaged_trans h1 (damaged_store_timer es1 i k)
    · exact h1
  generalize (if (g.projectiles p).tower_type = TOWER_FREEZE then
    store es1 i { es1 i with freeze_timer := 3 } else es1) = es2 at h2 ⊢
  split
  · exact damaged_trans h2 (foldl_splash_damaged i _ _ es2 k)
  · exact h2

theorem hit_enemy_projectiles (cfg : Config) (g : GameState) (p i q : Nat) (h : q ≠ p) :
    (hit_enemy cfg g p i).projectiles q = g.projectiles q :=
  store_ne _ _ _ _ h

theorem collide_scan_damageOnly (dsp : Display) (cfg : Config) (p : Nat) :
    ∀ (n i : Nat) (g : GameState), DamageOnly g (collide_scan dsp cfg p n i g) := by
  intro n
  induction n with
  | zero =>
    intro i g
    exact damageOnly_refl g
  | succ n ih =>
    intro i g
    unfold collide_scan
    split
    · exact hit_enemy_damageOnly cfg g p i
    · exact ih (i + 1) g

theorem collide_scan_projectiles (dsp : Display) (cfg : Config) (p q : Nat) (h : q ≠ p) :
    ∀ (n i : Nat) (g : GameState),
      (collide_scan dsp cfg p n i g).projectiles q = g.projectiles q := by
  intro n
  induction n with
  | zero =>
    intro i g
    rfl
  | succ n ih =>
    intro i g
    unfold collide_scan
    split
    · exact hit_enemy_projectiles cfg g p i q h
    · exact ih (i + 1) g

theorem update_projectile_damageOnly (dsp : Display) (cfg : Config) (g : GameState) (p : Nat) :
    DamageOnly g (update_projectile dsp cfg g p) := by
  unfold update_projectile
  split
  · simp only
    split
    · exact ⟨rfl, rfl, rfl, rfl, rfl, rfl, rfl, rfl, fun i => damaged_refl _⟩
    · have h1 : DamageOnly g
          { g with projectiles := store g.projectiles p (moved (g.projectiles p)) } :=
        ⟨rfl, rfl, rfl, rfl, rfl, rfl, rfl, rfl, fun i => damaged_refl _⟩
      exact damageOnly_trans h1 (collide_scan_damageOnly dsp cfg p _ _ _)
  · exact damageOnly_refl g

theorem update_projectile_others (dsp : Display) (cfg : Config) (g : GameState) (p q : Nat)
    (h : q ≠ p) : (update_projectile dsp cfg g p).projectiles q = g.projectiles q := by
  unfold update_projectile
  split
  · simp only
    split
    · show store (store g.projectiles p _) p _ q = g.projectiles q
      rw [store_ne _ _ _ _ h, store_ne _ _ _ _ h]
    · rw [collide_scan_projectiles dsp cfg p q h]
      exact store_ne _ _ _ _ h
  · rfl

theorem foldl_update_projectile_damageOnly (dsp : Display) (cfg : Config) (l : List Nat) :
    ∀ g : GameState, DamageOnly g (l.foldl (update_projectile dsp cfg) g) := by
  induction l with
  | nil =>
    intro g
    exact damageOnly_refl g
  | cons p l ih =>
    intro g
    simp only [List.foldl_cons]
    exact damageOnly_trans (update_projectile_damageOnly dsp cfg g p) (ih _)

theorem resolve_projectiles_damageOnly (dsp : Display) (cfg : Config) (g : GameState) :
    DamageOnly g (resolve_projectiles dsp cfg g) :=
  foldl_update_projectile_damageOnly dsp cfg _ g

/-! ## Reaping dead enemies -/

/-- Closed form of the last loop of `update_projectiles` after `n` slots. -/
theorem foldl_reap_enemy (n : Nat) (g : GameState) :
    (List.range n).foldl reap_enemy g =
      { g with
        enemies := fun i =>
          if i < n ∧ (g.enemies i).active = true ∧ (g.enemies i).hp ≤ 0 then
            { g.enemies i with active := false }
          else g.enemies i
        gold := g.gold + 5 * (((List.range n).countP
          (fun i => (g.enemies i).active && decide ((g.enemies i).hp ≤ 0)) : Nat) : Int) } := by
  induction n with
  | zero =>
    simp only [List.range_zero, List.foldl_nil, List.countP_nil, Nat.not_lt_zero, false_and,
      if_false, Nat.cast_zero, mul_zero, add_zero]
  | succ n ih =>
    rw [List.range_succ, List.foldl_append, ih]
    simp only [List.foldl_cons, List.foldl_nil, List.countP_append, List.countP_cons,
      List.countP_nil]
    unfold reap_enemy
    simp only [Nat.lt_irrefl, false_and, if_false]
    by_cases hc : (g.enemies n).active = true ∧ (g.enemies n).hp ≤ 0
    · rw [if_pos hc]
      have hb : ((g.enemies n).active && decide ((g.enemies n).hp ≤ 0)) = true := by
        simp [hc.1, hc.2]
      simp only [hb, if_true, GameState.mk.injEq, true_and, and_true]
      refine ⟨?_, ?_⟩
      · push_cast
        ring
      · funext i
        by_cases hi : i = n
        · subst hi
          have : i < i + 1 ∧ (g.enemies i).active = true ∧ (g.enemies i).hp ≤ 0 :=
            ⟨Nat.lt_succ_self i, hc⟩
          rw [store_same, if_pos this]
        · rw [store_ne _ _ _ _ hi]
          by_cases h1 : i < n ∧ (g.enemies i).active = true ∧ (g.enemies i).hp ≤ 0
          · have h2 : i < n + 1 ∧ (g.enemies i).active = true ∧ (g.enemies i).hp ≤ 0 :=
              ⟨Nat.lt_succ_of_lt h1.1, h1.2⟩
            rw [if_pos h1, if_pos h2]
          · have h2 : ¬ (i < n + 1 ∧ (g.enemies i).active = true ∧ (g.enemies i).hp ≤ 0) := by
              intro h
              exact h1 ⟨by omega, h.2⟩
            rw [if_neg h1, if_neg h2]
    · rw [if_neg hc]
      have hb : ((g.enemies n).active && decide ((g.enemies n).hp ≤ 0)) = false := by
        by_contra hne
        apply hc
        simpa using hne
      simp only [hb, Bool.false_eq_true, if_false, add_zero, GameState.mk.injEq, true_and,
        and_true]
      funext i
      by_cases h1 : i < n ∧ (g.enemies i).active = true ∧ (g.enemies i).hp ≤ 0
      · have h2 : i < n + 1 ∧ (g.enemies i).active = true ∧ (g.enemies i).hp ≤ 0 :=
          ⟨Nat.lt_succ_of_lt h1.1, h1.2⟩
        rw [if_pos h1, if_pos h2]
      · have h2 : ¬ (i < n + 1 ∧ (g.enemies i).active = true ∧ (g.enemies i).hp ≤ 0) := by
          intro h
          rcases Nat.lt_succ_iff_lt_or_eq.1 h.1 with hlt | heq
          · exact h1 ⟨hlt, h.2⟩
          · subst heq
            exact hc h.2
        rw [if_neg h1, if_neg h2]

theorem update_projectiles_enemy (dsp : Display) (cfg : Config) (g : GameState) (i : Nat) :
    (update_projectiles dsp cfg g).enemies i =
      if i < cfg.MAX_ENEMIES ∧ ((resolve_projectiles dsp cfg g).enemies i).active = true ∧
          ((resolve_projectiles dsp cfg g).enemies i).hp ≤ 0 then
        { (resolve_projectiles dsp cfg g).enemies i with active := false }
      else (resolve_projectiles dsp cfg g).enemies i := by
  unfold update_projectiles reap_enemies
  rw [foldl_reap_enemy]

theorem update_projectiles_gold (dsp : Display) (cfg : Config) (g : GameState) :
    (update_projectiles dsp cfg g).gold =
      g.gold + 5 * ((deactivated cfg.MAX_ENEMIES g.enemies
        (update_projectiles dsp cfg g).enemies : Nat) : Int) := by
  have hd := resolve_projectiles_damageOnly dsp cfg g
  have hcount : deactivated cfg.MAX_ENEMIES g.enemies (update_projectiles dsp cfg g).enemies =
      (List.range cfg.MAX_ENEMIES).countP
        (fun i => ((resolve_projectiles dsp cfg g).enemies i).active &&
          decide (((resolve_projectiles dsp cfg g).enemies i).hp ≤ 0)) := by
    unfold deactivated
    apply List.countP_congr
    intro i hi
    have hi' : i < cfg.MAX_ENEMIES := List.mem_range.1 hi
    rw [update_projectiles_enemy, ← (hd.enemies i).active]
    by_cases hc : ((resolve_projectiles dsp cfg g).enemies i).active = true ∧
        ((resolve_projectiles dsp cfg g).enemies i).hp ≤ 0
    · rw [if_pos ⟨hi', hc⟩]
      simp [hc.1, hc.2]
    · have hn : ¬ (i < cfg.MAX_ENEMIES ∧
          ((resolve_projectiles dsp cfg g).enemies i).active = true ∧
          ((resolve_projectiles dsp cfg g).enemies i).hp ≤ 0) := fun h => hc h.2
      rw [if_neg hn]
      cases ha : ((resolve_projectiles dsp cfg g).enemies i).active
      · simp
      · simp only [ha, true_and, not_le] at hc
        simp [hc]
  rw [hcount]
  unfold update_projectiles reap_enemies
  rw [foldl_reap_enemy]
  show (resolve_projectiles dsp cfg g).gold + _ = _
  rw [hd.gold]

/-- C12: for every state, after `update_projectiles` no active enemy of the
pool has `hp <= 0`; an enemy that was active before the call is inactive after
it exactly when its `hp` after damage resolution is `<= 0` (the last loop does
not change `hp`); and gold after the call equals gold before plus exactly 5
times the number of enemies deactivated by the call. -/
theorem update_projectiles_reaps (dsp : Display) (cfg : Config) (game : GameState) :
    (∀ i, i < cfg.MAX_ENEMIES → ((update_projectiles dsp cfg game).enemies i).active = true →
      ((update_projectiles dsp cfg game).enemies i).hp > 0) ∧
    (∀ i, i < cfg.MAX_ENEMIES → (game.enemies i).active = true →
      (((update_projectiles dsp cfg game).enemies i).active = false ↔
        ((resolve_projectiles dsp cfg game).enemies i).hp ≤ 0)) ∧
    (∀ i, ((update_projectiles dsp cfg game).enemies i).hp
      = ((resolve_projectiles dsp cfg game).enemies i).hp) ∧
    (update_projectiles dsp cfg game).gold =
      game.gold + 5 * ((deactivated cfg.MAX_ENEMIES game.enemies
        (update_projectiles dsp cfg game).enemies : Nat) : Int) := by
  have hd := resolve_projectiles_damageOnly dsp cfg game
  refine ⟨?_, ?_, ?_, update_projectiles_gold dsp cfg game⟩
  · intro i hi
    rw [update_projectiles_enemy]
    by_cases hc : i < cfg.MAX_ENEMIES ∧
        ((resolve_projectiles dsp cfg game).enemies i).active = true ∧
        ((resolve_projectiles dsp cfg game).enemies i).hp ≤ 0
    · rw [if_pos hc]
      intro h
      exact absurd h Bool.false_ne_true
    · rw [if_neg hc]
      intro h
      by_contra hle
      exact hc ⟨hi, h, by omega⟩
  · intro i hi hact
    have hact1 : ((resolve_projectiles dsp cfg game).enemies i).active = true := by
      rw [(hd.enemies i).active]
      exact hact
    rw [update_projectiles_enemy]
    by_cases hc : i < cfg.MAX_ENEMIES ∧
        ((resolve_projectiles dsp cfg game).enemies i).active = true ∧
        ((resolve_projectiles dsp cfg game).enemies i).hp ≤ 0
    · rw [if_pos hc]
      exact ⟨fun _ => hc.2.2, fun _ => rfl⟩
    · rw [if_neg hc]
      constructor
      · intro h
        rw [hact1] at h
        exact absurd h (by decide)
      · intro h
        exact absurd ⟨hi, hact1, h⟩ hc
  · intro i
    rw [update_projectiles_enemy]
    split <;> rfl

/-! ## Enemy motion -/

/-- The `while` loop of `update_enemies` ends within the bound; it either
leaves the enemy active without putting it on the final node, or puts it on
the final node, deactivates it and takes one life. -/
theorem advance_enemy_spec (path : List Coord) (len : Int) :
    ∀ (fuel : Nat) (e : Enemy) (lives : Int), (len - 1 - e.path_index).toNat < fuel →
      ∃ e' lives', advance_enemy path len fuel e lives = some (e', lives') ∧
        e'.hp = e.hp ∧ e'.freeze_timer = e.freeze_timer ∧
        ((e'.active = e.active ∧ lives' = lives ∧
            (e'.path_index = e.path_index ∨ e'.path_index ≠ len - 1)) ∨
          (e'.active = false ∧ lives' = lives - 1 ∧ e'.path_index = len - 1 ∧
            e.path_index < len - 1)) := by
  intro fuel
  induction fuel with
  | zero =>
    intro e lives h
    exact absurd h (Nat.not_lt_zero _)
  | succ fuel ih =>
    intro e lives h
    unfold advance_enemy
    by_cases hc : e.progress ≥ 1 ∧ e.path_index < len - 1
    · rw [if_pos hc]
      simp only
      by_cases hf : e.path_index + 1 = len - 1
      · rw [if_pos hf]
        exact ⟨_, _, rfl, rfl, rfl, Or.inr ⟨rfl, rfl, hf, hc.2⟩⟩
      · rw [if_neg hf]
        have hlt := hc.2
        obtain ⟨e', lives', heq, hhp, hft, hcase⟩ := ih
          { e with
            progress := e.progress - 1
            path_index := e.path_index + 1
            pos := path.getD (e.path_index + 1).toNat ⟨0, 0⟩ } lives
          (by simp only; omega)
        refine ⟨e', lives', heq, hhp, hft, ?_⟩
        rcases hcase with ⟨ha, hl, hp⟩ | ⟨ha, hl, hp, _⟩
        · refine Or.inl ⟨ha, hl, Or.inr ?_⟩
          rcases hp with hp | hp
          · simp only at hp
            rw [hp]
            exact hf
          · exact hp
        · exact Or.inr ⟨ha, hl, hp, hlt⟩
    · rw [if_neg hc]
      exact ⟨e, lives, rfl, rfl, rfl, Or.inl ⟨rfl, rfl, Or.inl rfl⟩⟩

/-- The body of the loop of `update_enemies` for slot `k` always returns; it
changes only slot `k` and `lives`, and takes one life exactly when the enemy
in slot `k` goes from active to inactive. -/
theorem update_enemy_spec (vp : Bool) (path : List Coord) (len : Int) (speed : ℚ)
    (g : GameState) (k : Nat) :
    ∃ g', update_enemy vp path len speed g k = some g' ∧ EnemiesOnly g g' ∧
      (∀ j, j ≠ k → g'.enemies j = g.enemies j) ∧
      g'.lives = g.lives - (if ((g.enemies k).active && !(g'.enemies k).active) = true
        then 1 else 0) ∧
      EnemyMoved vp len (g.enemies k) (g'.enemies k) := by
  unfold update_enemy
  by_cases ha : (g.enemies k).active = true
  · rw [if_pos ha]
    by_cases hfz : (g.enemies k).freeze_timer > 0
    · rw [if_pos hfz]
      refine ⟨_, rfl, ⟨rfl, rfl, rfl, rfl, rfl, rfl, rfl, rfl⟩, ?_, ?_, ?_⟩
      · intro j hj
        exact store_ne _ _ _ _ hj
      · show g.lives = _
        simp only [store_same, ha, Bool.not_true, Bool.and_false, Bool.false_eq_true, if_false,
          sub_zero]
      · simp only [store_same]
        refine ⟨rfl, ?_, fun _ _ => rfl, ?_, ?_⟩
        · intro h
          rw [ha] at h
          exact absurd h (by decide)
        · intro _ h
          simp only [ha] at h
          exact absurd h (by decide)
        · intro _ h
          exact absurd rfl h
    · rw [if_neg hfz]
      by_cases hv : vp = true ∧ (g.enemies k).path_index < len - 1
      · rw [if_pos hv]
        simp only
        obtain ⟨e', lives', heq, hhp, _, hcase⟩ := advance_enemy_spec path len
          ((len - 1 - (g.enemies k).path_index).toNat + 1)
          { g.enemies k with progress := (g.enemies k).progress + speed } g.lives
          (Nat.lt_succ_self _)
        rw [heq]
        refine ⟨_, rfl, ⟨rfl, rfl, rfl, rfl, rfl, rfl, rfl, rfl⟩, ?_, ?_, ?_⟩
        · intro j hj
          exact store_ne _ _ _ _ hj
        · show lives' = _
          simp only [store_same, ha, Bool.true_and]
          rcases hcase with ⟨hact, hl, _⟩ | ⟨hact, hl, _⟩
          · simp only at hact
            rw [hact, ha, hl]
            simp
          · rw [hact, hl]
            simp
        · simp only [store_same]
          refine ⟨hhp, ?_, ?_, ?_, ?_⟩
          · intro h
            rw [ha] at h
            exact absurd h (by decide)
          · intro _ h
            exact absurd h hfz
          · intro _ hina
            rcases hcase with ⟨hact, _, _⟩ | ⟨_, _, hp, _⟩
            · simp only at hact
              rw [hact, ha] at hina
              exact absurd hina (by decide)
            · exact ⟨hv.1, hp⟩
          · intro _ hne hfin
            rcases hcase with ⟨_, _, hp⟩ | ⟨hact, _, _⟩
            · rcases hp with hp | hp
              · exact absurd hp hne
              · exact absurd hfin hp
            · exact hact
      · rw [if_neg hv]
        refine ⟨g, rfl, ⟨rfl, rfl, rfl, rfl, rfl, rfl, rfl, rfl⟩, fun _ _ => rfl, ?_, ?_⟩
        · simp [ha]
        · refine ⟨rfl, fun _ => rfl, fun _ h => absurd h hfz, ?_, ?_⟩
          · intro _ h
            rw [ha] at h
            exact absurd h (by decide)
          · intro _ h
            exact absurd rfl h
  · rw [if_neg ha]
    have ha' : (g.enemies k).active = false := by
      cases h : (g.enemies k).active
      · rfl
      · exact absurd h ha
    refine ⟨g, rfl, ⟨rfl, rfl, rfl, rfl, rfl, rfl, rfl, rfl⟩, fun _ _ => rfl, ?_, ?_⟩
    · simp [ha']
    · refine ⟨rfl, fun _ => rfl, fun h => absurd h ha, fun h => absurd h ha,
        fun h => absurd h ha⟩

theorem enemiesOnly_trans {g g' g'' : GameState} (h1 : EnemiesOnly g g')
    (h2 : EnemiesOnly g' g'') : EnemiesOnly g g'' :=
  ⟨h2.gold.trans h1.gold, h2.wave.trans h1.wave, h2.grid.trans h1.grid,
    h2.cursor.trans h1.cursor, h2.projectiles.trans h1.projectiles,
    h2.wave_spawn_index.trans h1.wave_spawn_index,
    h2.pre_wave_timer.trans h1.pre_wave_timer,
    h2.wave_spawn_timer.trans h1.wave_spawn_timer⟩

theorem deactivated_succ (n : Nat) (es es' : Nat → Enemy) :
    deactivated (n + 1) es es' =
      deactivated n es es' + (if ((es n).active && !(es' n).active) = true then 1 else 0) := by
  unfold deactivated
  rw [List.range_succ, List.countP_append]
  simp only [List.countP_cons, List.countP_nil, Nat.zero_add]

theorem deactivated_congr (n : Nat) (es es' es'' : Nat → Enemy)
    (h : ∀ j, j < n → es'' j = es' j) : deactivated n es es'' = deactivated n es es' := by
  unfold deactivated
  apply List.countP_congr
  intro j hj
  rw [h j (List.mem_range.1 hj)]

/-- The loop of `update_enemies` over the first `n` slots. -/
theorem foldlM_update_enemy (vp : Bool) (path : List Coord) (len : Int) (speed : ℚ)
    (n : Nat) (g : GameState) :
    ∃ g', (List.range n).foldlM (update_enemy vp path len speed) g = some g' ∧
      EnemiesOnly g g' ∧
      (∀ j, n ≤ j → g'.enemies j = g.enemies j) ∧
      (∀ j, j < n → EnemyMoved vp len (g.enemies j) (g'.enemies j)) ∧
      g'.lives = g.lives - ((deactivated n g.enemies g'.enemies : Nat) : Int) := by
  induction n with
  | zero =>
    refine ⟨g, rfl, ⟨rfl, rfl, rfl, rfl, rfl, rfl, rfl, rfl⟩, fun _ _ => rfl, ?_, ?_⟩
    · intro j hj
      exact absurd hj (Nat.not_lt_zero j)
    · simp [deactivated]
  | succ n ih =>
    obtain ⟨g1, hf1, hfr1, hge1, hlt1, hl1⟩ := ih
    obtain ⟨g2, hf2, hfr2, hoth, hl2, hmv⟩ := update_enemy_spec vp path len speed g1 n
    refine ⟨g2, ?_, enemiesOnly_trans hfr1 hfr2, ?_, ?_, ?_⟩
    · rw [List.range_succ, List.foldlM_append, hf1]
      simp [hf2]
    · intro j hj
      rw [hoth j (by omega), hge1 j (by omega)]
    · intro j hj
      rcases Nat.lt_succ_iff_lt_or_eq.1 hj with hlt | heq
      · rw [hoth j (by omega)]
        exact hlt1 j hlt
      · subst heq
        rw [← hge1 j (Nat.le_refl j)]
        exact hmv
    · rw [deactivated_succ, deactivated_congr n g.enemies g1.enemies g2.enemies
        (fun j hj => hoth j (by omega)), hl2, hl1, hge1 n (Nat.le_refl n)]
      push_cast
      split
      · omega
      · omega

theorem origin_inBounds {W H : Nat} (hW : 0 < W) (hH : 0 < H) : InBounds W H ⟨0, 0⟩ := by
  simp only [InBounds]
  omega

/-- Functional description of `update_enemies`. -/
theorem update_enemies_spec (cfg : Config) (g : GameState)
    (hW : 0 < cfg.GRID_WIDTH) (hH : 0 < cfg.GRID_HEIGHT) :
    ∃ g' vp path,
      find_path cfg.GRID_WIDTH cfg.GRID_HEIGHT g.grid start_cell (goal_cell cfg)
        = some (vp, path) ∧
      update_enemies cfg g = some g' ∧ EnemiesOnly g g' ∧
      (∀ j, cfg.MAX_ENEMIES ≤ j → g'.enemies j = g.enemies j) ∧
      (∀ j, j < cfg.MAX_ENEMIES →
        EnemyMoved vp (path.length : Int) (g.enemies j) (g'.enemies j)) ∧
      g'.lives = g.lives - ((deactivated cfg.MAX_ENEMIES g.enemies g'.enemies : Nat) : Int) := by
  have hne := find_path_ne_none cfg.GRID_WIDTH cfg.GRID_HEIGHT g.grid start_cell (goal_cell cfg)
    (origin_inBounds hW hH)
  obtain ⟨⟨vp, path⟩, hfp⟩ := Option.ne_none_iff_exists'.1 hne
  obtain ⟨g', hf, hfr, hge, hlt, hl⟩ := foldlM_update_enemy vp path (path.length : Int)
    (get_wave_params exact_arithmetic cfg.MAX_ENEMIES g.wave).enemy_speed cfg.MAX_ENEMIES g
  refine ⟨g', vp, path, hfp, ?_, hfr, hge, hlt, hl⟩
  unfold update_enemies
  simp only [start_cell, goal_cell] at hfp
  rw [hfp]
  exact hf

/-! ## Projectile hits -/

theorem overlaps_iff (dsp : Display) (g : GameState) (p i : Nat) :
    overlaps dsp g p i ↔ cell_hit dsp (g.enemies i) (g.projectiles p) :=
  Iff.rfl

theorem cell_hit_damaged (dsp : Display) {e e' : Enemy} (h : Damaged e e') (pr : Projectile) :
    cell_hit dsp e' pr ↔ cell_hit dsp e pr := by
  unfold cell_hit
  rw [h.active, h.pos]

/-- The collision loop hits the first overlapping enemy. -/
theorem collide_scan_first (dsp : Display) (cfg : Config) (p i : Nat) :
    ∀ (n k : Nat) (g : GameState), k ≤ i → i < k + n → overlaps dsp g p i →
      (∀ j, k ≤ j → j < i → ¬ overlaps dsp g p j) →
      collide_scan dsp cfg p n k g = hit_enemy cfg g p i := by
  intro n
  induction n with
  | zero =>
    intro k g hk hi _ _
    omega
  | succ n ih =>
    intro k g hk hi hov hfirst
    unfold collide_scan
    by_cases hki : k = i
    · subst hki
      rw [if_pos hov]
    · rw [if_neg (hfirst k (Nat.le_refl k) (by omega))]
      exact ih (k + 1) g (by omega) (by omega) hov
        (fun j hj hji => hfirst j (by omega) hji)

/-- A projectile that hits enemy `i` is resolved by `hit_enemy`, also after
other projectiles have been resolved. -/
theorem update_projectile_hit (dsp : Display) (cfg : Config) (game g : GameState) (p i : Nat)
    (hd : DamageOnly game g) (hp : g.projectiles p = game.projectiles p)
    (hh : FirstHit dsp cfg game p i) :
    update_projectile dsp cfg g p =
      hit_enemy cfg { g with projectiles := store g.projectiles p (moved (g.projectiles p)) }
        p i := by
  obtain ⟨_, hact, hon, hi, hcell, hfirst⟩ := hh
  unfold update_projectile
  rw [hp, if_pos hact]
  simp only [store_same]
  rw [if_neg hon]
  apply collide_scan_first dsp cfg p i cfg.MAX_ENEMIES 0 _ (Nat.zero_le i) (by omega)
  · rw [overlaps_iff]
    simp only [store_same]
    exact (cell_hit_damaged dsp (hd.enemies i) _).2 hcell
  · intro j _ hji
    rw [overlaps_iff]
    simp only [store_same]
    intro h
    exact hfirst j hji ((cell_hit_damaged dsp (hd.enemies j) _).1 h)

/-- Projectiles in slots that the loop has not reached yet are untouched. -/
theorem foldl_update_projectile_later (dsp : Display) (cfg : Config) (n : Nat)
    (g : GameState) (q : Nat) (hq : n ≤ q) :
    ((List.range n).foldl (update_projectile dsp cfg) g).projectiles q = g.projectiles q := by
  induction n with
  | zero => rfl
  | succ n ih =>
    rw [List.range_succ, List.foldl_append]
    simp only [List.foldl_cons, List.foldl_nil]
    rw [update_projectile_others dsp cfg _ n q (by omega)]
    exact ih (by omega)

theorem hit_enemy_freeze_timer (cfg : Config) (g : GameState) (p i : Nat)
    (hf : (g.projectiles p).tower_type = TOWER_FREEZE) :
    ((hit_enemy cfg g p i).enemies i).freeze_timer = 3 := by
  unfold hit_enemy
  have hns : ¬ (g.projectiles p).tower_type = TOWER_SPLASH := by
    rw [hf]
    decide
  simp only [if_pos hf, if_neg hns, store_same]

/-- Once a freeze projectile has hit enemy `i`, the rest of the projectile
loop leaves its `freeze_timer` at 3. -/
theorem foldl_update_projectile_freeze (dsp : Display) (cfg : Config) (game : GameState)
    (p i : Nat) (hh : FirstHit dsp cfg game p i)
    (hf : (game.projectiles p).tower_type = TOWER_FREEZE) :
    ∀ n, p < n →
      (((List.range n).foldl (update_projectile dsp cfg) game).enemies i).freeze_timer = 3 := by
  intro n
  induction n with
  | zero =>
    intro h
    exact absurd h (Nat.not_lt_zero p)
  | succ n ih =>
    intro hpn
    rw [List.range_succ, List.foldl_append]
    simp only [List.foldl_cons, List.foldl_nil]
    rcases Nat.lt_succ_iff_lt_or_eq.1 hpn with hlt | heq
    · have h3 := ih hlt
      rcases ((update_projectile_damageOnly dsp cfg
        ((List.range n).foldl (update_projectile dsp cfg) game) n).enemies i).timer with h | h
      · rw [h, h3]
      · exact h
    · subst heq
      have hd := foldl_update_projectile_damageOnly dsp cfg (List.range p) game
      have hp := foldl_update_projectile_later dsp cfg p game p (Nat.le_refl p)
      rw [update_projectile_hit dsp cfg game _ p i hd hp hh]
      apply hit_enemy_freeze_timer
      simp only [store_same]
      rw [hp]
      exact hf

theorem update_projectiles_freeze_timer (dsp : Display) (cfg : Config) (g : GameState)
    (i : Nat) :
    ((update_projectiles dsp cfg g).enemies i).freeze_timer
      = ((resolve_projectiles dsp cfg g).enemies i).freeze_timer := by
  rw [update_projectiles_enemy]
  split <;> rfl

/-- A call of `update_enemies` on a state whose enemy `i` is active and frozen
only counts its `freeze_timer` down. -/
theorem update_enemies_frozen (cfg : Config) (g : GameState) (i : Nat)
    (hW : 0 < cfg.GRID_WIDTH) (hH : 0 < cfg.GRID_HEIGHT) (hi : i < cfg.MAX_ENEMIES)
    (ha : (g.enemies i).active = true) (ht : (g.enemies i).freeze_timer > 0) :
    ∃ g', update_enemies cfg g = some g' ∧
      g'.enemies i = { g.enemies i with freeze_timer := (g.enemies i).freeze_timer - 1 } := by
  obtain ⟨g', _, _, _, hup, _, _, hmv, _⟩ := update_enemies_spec cfg g hW hH
  exact ⟨g', hup, (hmv i hi).frozen ha ht⟩

/-- C15: when a projectile whose source tower kind is Freeze hits an enemy,
`update_projectiles` leaves that enemy's `freeze_timer` at exactly 3 whatever
its previous value; and if the enemy survives and its record is not changed
between the calls, each of the next 3 calls of `update_enemies` returns and
leaves its position, path index and progress unchanged (for every grid, wave
and path of the three states), the timer reaching 0 with the third call. -/
theorem freeze_hit_stops_enemy (dsp : Display) (cfg : Config) (game : GameState) (p i : Nat)
    (game1 game2 game3 : GameState)
    (hW : 0 < cfg.GRID_WIDTH) (hH : 0 < cfg.GRID_HEIGHT)
    (hhit : FirstHit dsp cfg game p i)
    (hfreeze : (game.projectiles p).tower_type = TOWER_FREEZE)
    (hsurv : ((update_projectiles dsp cfg game).enemies i).active = true)
    (h1 : game1.enemies i = (update_projectiles dsp cfg game).enemies i)
    (h2 : ∀ g, update_enemies cfg game1 = some g → game2.enemies i = g.enemies i)
    (h3 : ∀ g, update_enemies cfg game2 = some g → game3.enemies i = g.enemies i) :
    ((update_projectiles dsp cfg game).enemies i).freeze_timer = 3 ∧
    ∃ g1 g2 g3, update_enemies cfg game1 = some g1 ∧ update_enemies cfg game2 = some g2 ∧
      update_enemies cfg game3 = some g3 ∧
      ((g1.enemies i).pos = (game1.enemies i).pos ∧
        (g1.enemies i).path_index = (game1.enemies i).path_index ∧
        (g1.enemies i).progress = (game1.enemies i).progress) ∧
      ((g2.enemies i).pos = (game2.enemies i).pos ∧
        (g2.enemies i).path_index = (game2.enemies i).path_index ∧
        (g2.enemies i).progress = (game2.enemies i).progress) ∧
      ((g3.enemies i).pos = (game3.enemies i).pos ∧
        (g3.enemies i).path_index = (game3.enemies i).path_index ∧
        (g3.enemies i).progress = (game3.enemies i).progress) ∧
      (g3.enemies i).active = true ∧ (g3.enemies i).freeze_timer = 0 := by
  have hi : i < cfg.MAX_ENEMIES := hhit.2.2.2.1
  have htimer : ((update_projectiles dsp cfg game).enemies i).freeze_timer = 3 := by
    rw [update_projectiles_freeze_timer]
    exact foldl_update_projectile_freeze dsp cfg game p i hhit hfreeze cfg.MAX_PROJECTILES
      hhit.1
  refine ⟨htimer, ?_⟩
  have ha1 : (game1.enemies i).active = true := by rw [h1]; exact hsurv
  have ht1 : (game1.enemies i).freeze_timer = 3 := by rw [h1]; exact htimer
  obtain ⟨g1, hg1, he1⟩ := update_enemies_frozen cfg game1 i hW hH hi ha1 (by omega)
  have hq2 := h2 g1 hg1
  have ha2 : (game2.enemies i).active = true := by rw [hq2, he1]; exact ha1
  have ht2 : (game2.enemies i).freeze_timer = 2 := by
    rw [hq2, he1]
    show (game1.enemies i).freeze_timer - 1 = 2
    omega
  obtain ⟨g2, hg2, he2⟩ := update_enemies_frozen cfg game2 i hW hH hi ha2 (by omega)
  have hq3 := h3 g2 hg2
  have ha3 : (game3.enemies i).active = true := by rw [hq3, he2]; exact ha2
  have ht3 : (game3.enemies i).freeze_timer = 1 := by
    rw [hq3, he2]
    show (game2.enemies i).freeze_timer - 1 = 2 - 1
    omega
  obtain ⟨g3, hg3, he3⟩ := update_enemies_frozen cfg game3 i hW hH hi ha3 (by omega)
  refine ⟨g1, g2, g3, hg1, hg2, hg3, ?_, ?_, ?_, ?_, ?_⟩
  · rw [he1]
    exact ⟨rfl, rfl, rfl⟩
  · rw [he2]
    exact ⟨rfl, rfl, rfl⟩
  · rw [he3]
    exact ⟨rfl, rfl, rfl⟩
  · rw [he3]
    exact ha3
  · rw [he3]
    show (game3.enemies i).freeze_timer - 1 = 0
    omega

theorem after_update_enemies_eq (cfg : Config) (game g : GameState)
    (h : update_enemies cfg game = some g) : after_update_enemies cfg game = g := by
  unfold after_update_enemies
  rw [h]
  rfl

theorem freeze_hit_stops_enemy_witness :
    0 < wide_cfg.GRID_WIDTH ∧ 0 < wide_cfg.GRID_HEIGHT ∧
    FirstHit sample_dsp wide_cfg (shot_game TOWER_FREEZE 5) 0 0 ∧
    ((shot_game TOWER_FREEZE 5).projectiles 0).tower_type = TOWER_FREEZE ∧
    ((update_projectiles sample_dsp wide_cfg (shot_game TOWER_FREEZE 5)).enemies 0).active
      = true ∧
    (((update_projectiles sample_dsp wide_cfg (shot_game TOWER_FREEZE 5)).enemies 0).freeze_timer
        = 3 ∧
      ∃ g1 g2 g3, update_enemies wide_cfg frozen_game = some g1 ∧
        update_enemies wide_cfg (after_update_enemies wide_cfg frozen_game) = some g2 ∧
        update_enemies wide_cfg
          (after_update_enemies wide_cfg (after_update_enemies wide_cfg frozen_game))
            = some g3 ∧
        ((g1.enemies 0).pos = (frozen_game.enemies 0).pos ∧
          (g1.enemies 0).path_index = (frozen_game.enemies 0).path_index ∧
          (g1.enemies 0).progress = (frozen_game.enemies 0).progress) ∧
        ((g2.enemies 0).pos = ((after_update_enemies wide_cfg frozen_game).enemies 0).pos ∧
          (g2.enemies 0).path_index
            = ((after_update_enemies wide_cfg frozen_game).enemies 0).path_index ∧
          (g2.enemies 0).progress
            = ((after_update_enemies wide_cfg frozen_game).enemies 0).progress) ∧
        ((g3.enemies 0).pos = ((after_update_enemies wide_cfg
            (after_update_enemies wide_cfg frozen_game)).enemies 0).pos ∧
          (g3.enemies 0).path_index = ((after_update_enemies wide_cfg
            (after_update_enemies wide_cfg frozen_game)).enemies 0).path_index ∧
          (g3.enemies 0).progress = ((after_update_enemies wide_cfg
            (after_update_enemies wide_cfg frozen_game)).enemies 0).progress) ∧
        (g3.enemies 0).active = true ∧ (g3.enemies 0).freeze_timer = 0) :=
  ⟨by decide, by decide, by decide!, by decide, by decide!,
    freeze_hit_stops_enemy sample_dsp wide_cfg (shot_game TOWER_FREEZE 5) 0 0 frozen_game
      (after_update_enemies wide_cfg frozen_game)
      (after_update_enemies wide_cfg (after_update_enemies wide_cfg frozen_game))
      (by decide) (by decide) (by decide!) (by decide) (by decide!) rfl
      (fun g hg => by rw [after_update_enemies_eq wide_cfg _ g hg])
      (fun g hg => by rw [after_update_enemies_eq wide_cfg _ g hg])⟩

/-- C14: for every state, `update_enemies` returns and leaves gold unchanged;
an enemy that it advances onto the final node of the current path is
deactivated, an enemy deactivated by the call is on that final node, and
lives after the call equals lives before minus the number of enemies that
went from active to inactive during the call. -/
theorem update_enemies_breach (cfg : Config) (game : GameState)
    (hW : 0 < cfg.GRID_WIDTH) (hH : 0 < cfg.GRID_HEIGHT) :
    ∃ game' valid_path global_path,
      find_path cfg.GRID_WIDTH cfg.GRID_HEIGHT game.grid start_cell (goal_cell cfg)
        = some (valid_path, global_path) ∧
      update_enemies cfg game = some game' ∧
      game'.gold = game.gold ∧
      (∀ i, i < cfg.MAX_ENEMIES → (game.enemies i).active = true →
        (game'.enemies i).path_index ≠ (game.enemies i).path_index →
        (game'.enemies i).path_index = (global_path.length : Int) - 1 →
        (game'.enemies i).active = false) ∧
      (∀ i, i < cfg.MAX_ENEMIES → (game.enemies i).active = true →
        (game'.enemies i).active = false →
        valid_path = true ∧ (game'.enemies i).path_index = (global_path.length : Int) - 1) ∧
      game'.lives = game.lives -
        ((deactivated cfg.MAX_ENEMIES game.enemies game'.enemies : Nat) : Int) := by
  obtain ⟨g', vp, path, hfp, hup, hfr, _, hmv, hl⟩ := update_enemies_spec cfg game hW hH
  refine ⟨g', vp, path, hfp, hup, hfr.gold, ?_, ?_, hl⟩
  · intro i hi ha hne hfin
    exact (hmv i hi).final ha hne hfin
  · intro i hi ha hina
    exact (hmv i hi).breach ha hina

theorem update_enemies_breach_witness :
    0 < small_cfg.GRID_WIDTH ∧ 0 < small_cfg.GRID_HEIGHT ∧
    ∃ game' valid_path global_path,
      find_path small_cfg.GRID_WIDTH small_cfg.GRID_HEIGHT breach_game.grid start_cell
        (goal_cell small_cfg) = some (valid_path, global_path) ∧
      update_enemies small_cfg breach_game = some game' ∧
      game'.gold = breach_game.gold ∧
      (∀ i, i < small_cfg.MAX_ENEMIES → (breach_game.enemies i).active = true →
        (game'.enemies i).path_index ≠ (breach_game.enemies i).path_index →
        (game'.enemies i).path_index = (global_path.length : Int) - 1 →
        (game'.enemies i).active = false) ∧
      (∀ i, i < small_cfg.MAX_ENEMIES → (breach_game.enemies i).active = true →
        (game'.enemies i).active = false →
        valid_path = true ∧ (game'.enemies i).path_index = (global_path.length : Int) - 1) ∧
      game'.lives = breach_game.lives -
        ((deactivated small_cfg.MAX_ENEMIES breach_game.enemies game'.enemies : Nat) : Int) :=
  ⟨by decide, by decide, update_enemies_breach small_cfg breach_game (by decide) (by decide)⟩

/-- Evaluation of `update_enemies` on `breach_game`: the enemy in slot 0 steps
onto the final node and is deactivated, the other two stay active, and one
life is lost. -/
theorem update_enemies_breach_example :
    Option.map (fun g => g.lives) (update_enemies small_cfg breach_game) = some 9 ∧
    Option.map (fun g => g.gold) (update_enemies small_cfg breach_game) = some 40 ∧
    Option.map (fun g => ((g.enemies 0).active, (g.enemies 0).path_index))
      (update_enemies small_cfg breach_game) = some (false, 4) ∧
    Option.map (fun g => ((g.enemies 1).active, (g.enemies 1).path_index))
      (update_enemies small_cfg breach_game) = some (true, 0) ∧
    Option.map (fun g => ((g.enemies 2).active, (g.enemies 2).freeze_timer))
      (update_enemies small_cfg breach_game) = some (true, 1) := by
  decide!

/-! ## A single projectile -/

theorem update_projectile_inactive (dsp : Display) (cfg : Config) (g : GameState) (q : Nat)
    (h : (g.projectiles q).active = false) : update_projectile dsp cfg g q = g := by
  unfold update_projectile
  rw [h]
  simp

/-- With one active projectile, the projectile loop is the body for its slot. -/
theorem resolve_projectiles_single (dsp : Display) (cfg : Config) (g : GameState) (p : Nat)
    (hp : p < cfg.MAX_PROJECTILES) (honly : OnlyProjectile cfg g p) :
    resolve_projectiles dsp cfg g = update_projectile dsp cfg g p := by
  have key : ∀ n, n ≤ cfg.MAX_PROJECTILES →
      (List.range n).foldl (update_projectile dsp cfg) g =
        if p < n then update_projectile dsp cfg g p else g := by
    intro n
    induction n with
    | zero =>
      intro _
      rfl
    | succ n ih =>
      intro hn
      have hlater := foldl_update_projectile_later dsp cfg n g n (Nat.le_refl n)
      rw [List.range_succ, List.foldl_append]
      simp only [List.foldl_cons, List.foldl_nil]
      rcases Nat.lt_trichotomy p n with hlt | heq | hgt
      · have hina : (((List.range n).foldl (update_projectile dsp cfg) g).projectiles n).active
            = false := by
          rw [hlater]
          exact honly n (by omega) (by omega)
        rw [update_projectile_inactive dsp cfg _ n hina, ih (by omega), if_pos hlt,
          if_pos (Nat.lt_succ_of_lt hlt)]
      · subst heq
        rw [ih (by omega), if_neg (Nat.lt_irrefl p), if_pos (Nat.lt_succ_self p)]
      · have hina : (((List.range n).foldl (update_projectile dsp cfg) g).projectiles n).active
            = false := by
          rw [hlater]
          exact honly n (by omega) (by omega)
        rw [update_projectile_inactive dsp cfg _ n hina, ih (by omega), if_neg (by omega),
          if_neg (by omega)]
  unfold resolve_projectiles
  rw [key cfg.MAX_PROJECTILES (Nat.le_refl _), if_pos hp]

theorem splash_enemy_eq (i : Nat) (d : Int) (es : Nat → Enemy) (j : Nat) :
    splash_enemy i d es j =
      if SplashHit es i j then store es j { es j with hp := (es j).hp - d } else es := by
  by_cases h : SplashHit es i j
  · rw [if_pos h]
    unfold splash_enemy
    exact if_pos h
  · rw [if_neg h]
    unfold splash_enemy
    exact if_neg h

theorem splashHit_congr (es es' : Nat → Enemy) (i j : Nat) (hj : es' j = es j)
    (hi : (es' i).pos = (es i).pos) : SplashHit es' i j ↔ SplashHit es i j := by
  unfold SplashHit
  rw [hj, hi]

/-- Closed form of the splash loop after `n` slots. -/
theorem foldl_splash_enemy (i : Nat) (d : Int) (n : Nat) (es : Nat → Enemy) :
    (List.range n).foldl (splash_enemy i d) es =
      fun k => if k < n ∧ SplashHit es i k then { es k with hp := (es k).hp - d } else es k := by
  induction n with
  | zero =>
    funext k
    have : ¬ (k < 0 ∧ SplashHit es i k) := fun h => Nat.not_lt_zero k h.1
    simp only [List.range_zero, List.foldl_nil, if_neg this]
  | succ n ih =>
    rw [List.range_succ, List.foldl_append, ih]
    simp only [List.foldl_cons, List.foldl_nil]
    have hn : ¬ (n < n ∧ SplashHit es i n) := fun h => Nat.lt_irrefl n h.1
    have hcond : SplashHit
        (fun k => if k < n ∧ SplashHit es i k then { es k with hp := (es k).hp - d } else es k)
        i n ↔ SplashHit es i n := by
      apply splashHit_congr
      · simp only [if_neg hn]
      · simp only
        split <;> rfl
    rw [splash_enemy_eq]
    by_cases hc : SplashHit es i n
    · rw [if_pos (hcond.2 hc)]
      funext k
      by_cases hk : k = n
      · subst hk
        rw [store_same]
        simp only [if_neg hn]
        rw [if_pos ⟨Nat.lt_succ_self k, hc⟩]
      · rw [store_ne _ _ _ _ hk]
        by_cases h1 : k < n ∧ SplashHit es i k
        · rw [if_pos h1, if_pos ⟨Nat.lt_succ_of_lt h1.1, h1.2⟩]
        · have h2 : ¬ (k < n + 1 ∧ SplashHit es i k) := fun h => h1 ⟨by omega, h.2⟩
          rw [if_neg h1, if_neg h2]
    · rw [if_neg (fun h => hc (hcond.1 h))]
      funext k
      by_cases h1 : k < n ∧ SplashHit es i k
      · rw [if_pos h1, if_pos ⟨Nat.lt_succ_of_lt h1.1, h1.2⟩]
      · have h2 : ¬ (k < n + 1 ∧ SplashHit es i k) := by
          intro h
          rcases Nat.lt_succ_iff_lt_or_eq.1 h.1 with hlt | heq
          · exact h1 ⟨hlt, h.2⟩
          · subst heq
            exact hc h.2
        rw [if_neg h1, if_neg h2]

/-- With one active projectile that hits enemy `i`, the projectile loop is
`hit_enemy` on the state with the projectile moved. -/
theorem resolve_projectiles_hit (dsp : Display) (cfg : Config) (g : GameState) (p i : Nat)
    (hh : FirstHit dsp cfg g p i) (honly : OnlyProjectile cfg g p) :
    resolve_projectiles dsp cfg g =
      hit_enemy cfg { g with projectiles := store g.projectiles p (moved (g.projectiles p)) }
        p i := by
  rw [resolve_projectiles_single dsp cfg g p hh.1 honly]
  exact update_projectile_hit dsp cfg g g p i (damageOnly_refl g) rfl hh

theorem hit_enemy_plain (cfg : Config) (g : GameState) (p i : Nat)
    (h1 : (g.projectiles p).tower_type ≠ TOWER_FREEZE)
    (h2 : (g.projectiles p).tower_type ≠ TOWER_SPLASH) :
    (hit_enemy cfg g p i).enemies =
      store g.enemies i { g.enemies i with hp := (g.enemies i).hp - (g.projectiles p).damage } := by
  unfold hit_enemy
  simp only [if_neg h1, if_neg h2]

theorem hit_enemy_splash (cfg : Config) (g : GameState) (p i : Nat)
    (h : (g.projectiles p).tower_type = TOWER_SPLASH) (k : Nat) :
    (hit_enemy cfg g p i).enemies k =
      if k < cfg.MAX_ENEMIES ∧
          SplashHit (store g.enemies i
            { g.enemies i with hp := (g.enemies i).hp - (g.projectiles p).damage }) i k then
        { store g.enemies i
            { g.enemies i with hp := (g.enemies i).hp - (g.projectiles p).damage } k with
          hp := (store g.enemies i
            { g.enemies i with hp := (g.enemies i).hp - (g.projectiles p).damage } k).hp
              - (g.projectiles p).damage }
      else store g.enemies i
        { g.enemies i with hp := (g.enemies i).hp - (g.projectiles p).damage } k := by
  unfold hit_enemy
  have hnf : ¬ (g.projectiles p).tower_type = TOWER_FREEZE := by
    rw [h]
    decide
  simp only [if_neg hnf, if_pos h]
  rw [foldl_splash_enemy]

theorem update_projectiles_hp (dsp : Display) (cfg : Config) (g : GameState) (i : Nat) :
    ((update_projectiles dsp cfg g).enemies i).hp
      = ((resolve_projectiles dsp cfg g).enemies i).hp := by
  rw [update_projectiles_enemy]
  split <;> rfl

theorem natAbs_le_one_of_chebyshev {a b : Coord} (h : chebyshev a b = 1) :
    (((b.x - a.x).natAbs : Nat) : Int) ≤ 1 ∧ (((b.y - a.y).natAbs : Nat) : Int) ≤ 1 := by
  unfold chebyshev at h
  have h1 : (a.x - b.x).natAbs ≤ 1 := by
    rw [← h]
    exact le_max_left _ _
  have h2 : (a.y - b.y).natAbs ≤ 1 := by
    rw [← h]
    exact le_max_right _ _
  constructor <;> omega

/-- Effect of a single Splash projectile in `update_projectiles`: when it hits
enemy `A` while another active enemy `B` is at Chebyshev grid distance 1 from
`A`, the hp of `B` decreases by exactly the projectile's damage and the hp of
`A` decreases by exactly twice the projectile's damage, once as the primary
target and once more in the splash loop, which runs over every active enemy
within one cell of the target without leaving out the target itself. -/
theorem splash_hit_damage (dsp : Display) (cfg : Config) (game : GameState) (p a b : Nat)
    (hhit : FirstHit dsp cfg game p a) (honly : OnlyProjectile cfg game p)
    (hsplash : (game.projectiles p).tower_type = TOWER_SPLASH)
    (hb : b < cfg.MAX_ENEMIES) (hab : b ≠ a) (hbact : (game.enemies b).active = true)
    (hdist : chebyshev (game.enemies a).pos (game.enemies b).pos = 1) :
    ((update_projectiles dsp cfg game).enemies a).hp
      = (game.enemies a).hp - 2 * (game.projectiles p).damage ∧
    ((update_projectiles dsp cfg game).enemies b).hp
      = (game.enemies b).hp - (game.projectiles p).damage := by
  have ha : a < cfg.MAX_ENEMIES := hhit.2.2.2.1
  have haact : (game.enemies a).active = true := hhit.2.2.2.2.1.1
  have hres := resolve_projectiles_hit dsp cfg game p a hhit honly
  have hd := natAbs_le_one_of_chebyshev hdist
  have hs1 : (({ game with
      projectiles := store game.projectiles p (moved (game.projectiles p)) } :
        GameState).projectiles p).tower_type = TOWER_SPLASH := by
    simp only [store_same]
    exact hsplash
  constructor
  · rw [update_projectiles_hp, hres, hit_enemy_splash _ _ _ _ hs1]
    simp only [store_same]
    have hc : a < cfg.MAX_ENEMIES ∧ SplashHit (store game.enemies a
        { game.enemies a with hp := (game.enemies a).hp - (moved (game.projectiles p)).damage })
        a a := by
      refine ⟨ha, ?_⟩
      unfold SplashHit
      simp only [store_same, sub_self, Int.natAbs_zero, Nat.cast_zero]
      exact ⟨haact, by omega, by omega⟩
    rw [if_pos hc]
    show (game.enemies a).hp - (game.projectiles p).damage - (game.projectiles p).damage = _
    ring
  · rw [update_projectiles_hp, hres, hit_enemy_splash _ _ _ _ hs1]
    simp only [store_same]
    have hc : b < cfg.MAX_ENEMIES ∧ SplashHit (store game.enemies a
        { game.enemies a with hp := (game.enemies a).hp - (moved (game.projectiles p)).damage })
        a b := by
      refine ⟨hb, ?_⟩
      unfold SplashHit
      simp only [store_same, store_ne _ _ _ _ hab]
      exact ⟨hbact, hd.1, hd.2⟩
    rw [if_pos hc]
    simp only [store_ne _ _ _ _ hab]
    rfl

theorem splash_hit_damage_witness :
    FirstHit sample_dsp wide_cfg (shot_game TOWER_SPLASH 5) 0 0 ∧
    OnlyProjectile wide_cfg (shot_game TOWER_SPLASH 5) 0 ∧
    ((shot_game TOWER_SPLASH 5).projectiles 0).tower_type = TOWER_SPLASH ∧
    1 < wide_cfg.MAX_ENEMIES ∧ 1 ≠ 0 ∧
    ((shot_game TOWER_SPLASH 5).enemies 1).active = true ∧
    chebyshev ((shot_game TOWER_SPLASH 5).enemies 0).pos
      ((shot_game TOWER_SPLASH 5).enemies 1).pos = 1 ∧
    (((update_projectiles sample_dsp wide_cfg (shot_game TOWER_SPLASH 5)).enemies 0).hp
        = ((shot_game TOWER_SPLASH 5).enemies 0).hp
          - 2 * ((shot_game TOWER_SPLASH 5).projectiles 0).damage ∧
      ((update_projectiles sample_dsp wide_cfg (shot_game TOWER_SPLASH 5)).enemies 1).hp
        = ((shot_game TOWER_SPLASH 5).enemies 1).hp
          - ((shot_game TOWER_SPLASH 5).projectiles 0).damage) :=
  ⟨by decide!, by decide, by decide, by decide, by decide, by decide, by decide,
    splash_hit_damage sample_dsp wide_cfg (shot_game TOWER_SPLASH 5) 0 0 1
      (by decide!) (by decide) (by decide) (by decide) (by decide) (by decide) (by decide)⟩

/-- C16 at a failing input: in `shot_game TOWER_SPLASH 5` a single Splash
projectile of damage 1 hits enemy `A` (slot 0, hp 5) while the active enemy
`B` (slot 1, hp 5) is at Chebyshev distance 1.  The claim requires both to
lose exactly the damage; after `update_projectiles` `B` has hp 4, but `A` has
hp 3, not 4. -/
theorem splash_primary_takes_double_damage :
    FirstHit sample_dsp wide_cfg (shot_game TOWER_SPLASH 5) 0 0 ∧
    OnlyProjectile wide_cfg (shot_game TOWER_SPLASH 5) 0 ∧
    ((shot_game TOWER_SPLASH 5).projectiles 0).tower_type = TOWER_SPLASH ∧
    ((shot_game TOWER_SPLASH 5).projectiles 0).damage = 1 ∧
    ((shot_game TOWER_SPLASH 5).enemies 1).active = true ∧
    chebyshev ((shot_game TOWER_SPLASH 5).enemies 0).pos
      ((shot_game TOWER_SPLASH 5).enemies 1).pos = 1 ∧
    ((shot_game TOWER_SPLASH 5).enemies 0).hp = 5 ∧
    ((shot_game TOWER_SPLASH 5).enemies 1).hp = 5 ∧
    ((update_projectiles sample_dsp wide_cfg (shot_game TOWER_SPLASH 5)).enemies 1).hp = 4 ∧
    ((update_projectiles sample_dsp wide_cfg (shot_game TOWER_SPLASH 5)).enemies 0).hp = 3 ∧
    ((update_projectiles sample_dsp wide_cfg (shot_game TOWER_SPLASH 5)).enemies 0).hp
      ≠ ((shot_game TOWER_SPLASH 5).enemies 0).hp
        - ((shot_game TOWER_SPLASH 5).projectiles 0).damage := by
  decide!

/-! ## Hits by a Normal tower -/

theorem countP_range_single (q : Nat → Bool) (n i : Nat) (hi : i < n)
    (h : ∀ k, k < n → k ≠ i → q k = false) :
    (List.range n).countP q = if q i = true then 1 else 0 := by
  induction n with
  | zero => exact absurd hi (Nat.not_lt_zero i)
  | succ n ih =>
    rw [List.range_succ, List.countP_append]
    simp only [List.countP_cons, List.countP_nil, Nat.zero_add]
    rcases Nat.lt_succ_iff_lt_or_eq.1 hi with hlt | heq
    · rw [ih hlt (fun k hk hne => h k (Nat.lt_succ_of_lt hk) hne),
        h n (Nat.lt_succ_self n) (by omega)]
      simp
    · subst heq
      have hz : (List.range i).countP q = 0 := by
        rw [List.countP_eq_zero]
        intro k hk
        have hk' : k < i := List.mem_range.1 hk
        rw [h k (Nat.lt_succ_of_lt hk') (by omega)]
        exact Bool.false_ne_true
      rw [hz, Nat.zero_add]

/-- One resolution step in which a single Normal projectile hits enemy `i`,
no other active enemy having `hp <= 0`. -/
theorem normal_hit (dsp : Display) (cfg : Config) (game : GameState) (p i : Nat)
    (hhit : FirstHit dsp cfg game p i) (honly : OnlyProjectile cfg game p)
    (hkind : (game.projectiles p).tower_type = TOWER_NORMAL)
    (hothers : ∀ k, k < cfg.MAX_ENEMIES → k ≠ i → (game.enemies k).active = true →
      (game.enemies k).hp > 0) :
    ((update_projectiles dsp cfg game).enemies i).hp
      = (game.enemies i).hp - (game.projectiles p).damage ∧
    (((update_projectiles dsp cfg game).enemies i).active = true ↔
      (game.enemies i).hp - (game.projectiles p).damage > 0) ∧
    (update_projectiles dsp cfg game).gold = game.gold +
      (if (game.enemies i).hp - (game.projectiles p).damage ≤ 0 then 5 else 0) := by
  have hi : i < cfg.MAX_ENEMIES := hhit.2.2.2.1
  have hact : (game.enemies i).active = true := hhit.2.2.2.2.1.1
  have hres := resolve_projectiles_hit dsp cfg game p i hhit honly
  have hnf : (({ game with
      projectiles := store game.projectiles p (moved (game.projectiles p)) } :
        GameState).projectiles p).tower_type ≠ TOWER_FREEZE := by
    simp only [store_same]
    show (game.projectiles p).tower_type ≠ TOWER_FREEZE
    rw [hkind]
    decide
  have hns : (({ game with
      projectiles := store game.projectiles p (moved (game.projectiles p)) } :
        GameState).projectiles p).tower_type ≠ TOWER_SPLASH := by
    simp only [store_same]
    show (game.projectiles p).tower_type ≠ TOWER_SPLASH
    rw [hkind]
    decide
  have hes : (resolve_projectiles dsp cfg game).enemies =
      store game.enemies i
        { game.enemies i with hp := (game.enemies i).hp - (game.projectiles p).damage } := by
    rw [hres, hit_enemy_plain _ _ _ _ hnf hns]
    simp only [store_same]
    rfl
  have hafter : ∀ k, (update_projectiles dsp cfg game).enemies k =
      if k = i then
        { game.enemies i with
          hp := (game.enemies i).hp - (game.projectiles p).damage
          active := decide ((game.enemies i).hp - (game.projectiles p).damage > 0) }
      else game.enemies k := by
    intro k
    rw [update_projectiles_enemy, hes]
    by_cases hk : k = i
    · subst hk
      simp only [store_same, if_true]
      by_cases hdead : (game.enemies k).hp - (game.projectiles p).damage ≤ 0
      · rw [if_pos ⟨hi, hact, hdead⟩]
        have : decide ((game.enemies k).hp - (game.projectiles p).damage > 0) = false := by
          simp only [decide_eq_false_iff_not, not_lt]
          exact hdead
        rw [this]
      · rw [if_neg (fun h => hdead h.2.2)]
        have : decide ((game.enemies k).hp - (game.projectiles p).damage > 0) = true := by
          simp only [decide_eq_true_eq]
          omega
        rw [this, ← hact]
    · rw [store_ne _ _ _ _ hk, if_neg hk]
      by_cases hc : k < cfg.MAX_ENEMIES ∧ (game.enemies k).active = true ∧
          (game.enemies k).hp ≤ 0
      · have := hothers k hc.1 hk hc.2.1
        omega
      · rw [if_neg hc]
  refine ⟨?_, ?_, ?_⟩
  · rw [hafter i, if_pos rfl]
  · rw [hafter i, if_pos rfl]
    simp only [decide_eq_true_eq]
  · rw [update_projectiles_gold]
    unfold deactivated
    rw [countP_range_single _ cfg.MAX_ENEMIES i hi]
    · rw [hafter i, if_pos rfl, hact]
      by_cases hdead : (game.enemies i).hp - (game.projectiles p).damage ≤ 0
      · have : decide ((game.enemies i).hp - (game.projectiles p).damage > 0) = false := by
          simp only [decide_eq_false_iff_not, not_lt]
          exact hdead
        simp [this, hdead]
        omega
      · have : decide ((game.enemies i).hp - (game.projectiles p).damage > 0) = true := by
          simp only [decide_eq_true_eq]
          omega
        simp [this, hdead]
        omega
    · intro k _ hk
      rw [hafter k, if_neg hk]
      simp

/-- C17 (as the code behaves): for an enemy with hp = 3 that is hit by two
Normal-tower projectiles of damage 1 each in two successive resolution steps
(each the only active projectile of its step, no other active enemy having
hp <= 0): after the first hit the enemy remains active with hp = 2, and after
the second hit it remains active with hp = 1; gold is unchanged by both
steps. -/
theorem two_normal_hits (dsp : Display) (cfg : Config) (game1 game2 : GameState)
    (p1 p2 i : Nat)
    (hhit1 : FirstHit dsp cfg game1 p1 i) (honly1 : OnlyProjectile cfg game1 p1)
    (hkind1 : (game1.projectiles p1).tower_type = TOWER_NORMAL)
    (hdmg1 : (game1.projectiles p1).damage = 1)
    (hhp : (game1.enemies i).hp = 3)
    (hothers1 : ∀ k, k < cfg.MAX_ENEMIES → k ≠ i → (game1.enemies k).active = true →
      (game1.enemies k).hp > 0)
    (hhit2 : FirstHit dsp cfg game2 p2 i) (honly2 : OnlyProjectile cfg game2 p2)
    (hkind2 : (game2.projectiles p2).tower_type = TOWER_NORMAL)
    (hdmg2 : (game2.projectiles p2).damage = 1)
    (hcarry : (game2.enemies i).hp = ((update_projectiles dsp cfg game1).enemies i).hp)
    (hothers2 : ∀ k, k < cfg.MAX_ENEMIES → k ≠ i → (game2.enemies k).active = true →
      (game2.enemies k).hp > 0) :
    ((update_projectiles dsp cfg game1).enemies i).active = true ∧
    ((update_projectiles dsp cfg game1).enemies i).hp = 2 ∧
    (update_projectiles dsp cfg game1).gold = game1.gold ∧
    ((update_projectiles dsp cfg game2).enemies i).active = true ∧
    ((update_projectiles dsp cfg game2).enemies i).hp = 1 ∧
    (update_projectiles dsp cfg game2).gold = game2.gold := by
  obtain ⟨hhp1, hact1, hgold1⟩ := normal_hit dsp cfg game1 p1 i hhit1 honly1 hkind1 hothers1
  obtain ⟨hhp2, hact2, hgold2⟩ := normal_hit dsp cfg game2 p2 i hhit2 honly2 hkind2 hothers2
  rw [hdmg1, hhp] at hhp1 hact1 hgold1
  have h2 : (game2.enemies i).hp = 2 := by
    rw [hcarry, hhp1]
    rfl
  rw [hdmg2, h2] at hhp2 hact2 hgold2
  refine ⟨hact1.2 (by decide), ?_, ?_, hact2.2 (by decide), ?_, ?_⟩
  · rw [hhp1]
    rfl
  · rw [hgold1, if_neg (by decide)]
    exact add_zero _
  · rw [hhp2]
    rfl
  · rw [hgold2, if_neg (by decide)]
    exact add_zero _

theorem two_normal_hits_witness :
    FirstHit sample_dsp wide_cfg (shot_game TOWER_NORMAL 3) 0 0 ∧
    OnlyProjectile wide_cfg (shot_game TOWER_NORMAL 3) 0 ∧
    ((shot_game TOWER_NORMAL 3).projectiles 0).tower_type = TOWER_NORMAL ∧
    ((shot_game TOWER_NORMAL 3).projectiles 0).damage = 1 ∧
    ((shot_game TOWER_NORMAL 3).enemies 0).hp = 3 ∧
    (∀ k, k < wide_cfg.MAX_ENEMIES → k ≠ 0 →
      ((shot_game TOWER_NORMAL 3).enemies k).active = true →
      ((shot_game TOWER_NORMAL 3).enemies k).hp > 0) ∧
    FirstHit sample_dsp wide_cfg (shot_game TOWER_NORMAL 2) 0 0 ∧
    OnlyProjectile wide_cfg (shot_game TOWER_NORMAL 2) 0 ∧
    ((shot_game TOWER_NORMAL 2).projectiles 0).tower_type = TOWER_NORMAL ∧
    ((shot_game TOWER_NORMAL 2).projectiles 0).damage = 1 ∧
    ((shot_game TOWER_NORMAL 2).enemies 0).hp
      = ((update_projectiles sample_dsp wide_cfg (shot_game TOWER_NORMAL 3)).enemies 0).hp ∧
    (∀ k, k < wide_cfg.MAX_ENEMIES → k ≠ 0 →
      ((shot_game TOWER_NORMAL 2).enemies k).active = true →
      ((shot_game TOWER_NORMAL 2).enemies k).hp > 0) ∧
    (((update_projectiles sample_dsp wide_cfg (shot_game TOWER_NORMAL 3)).enemies 0).active
        = true ∧
      ((update_projectiles sample_dsp wide_cfg (shot_game TOWER_NORMAL 3)).enemies 0).hp = 2 ∧
      (update_projectiles sample_dsp wide_cfg (shot_game TOWER_NORMAL 3)).gold
        = (shot_game TOWER_NORMAL 3).gold ∧
      ((update_projectiles sample_dsp wide_cfg (shot_game TOWER_NORMAL 2)).enemies 0).active
        = true ∧
      ((update_projectiles sample_dsp wide_cfg (shot_game TOWER_NORMAL 2)).enemies 0).hp = 1 ∧
      (update_projectiles sample_dsp wide_cfg (shot_game TOWER_NORMAL 2)).gold
        = (shot_game TOWER_NORMAL 2).gold) :=
  ⟨by decide!, by decide, by decide, by decide, by decide, by decide, by decide!, by decide,
    by decide, by decide, by decide!, by decide,
    two_normal_hits sample_dsp wide_cfg (shot_game TOWER_NORMAL 3) (shot_game TOWER_NORMAL 2)
      0 0 0 (by decide!) (by decide) (by decide) (by decide) (by decide) (by decide)
      (by decide!) (by decide) (by decide) (by decide) (by decide!) (by decide)⟩

/-- C17 fails: in `shot_game TOWER_NORMAL 3` a Normal projectile of damage 1
hits the enemy in slot 0, whose hp is 3; after `update_projectiles` its hp is
2, not 1.  After a second such hit (`shot_game TOWER_NORMAL 2` carries the hp
2 over) its hp is 1, it is still active, and gold has not changed. -/
theorem two_normal_hits_do_not_kill :
    FirstHit sample_dsp wide_cfg (shot_game TOWER_NORMAL 3) 0 0 ∧
    ((shot_game TOWER_NORMAL 3).projectiles 0).tower_type = TOWER_NORMAL ∧
    ((shot_game TOWER_NORMAL 3).projectiles 0).damage = 1 ∧
    ((shot_game TOWER_NORMAL 3).enemies 0).hp = 3 ∧
    ((update_projectiles sample_dsp wide_cfg (shot_game TOWER_NORMAL 3)).enemies 0).hp = 2 ∧
    ((update_projectiles sample_dsp wide_cfg (shot_game TOWER_NORMAL 3)).enemies 0).hp ≠ 1 ∧
    FirstHit sample_dsp wide_cfg (shot_game TOWER_NORMAL 2) 0 0 ∧
    ((update_projectiles sample_dsp wide_cfg (shot_game TOWER_NORMAL 2)).enemies 0).hp = 1 ∧
    ((update_projectiles sample_dsp wide_cfg (shot_game TOWER_NORMAL 2)).enemies 0).active
      = true ∧
    (update_projectiles sample_dsp wide_cfg (shot_game TOWER_NORMAL 2)).gold
      = (shot_game TOWER_NORMAL 2).gold := by
  decide!

/-! ## Tower firing -/

theorem claim_slot_first (proj : Projectile) (p : Nat) :
    ∀ (n k : Nat) (ps : Nat → Projectile), k ≤ p → p < k + n → (ps p).active = false →
      (∀ q, k ≤ q → q < p → (ps q).active = true) →
      claim_slot proj n k ps = store ps p proj := by
  intro n
  induction n with
  | zero =>
    intro k ps hk hp _ _
    omega
  | succ n ih =>
    intro k ps hk hp hfree hbusy
    unfold claim_slot
    by_cases hkp : k = p
    · subst hkp
      rw [if_pos hfree]
    · have hb := hbusy k (Nat.le_refl k) (by omega)
      rw [if_neg (by rw [hb]; decide)]
      exact ih (k + 1) ps (by omega) (by omega) hfree (fun q hq hqp => hbusy q (by omega) hqp)

theorem claim_slot_none (proj : Projectile) :
    ∀ (n k : Nat) (ps : Nat → Projectile),
      (∀ q, k ≤ q → q < k + n → (ps q).active = true) → claim_slot proj n k ps = ps := by
  intro n
  induction n with
  | zero =>
    intro k ps _
    rfl
  | succ n ih =>
    intro k ps hbusy
    unfold claim_slot
    have hb := hbusy k (Nat.le_refl k) (by omega)
    rw [if_neg (by rw [hb]; decide)]
    exact ih (k + 1) ps (fun q hq hqn => hbusy q (by omega) (by omega))

theorem fire_scan_first (dsp : Display) (cfg : Config) (tx ty : Int) (tower : TowerType)
    (i : Nat) :
    ∀ (n k : Nat) (g : GameState), k ≤ i → i < k + n →
      in_range g tx ty (tower_range tower) i →
      (∀ j, k ≤ j → j < i → ¬ in_range g tx ty (tower_range tower) j) →
      fire_scan dsp cfg tx ty tower n k g =
        spawn_projectile dsp cfg g tx ty tower (g.enemies i).pos := by
  intro n
  induction n with
  | zero =>
    intro k g hk hi _ _
    omega
  | succ n ih =>
    intro k g hk hi hin hfirst
    unfold fire_scan
    by_cases hki : k = i
    · subst hki
      rw [if_pos hin]
    · rw [if_neg (hfirst k (Nat.le_refl k) (by omega))]
      exact ih (k + 1) g (by omega) (by omega) hin (fun j hj hji => hfirst j (by omega) hji)

theorem fire_scan_none (dsp : Display) (cfg : Config) (tx ty : Int) (tower : TowerType) :
    ∀ (n k : Nat) (g : GameState),
      (∀ j, k ≤ j → j < k + n → ¬ in_range g tx ty (tower_range tower) j) →
      fire_scan dsp cfg tx ty tower n k g = g := by
  intro n
  induction n with
  | zero =>
    intro k g _
    rfl
  | succ n ih =>
    intro k g hnone
    unfold fire_scan
    rw [if_neg (hnone k (Nat.le_refl k) (by omega))]
    exact ih (k + 1) g (fun j hj hjn => hnone j (by omega) (by omega))

theorem projectilesOnly_refl (g : GameState) : ProjectilesOnly g g := rfl

theorem projectilesOnly_trans {g g' g'' : GameState} (h1 : ProjectilesOnly g g')
    (h2 : ProjectilesOnly g' g'') : ProjectilesOnly g g'' := by
  unfold ProjectilesOnly at h1 h2 ⊢
  rw [h2, h1]

theorem fire_scan_projectilesOnly (dsp : Display) (cfg : Config) (tx ty : Int)
    (tower : TowerType) :
    ∀ (n k : Nat) (g : GameState),
      ProjectilesOnly g (fire_scan dsp cfg tx ty tower n k g) := by
  intro n
  induction n with
  | zero =>
    intro k g
    exact projectilesOnly_refl g
  | succ n ih =>
    intro k g
    unfold fire_scan
    split
    · rfl
    · exact ih (k + 1) g

theorem fire_tower_projectilesOnly (dsp : Display) (cfg : Config) (g : GameState)
    (tx ty : Int) : ProjectilesOnly g (fire_tower dsp cfg g tx ty) := by
  unfold fire_tower
  split
  · exact fire_scan_projectilesOnly dsp cfg tx ty _ _ _ g
  · exact projectilesOnly_refl g

theorem foldl_projectilesOnly {α : Type} (f : GameState → α → GameState)
    (hf : ∀ g a, ProjectilesOnly g (f g a)) (l : List α) :
    ∀ g : GameState, ProjectilesOnly g (l.foldl f g) := by
  induction l with
  | nil =>
    intro g
    exact projectilesOnly_refl g
  | cons a l ih =>
    intro g
    simp only [List.foldl_cons]
    exact projectilesOnly_trans (hf g a) (ih _)

theorem update_tower_firing_projectilesOnly (dsp : Display) (cfg : Config) (g : GameState) :
    ProjectilesOnly g (update_tower_firing dsp cfg g) := by
  unfold update_tower_firing
  apply foldl_projectilesOnly
  intro g1 tx
  apply foldl_projectilesOnly
  intro g2 ty
  exact fire_tower_projectilesOnly dsp cfg g2 _ _

/-- C18: for every state, `update_tower_firing` runs the per-cell step
`fire_tower` over all grid cells and leaves grid, enemies, gold and lives
unchanged; the range is 2 for Range and 1 for Normal, Splash and Freeze; the
step of a cell changes nothing when the cell is unoccupied, when no active
enemy of the pool has both axis offsets within the tower's range, or when no
projectile slot is free; otherwise it activates exactly one projectile, in
the first free slot, aimed at the first such enemy in pool order, with damage
1 and the firing tower's kind. -/
theorem tower_fires_once (dsp : Display) (cfg : Config) (game : GameState) (tx ty : Int) :
    (update_tower_firing dsp cfg game =
      (List.range cfg.GRID_WIDTH).foldl
        (fun (g : GameState) (x : Nat) =>
          (List.range cfg.GRID_HEIGHT).foldl
            (fun (g : GameState) (y : Nat) => fire_tower dsp cfg g (x : Int) (y : Int)) g)
        game) ∧
    ((update_tower_firing dsp cfg game).grid = game.grid ∧
      (update_tower_firing dsp cfg game).enemies = game.enemies ∧
      (update_tower_firing dsp cfg game).gold = game.gold ∧
      (update_tower_firing dsp cfg game).lives = game.lives) ∧
    (tower_range TOWER_RANGE = 2 ∧ tower_range TOWER_NORMAL = 1 ∧
      tower_range TOWER_SPLASH = 1 ∧ tower_range TOWER_FREEZE = 1) ∧
    (game.grid tx ty = TOWER_NONE → fire_tower dsp cfg game tx ty = game) ∧
    ((∀ i, i < cfg.MAX_ENEMIES →
        ¬ in_range game tx ty (tower_range (game.grid tx ty)) i) →
      fire_tower dsp cfg game tx ty = game) ∧
    ((∀ q, q < cfg.MAX_PROJECTILES → (game.projectiles q).active = true) →
      fire_tower dsp cfg game tx ty = game) ∧
    (∀ i q, game.grid tx ty ≠ TOWER_NONE →
      IsFirst (in_range game tx ty (tower_range (game.grid tx ty))) cfg.MAX_ENEMIES i →
      IsFirst (fun q => (game.projectiles q).active = false) cfg.MAX_PROJECTILES q →
      fire_tower dsp cfg game tx ty =
        { game with
          projectiles := store game.projectiles q
            (new_projectile dsp tx ty (game.grid tx ty) (game.enemies i).pos) } ∧
      (new_projectile dsp tx ty (game.grid tx ty) (game.enemies i).pos).active = true ∧
      (new_projectile dsp tx ty (game.grid tx ty) (game.enemies i).pos).damage = 1 ∧
      (new_projectile dsp tx ty (game.grid tx ty) (game.enemies i).pos).tower_type
        = game.grid tx ty) := by
  have hfr := update_tower_firing_projectilesOnly dsp cfg game
  refine ⟨rfl, ?_, ⟨rfl, rfl, rfl, rfl⟩, ?_, ?_, ?_, ?_⟩
  · unfold ProjectilesOnly at hfr
    refine ⟨?_, ?_, ?_, ?_⟩ <;> rw [hfr]
  · intro h
    unfold fire_tower
    rw [if_neg (by rw [h]; decide)]
  · intro hnone
    unfold fire_tower
    split
    · exact fire_scan_none dsp cfg tx ty _ _ _ game (fun j _ hj => hnone j (by omega))
    · rfl
  · intro hbusy
    have hsp : ∀ target, spawn_projectile dsp cfg game tx ty (game.grid tx ty) target = game := by
      intro target
      unfold spawn_projectile
      rw [claim_slot_none _ _ _ _ (fun q _ hq => hbusy q (by omega))]
    have hscan : ∀ (n k : Nat),
        fire_scan dsp cfg tx ty (game.grid tx ty) n k game = game := by
      intro n
      induction n with
      | zero =>
        intro k
        rfl
      | succ n ih =>
        intro k
        unfold fire_scan
        split
        · exact hsp _
        · exact ih (k + 1)
    unfold fire_tower
    split
    · exact hscan _ _
    · rfl
  · intro i q htower hi hq
    refine ⟨?_, rfl, rfl, rfl⟩
    unfold fire_tower
    rw [if_pos htower, fire_scan_first dsp cfg tx ty _ i _ _ game (Nat.zero_le i)
      (by have := hi.1; omega) hi.2.1 (fun j _ hji => hi.2.2 j hji)]
    unfold spawn_projectile
    rw [claim_slot_first _ q _ _ _ (Nat.zero_le q) (by have := hq.1; omega) hq.2.1]
    intro r _ hr
    have := hq.2.2 r hr
    cases hact : (game.projectiles r).active
    · exact absurd hact this
    · rfl

theorem tower_fires_once_witness :
    tower_game.grid 1 0 ≠ TOWER_NONE ∧
    IsFirst (in_range tower_game 1 0 (tower_range (tower_game.grid 1 0)))
      small_cfg.MAX_ENEMIES 1 ∧
    IsFirst (fun q => (tower_game.projectiles q).active = false) small_cfg.MAX_PROJECTILES 1 ∧
    (fire_tower sample_dsp small_cfg tower_game 1 0 =
        { tower_game with
          projectiles := store tower_game.projectiles 1
            (new_projectile sample_dsp 1 0 (tower_game.grid 1 0) (tower_game.enemies 1).pos) } ∧
      (new_projectile sample_dsp 1 0 (tower_game.grid 1 0) (tower_game.enemies 1).pos).active
        = true ∧
      (new_projectile sample_dsp 1 0 (tower_game.grid 1 0) (tower_game.enemies 1).pos).damage
        = 1 ∧
      (new_projectile sample_dsp 1 0 (tower_game.grid 1 0) (tower_game.enemies 1).pos).tower_type
        = tower_game.grid 1 0) :=
  ⟨by decide, by decide, by decide,
    (tower_fires_once sample_dsp small_cfg tower_game 1 0).2.2.2.2.2.2 1 1
      (by decide) (by decide) (by decide)⟩

/-! ## Invariants of a session -/

theorem tickFrame_refl (g : GameState) : TickFrame g g :=
  ⟨rfl, le_refl _, rfl, rfl, rfl, rfl⟩

theorem tickFrame_trans {g g' g'' : GameState} (h1 : TickFrame g g') (h2 : TickFrame g' g'') :
    TickFrame g g'' :=
  ⟨h2.cursor.trans h1.cursor, le_trans h1.gold h2.gold, h2.wave.trans h1.wave,
    h2.wave_spawn_index.trans h1.wave_spawn_index,
    h2.pre_wave_timer.trans h1.pre_wave_timer,
    h2.wave_spawn_timer.trans h1.wave_spawn_timer⟩

theorem SessionInv.of_frame {cfg : Config} {g g' : GameState} (h : SessionInv cfg g)
    (hf : TickFrame g g') : SessionInv cfg g' := by
  refine ⟨?_, ?_, ?_, ?_⟩
  · rw [hf.cursor]
    exact h.cursor
  · exact le_trans h.gold hf.gold
  · rw [hf.wave]
    exact h.wave
  · rw [hf.pre_wave_timer, hf.wave_spawn_index]
    exact h.prewave

theorem update_enemies_frame (cfg : Config) (g : GameState)
    (hW : 0 < cfg.GRID_WIDTH) (hH : 0 < cfg.GRID_HEIGHT) :
    ∃ g', update_enemies cfg g = some g' ∧ TickFrame g g' := by
  obtain ⟨g', _, _, _, hup, hfr, _⟩ := update_enemies_spec cfg g hW hH
  exact ⟨g', hup, ⟨hfr.cursor, le_of_eq hfr.gold.symm, hfr.wave, hfr.wave_spawn_index,
    hfr.pre_wave_timer, hfr.wave_spawn_timer⟩⟩

theorem update_tower_firing_frame (dsp : Display) (cfg : Config) (g : GameState) :
    TickFrame g (update_tower_firing dsp cfg g) := by
  have h := update_tower_firing_projectilesOnly dsp cfg g
  unfold ProjectilesOnly at h
  refine ⟨?_, ?_, ?_, ?_, ?_, ?_⟩
  · rw [h]
  · rw [h]
  · rw [h]
  · rw [h]
  · rw [h]
  · rw [h]

theorem update_projectiles_frame (dsp : Display) (cfg : Config) (g : GameState) :
    TickFrame g (update_projectiles dsp cfg g) := by
  have hd := resolve_projectiles_damageOnly dsp cfg g
  have hgold := update_projectiles_gold dsp cfg g
  have heq : update_projectiles dsp cfg g =
      (List.range cfg.MAX_ENEMIES).foldl reap_enemy (resolve_projectiles dsp cfg g) := rfl
  rw [foldl_reap_enemy] at heq
  refine ⟨?_, ?_, ?_, ?_, ?_, ?_⟩
  · rw [heq]
    exact hd.cursor
  · rw [hgold]
    have : (0 : Int) ≤ ((deactivated cfg.MAX_ENEMIES g.enemies
        (update_projectiles dsp cfg g).enemies : Nat) : Int) := Int.ofNat_nonneg _
    omega
  · rw [heq]
    exact hd.wave
  · rw [heq]
    exact hd.wave_spawn_index
  · rw [heq]
    exact hd.pre_wave_timer
  · rw [heq]
    exact hd.wave_spawn_timer

theorem spawn_step_inv (cfg : Config) (g : GameState) (h : SessionInv cfg g) :
    SessionInv cfg (spawn_step cfg g) := by
  unfold spawn_step
  by_cases h1 : g.pre_wave_timer > 0
  · rw [if_pos h1]
    refine ⟨h.cursor, h.gold, h.wave, ?_⟩
    intro _
    exact h.prewave h1
  · rw [if_neg h1]
    simp only
    split
    · split
      · refine ⟨h.cursor, h.gold, h.wave, ?_⟩
        intro h2
        exact absurd h2 h1
      · refine ⟨h.cursor, h.gold, h.wave, ?_⟩
        intro h2
        exact absurd h2 h1
    · exact h

theorem spawn_wave_fields (cfg : Config) (g : GameState) :
    (spawn_wave cfg g).cursor = g.cursor ∧ (spawn_wave cfg g).gold = g.gold ∧
    (spawn_wave cfg g).wave = g.wave ∧ (spawn_wave cfg g).wave_spawn_index = 0 ∧
    (spawn_wave cfg g).pre_wave_timer = cfg.PRE_WAVE_TICKS ∧
    (spawn_wave cfg g).wave_spawn_timer
      = (get_wave_params exact_arithmetic cfg.MAX_ENEMIES g.wave).spawn_interval_ticks :=
  ⟨rfl, rfl, rfl, rfl, rfl, rfl⟩

theorem wave_rollover_inv (cfg : Config) (g : GameState) (h : SessionInv cfg g) :
    SessionInv cfg (wave_rollover cfg g) := by
  unfold wave_rollover
  split
  · refine ⟨h.cursor, h.gold, ?_, fun _ => rfl⟩
    show 1 ≤ g.wave + 1
    have := h.wave
    omega
  · exact h

theorem init_game_state_inv (cfg : Config) (memory : GameState)
    (hW : 0 < cfg.GRID_WIDTH) (hH : 0 < cfg.GRID_HEIGHT) :
    SessionInv cfg (init_game_state cfg memory) := by
  refine ⟨origin_inBounds hW hH, ?_, ?_, fun _ => rfl⟩
  · show (0 : Int) ≤ 100
    decide
  · show (1 : Int) ≤ 1
    decide

theorem key_ok_inv (cfg : Config) (game : GameState) (h : SessionInv cfg game) :
    ∃ game', on_input_key_ok cfg game = some game' ∧ SessionInv cfg game' := by
  have hs := start_inBounds h.cursor
  by_cases hcell : game.grid game.cursor.x game.cursor.y = TOWER_NONE
  · by_cases hgold : game.gold ≥ 10
    · rcases find_path_cases cfg (game.grid.set game.cursor.x game.cursor.y TOWER_NORMAL) hs
        with ⟨p, hp⟩ | ⟨hp, _⟩
      · refine ⟨_, key_ok_place cfg game p hcell hgold hp, h.cursor, ?_, h.wave, h.prewave⟩
        show 0 ≤ game.gold - 10
        omega
      · exact ⟨game, key_ok_reject cfg game [] hcell hgold hp, h⟩
    · exact ⟨game, key_ok_poor cfg game hcell (by omega), h⟩
  · by_cases hnext : next_tower_type (game.grid game.cursor.x game.cursor.y) = TOWER_NONE
    · have hfreeze : game.grid game.cursor.x game.cursor.y = TOWER_FREEZE := by
        cases hk : game.grid game.cursor.x game.cursor.y <;>
          simp [hk, next_tower_type] at hnext hcell ⊢
      refine ⟨_, key_ok_sell cfg game hfreeze, h.cursor, ?_, h.wave, h.prewave⟩
      show 0 ≤ game.gold + 5
      have := h.gold
      omega
    · rcases find_path_cases cfg (game.grid.set game.cursor.x game.cursor.y
          (next_tower_type (game.grid game.cursor.x game.cursor.y))) hs
        with ⟨p, hp⟩ | ⟨hp, _⟩
      · exact ⟨_, key_ok_upgrade cfg game p hcell hnext hp, h.cursor, h.gold, h.wave,
          h.prewave⟩
      · exact ⟨game, key_ok_upgrade_reject cfg game [] hcell hnext hp, h⟩

theorem key_press_inv (cfg : Config) (game : GameState) (key : InputKey)
    (h : SessionInv cfg game) :
    ∃ game', on_key_press cfg game key = some game' ∧ SessionInv cfg game' := by
  have hc := h.cursor
  simp only [InBounds] at hc
  cases key with
  | InputKeyUp =>
    simp only [on_key_press]
    by_cases hk : game.cursor.y > 0
    · rw [if_pos hk]
      exact ⟨_, rfl, by simp only [InBounds]; omega, h.gold, h.wave, h.prewave⟩
    · rw [if_neg hk]
      exact ⟨_, rfl, h⟩
  | InputKeyDown =>
    simp only [on_key_press]
    by_cases hk : game.cursor.y < (cfg.GRID_HEIGHT : Int) - 1
    · rw [if_pos hk]
      exact ⟨_, rfl, by simp only [InBounds]; omega, h.gold, h.wave, h.prewave⟩
    · rw [if_neg hk]
      exact ⟨_, rfl, h⟩
  | InputKeyLeft =>
    simp only [on_key_press]
    by_cases hk : game.cursor.x > 0
    · rw [if_pos hk]
      exact ⟨_, rfl, by simp only [InBounds]; omega, h.gold, h.wave, h.prewave⟩
    · rw [if_neg hk]
      exact ⟨_, rfl, h⟩
  | InputKeyRight =>
    simp only [on_key_press]
    by_cases hk : game.cursor.x < (cfg.GRID_WIDTH : Int) - 1
    · rw [if_pos hk]
      exact ⟨_, rfl, by simp only [InBounds]; omega, h.gold, h.wave, h.prewave⟩
    · rw [if_neg hk]
      exact ⟨_, rfl, h⟩
  | InputKeyOk => exact key_ok_inv cfg game h
  | InputKeyBack => exact ⟨game, rfl, h⟩

theorem apply_step_inv (dsp : Display) (cfg : Config) (g : GameState) (step : GameStep)
    (hW : 0 < cfg.GRID_WIDTH) (hH : 0 < cfg.GRID_HEIGHT) (h : SessionInv cfg g) :
    ∃ g', apply_step dsp cfg g step = some g' ∧ SessionInv cfg g' := by
  cases step with
  | key_press key => exact key_press_inv cfg g key h
  | spawn => exact ⟨_, rfl, spawn_step_inv cfg g h⟩
  | enemies =>
    obtain ⟨g', hup, hfr⟩ := update_enemies_frame cfg g hW hH
    exact ⟨g', hup, h.of_frame hfr⟩
  | firing => exact ⟨_, rfl, h.of_frame (update_tower_firing_frame dsp cfg g)⟩
  | projectiles => exact ⟨_, rfl, h.of_frame (update_projectiles_frame dsp cfg g)⟩
  | rollover => exact ⟨_, rfl, wave_rollover_inv cfg g h⟩

theorem run_steps_inv (dsp : Display) (cfg : Config) (steps : List GameStep)
    (hW : 0 < cfg.GRID_WIDTH) (hH : 0 < cfg.GRID_HEIGHT) :
    ∀ g : GameState, SessionInv cfg g →
      ∃ g', run_steps dsp cfg steps g = some g' ∧ SessionInv cfg g' := by
  induction steps with
  | nil =>
    intro g h
    exact ⟨g, rfl, h⟩
  | cons step steps ih =>
    intro g h
    obtain ⟨g1, h1, hinv1⟩ := apply_step_inv dsp cfg g step hW hH h
    obtain ⟨g2, h2, hinv2⟩ := ih g1 hinv1
    refine ⟨g2, ?_, hinv2⟩
    simp only [run_steps, h1]
    exact h2

/-- The game logic updates up to `update_projectiles` always return, and after
the spawn step they leave cursor, wave number, spawn index and countdowns
alone. -/
theorem tick_updates_spec (dsp : Display) (cfg : Config) (g : GameState)
    (hW : 0 < cfg.GRID_WIDTH) (hH : 0 < cfg.GRID_HEIGHT) :
    ∃ g1, tick_updates dsp cfg g = some g1 ∧ TickFrame (spawn_step cfg g) g1 := by
  obtain ⟨g', hup, hfr⟩ := update_enemies_frame cfg (spawn_step cfg g) hW hH
  refine ⟨_, ?_, tickFrame_trans hfr (tickFrame_trans (update_tower_firing_frame dsp cfg g')
    (update_projectiles_frame dsp cfg _))⟩
  unfold tick_updates
  rw [hup]

theorem game_tick_inv (dsp : Display) (cfg : Config) (g : GameState)
    (hW : 0 < cfg.GRID_WIDTH) (hH : 0 < cfg.GRID_HEIGHT) (h : SessionInv cfg g) :
    ∃ g', game_tick dsp cfg g = some g' ∧ SessionInv cfg g' := by
  obtain ⟨g1, h1, hfr⟩ := tick_updates_spec dsp cfg g hW hH
  refine ⟨wave_rollover cfg g1, ?_, wave_rollover_inv cfg g1
    ((spawn_step_inv cfg g h).of_frame hfr)⟩
  unfold game_tick
  rw [h1]

theorem loop_iteration_inv (dsp : Display) (cfg : Config) (g : GameState)
    (event : Option InputKey)
    (hW : 0 < cfg.GRID_WIDTH) (hH : 0 < cfg.GRID_HEIGHT) (h : SessionInv cfg g) :
    ∃ g', loop_iteration dsp cfg g event = some g' ∧ SessionInv cfg g' := by
  cases event with
  | none => exact game_tick_inv dsp cfg g hW hH h
  | some key =>
    obtain ⟨g1, h1, hinv1⟩ := key_press_inv cfg g key h
    obtain ⟨g2, h2, hinv2⟩ := game_tick_inv dsp cfg g1 hW hH hinv1
    refine ⟨g2, ?_, hinv2⟩
    simp only [loop_iteration, h1]
    exact h2

theorem run_loop_inv (dsp : Display) (cfg : Config) (events : List (Option InputKey))
    (hW : 0 < cfg.GRID_WIDTH) (hH : 0 < cfg.GRID_HEIGHT) :
    ∀ g : GameState, SessionInv cfg g →
      ∃ g', run_loop dsp cfg events g = some g' ∧ SessionInv cfg g' := by
  induction events with
  | nil =>
    intro g h
    exact ⟨g, rfl, h⟩
  | cons event events ih =>
    intro g h
    obtain ⟨g1, h1, hinv1⟩ := loop_iteration_inv dsp cfg g event hW hH h
    obtain ⟨g2, h2, hinv2⟩ := ih g1 hinv1
    refine ⟨g2, ?_, hinv2⟩
    simp only [run_loop, h1]
    exact h2

/-- C13: the gold balance is never negative: `init_game_state` sets gold to
100, and in every state reached from it by any sequence of key presses
(confirm commands and cursor moves) and tick updates (spawn step,
`update_enemies`, `update_tower_firing`, `update_projectiles`, wave rollover),
taken one by one in any order or as iterations of the main loop, the run
returns and gold >= 0. -/
theorem gold_never_negative (dsp : Display) (cfg : Config) (memory : GameState)
    (hW : 0 < cfg.GRID_WIDTH) (hH : 0 < cfg.GRID_HEIGHT) :
    (init_game_state cfg memory).gold = 100 ∧
    (∀ steps : List GameStep, ∃ game,
      run_steps dsp cfg steps (init_game_state cfg memory) = some game ∧ 0 ≤ game.gold) ∧
    (∀ events : List (Option InputKey), ∃ game,
      run_loop dsp cfg events (init_game_state cfg memory) = some game ∧ 0 ≤ game.gold) := by
  have h0 := init_game_state_inv cfg memory hW hH
  refine ⟨rfl, ?_, ?_⟩
  · intro steps
    obtain ⟨g, hr, hinv⟩ := run_steps_inv dsp cfg steps hW hH _ h0
    exact ⟨g, hr, hinv.gold⟩
  · intro events
    obtain ⟨g, hr, hinv⟩ := run_loop_inv dsp cfg events hW hH _ h0
    exact ⟨g, hr, hinv.gold⟩

theorem gold_never_negative_witness :
    0 < wide_cfg.GRID_WIDTH ∧ 0 < wide_cfg.GRID_HEIGHT ∧
    ((init_game_state wide_cfg blank_game).gold = 100 ∧
    (∀ steps : List GameStep, ∃ game,
      run_steps sample_dsp wide_cfg steps (init_game_state wide_cfg blank_game) = some game ∧
      0 ≤ game.gold) ∧
    (∀ events : List (Option InputKey), ∃ game,
      run_loop sample_dsp wide_cfg events (init_game_state wide_cfg blank_game) = some game ∧
      0 ≤ game.gold)) :=
  ⟨by decide, by decide, gold_never_negative sample_dsp wide_cfg blank_game (by decide)
    (by decide)⟩

/-! ## Wave rollover -/

theorem all_enemies_inactive_iff (cfg : Config) (g : GameState) :
    all_enemies_inactive cfg g = true ↔
      ∀ i, i < cfg.MAX_ENEMIES → (g.enemies i).active = false := by
  unfold all_enemies_inactive
  rw [List.all_eq_true]
  constructor
  · intro h i hi
    have := h i (List.mem_range.2 hi)
    simpa using this
  · intro h i hi
    rw [h i (List.mem_range.1 hi)]
    rfl

theorem enemy_count_pos (MAX_ENEMIES : Nat) (wave : Int) (hM : 0 < MAX_ENEMIES)
    (hw : 1 ≤ wave) :
    0 < (get_wave_params exact_arithmetic MAX_ENEMIES wave).enemy_count := by
  simp only [get_wave_params, exact_arithmetic]
  split <;> omega

/-- During the pre-wave countdown of a state that satisfies the session
invariant, a tick leaves the wave number unchanged. -/
theorem game_tick_prewave (dsp : Display) (cfg : Config) (g : GameState)
    (hW : 0 < cfg.GRID_WIDTH) (hH : 0 < cfg.GRID_HEIGHT) (hM : 0 < cfg.MAX_ENEMIES)
    (h : SessionInv cfg g) (hpre : g.pre_wave_timer > 0) :
    ∃ g', game_tick dsp cfg g = some g' ∧ g'.wave = g.wave := by
  obtain ⟨g1, h1, hfr⟩ := tick_updates_spec dsp cfg g hW hH
  have hsp : spawn_step cfg g = { g with pre_wave_timer := g.pre_wave_timer - 1 } := by
    unfold spawn_step
    rw [if_pos hpre]
  have hwave : g1.wave = g.wave := by
    rw [hfr.wave, hsp]
  have hidx : g1.wave_spawn_index = 0 := by
    rw [hfr.wave_spawn_index, hsp]
    exact h.prewave hpre
  have hnot : ¬ wave_cleared cfg g1 := by
    intro hc
    have hpos := enemy_count_pos cfg.MAX_ENEMIES g1.wave hM (by rw [hwave]; exact h.wave)
    have := hc.1
    rw [hidx] at this
    omega
  refine ⟨g1, ?_, hwave⟩
  unfold game_tick
  rw [h1]
  simp only [wave_rollover, if_neg hnot]

/-- C19: in one tick of the game logic, the wave number is incremented (by
exactly 1, with `spawn_wave` resetting the spawn index to 0, the pre-wave
countdown to `PRE_WAVE_TICKS` and the spawn countdown to the new wave's
interval) if and only if at the end of the tick `wave_spawn_index` is at least
the wave's `enemy_count` and no enemy of the pool is active; otherwise the
wave number is unchanged.  In particular the wave does not advance while
enemies remain to be spawned at the end of the tick, nor, in a state reached
by the main loop from `init_game_state`, during the pre-wave countdown. -/
theorem wave_advances_iff_cleared (dsp : Display) (cfg : Config) (game : GameState)
    (hW : 0 < cfg.GRID_WIDTH) (hH : 0 < cfg.GRID_HEIGHT) (hM : 0 < cfg.MAX_ENEMIES) :
    (∃ game1 game', tick_updates dsp cfg game = some game1 ∧
      game_tick dsp cfg game = some game' ∧ game1.wave = game.wave ∧
      (wave_cleared cfg game1 ↔
        (game1.wave_spawn_index ≥ (get_wave_params exact_arithmetic cfg.MAX_ENEMIES game1.wave).enemy_count ∧
          ∀ i, i < cfg.MAX_ENEMIES → (game1.enemies i).active = false)) ∧
      (game'.wave = game.wave + 1 ↔ wave_cleared cfg game1) ∧
      (wave_cleared cfg game1 →
        game' = spawn_wave cfg { game1 with wave := game1.wave + 1 } ∧
        game'.wave_spawn_index = 0 ∧ game'.pre_wave_timer = cfg.PRE_WAVE_TICKS ∧
        game'.wave_spawn_timer
          = (get_wave_params exact_arithmetic cfg.MAX_ENEMIES (game.wave + 1)).spawn_interval_ticks) ∧
      (¬ wave_cleared cfg game1 → game' = game1 ∧ game'.wave = game.wave) ∧
      (game1.wave_spawn_index < (get_wave_params exact_arithmetic cfg.MAX_ENEMIES game1.wave).enemy_count →
        game'.wave = game.wave)) ∧
    (∀ (memory : GameState) (events : List (Option InputKey)) (reached : GameState),
      run_loop dsp cfg events (init_game_state cfg memory) = some reached →
      reached.pre_wave_timer > 0 →
      ∃ game', game_tick dsp cfg reached = some game' ∧ game'.wave = reached.wave) := by
  constructor
  · obtain ⟨g1, h1, hfr⟩ := tick_updates_spec dsp cfg game hW hH
    have hwave : g1.wave = game.wave := by
      rw [hfr.wave]
      unfold spawn_step
      split
      · rfl
      · simp only
        split
        · split <;> rfl
        · rfl
    have htick : game_tick dsp cfg game = some (wave_rollover cfg g1) := by
      unfold game_tick
      rw [h1]
    have hyes : wave_cleared cfg g1 →
        wave_rollover cfg g1 = spawn_wave cfg { g1 with wave := g1.wave + 1 } := by
      intro hc
      unfold wave_rollover
      rw [if_pos hc]
    have hno : ¬ wave_cleared cfg g1 → wave_rollover cfg g1 = g1 := by
      intro hc
      unfold wave_rollover
      rw [if_neg hc]
    refine ⟨g1, wave_rollover cfg g1, h1, htick, hwave, ?_, ?_, ?_, ?_, ?_⟩
    · unfold wave_cleared
      rw [all_enemies_inactive_iff]
    · constructor
      · intro hw
        by_contra hc
        rw [hno hc, hwave] at hw
        omega
      · intro hc
        rw [hyes hc, ← hwave]
        rfl
    · intro hc
      rw [hyes hc]
      refine ⟨rfl, rfl, rfl, ?_⟩
      rw [← hwave]
      rfl
    · intro hc
      rw [hno hc]
      exact ⟨rfl, hwave⟩
    · intro hlt
      have hc : ¬ wave_cleared cfg g1 := by
        intro hc
        have := hc.1
        omega
      rw [hno hc]
      exact hwave
  · intro memory events reached hrun hpre
    obtain ⟨g, hr, hinv⟩ := run_loop_inv dsp cfg events hW hH _
      (init_game_state_inv cfg memory hW hH)
    rw [hrun] at hr
    simp only [Option.some.injEq] at hr
    subst hr
    exact game_tick_prewave dsp cfg reached hW hH hM hinv hpre

theorem wave_advances_iff_cleared_witness :
    0 < small_cfg.GRID_WIDTH ∧ 0 < small_cfg.GRID_HEIGHT ∧ 0 < small_cfg.MAX_ENEMIES ∧
    ((∃ game1 game', tick_updates sample_dsp small_cfg cleared_game = some game1 ∧
      game_tick sample_dsp small_cfg cleared_game = some game' ∧
      game1.wave = cleared_game.wave ∧
      (wave_cleared small_cfg game1 ↔
        (game1.wave_spawn_index
            ≥ (get_wave_params exact_arithmetic small_cfg.MAX_ENEMIES game1.wave).enemy_count ∧
          ∀ i, i < small_cfg.MAX_ENEMIES → (game1.enemies i).active = false)) ∧
      (game'.wave = cleared_game.wave + 1 ↔ wave_cleared small_cfg game1) ∧
      (wave_cleared small_cfg game1 →
        game' = spawn_wave small_cfg { game1 with wave := game1.wave + 1 } ∧
        game'.wave_spawn_index = 0 ∧ game'.pre_wave_timer = small_cfg.PRE_WAVE_TICKS ∧
        game'.wave_spawn_timer
          = (get_wave_params exact_arithmetic small_cfg.MAX_ENEMIES
              (cleared_game.wave + 1)).spawn_interval_ticks) ∧
      (¬ wave_cleared small_cfg game1 → game' = game1 ∧ game'.wave = cleared_game.wave) ∧
      (game1.wave_spawn_index
          < (get_wave_params exact_arithmetic small_cfg.MAX_ENEMIES game1.wave).enemy_count →
        game'.wave = cleared_game.wave)) ∧
    (∀ (memory : GameState) (events : List (Option InputKey)) (reached : GameState),
      run_loop sample_dsp small_cfg events (init_game_state small_cfg memory) = some reached →
      reached.pre_wave_timer > 0 →
      ∃ game', game_tick sample_dsp small_cfg reached = some game' ∧
        game'.wave = reached.wave)) :=
  ⟨by decide, by decide, by decide,
    wave_advances_iff_cleared sample_dsp small_cfg cleared_game (by decide) (by decide)
      (by decide)⟩

/-- Evaluation of one tick on `cleared_game` (wave 1, all three enemies
spawned, none active): the wave number becomes 2, the spawn index 0, the
pre-wave countdown `PRE_WAVE_TICKS` and the spawn countdown 8. -/
theorem game_tick_rollover_example :
    Option.map (fun g => (g.wave, g.wave_spawn_index))
      (game_tick sample_dsp small_cfg cleared_game) = some (2, 0) ∧
    Option.map (fun g => (g.pre_wave_timer, g.wave_spawn_timer))
      (game_tick sample_dsp small_cfg cleared_game) = some (20, 8) := by
  decide!

/-! ## Array accesses of `find_path` -/

theorem in_array_idx {W H : Nat} {c : Coord} (hc : InBounds W H c) :
    in_array (W * H) (idx H c.x c.y) :=
  idx_range W H c hc

theorem visit_neighbour_checked_ok {W H : Nat} {grid : Grid} {start goal : Coord}
    {lev : Nat → Nat} {done : Nat} {cur : Coord} {ds : List (Int × Int)} {s : BfsState}
    (d : Int × Int) (hd : d ∈ directions)
    (h : ExpandInv W H grid start goal lev done cur ds s) :
    visit_neighbour_checked W H grid cur s d = Except.ok (visit_neighbour W H grid cur s d) := by
  obtain ⟨lev1, h1⟩ := visit_neighbour_inv d hd h
  have hrear := h1.base.rear_le
  unfold visit_neighbour at hrear ⊢
  unfold visit_neighbour_checked
  simp only at hrear ⊢
  by_cases hoob : cur.x + d.1 < 0 ∨ cur.x + d.1 ≥ (W : Int) ∨ cur.y + d.2 < 0 ∨
      cur.y + d.2 ≥ (H : Int)
  · rw [if_pos hoob, if_pos hoob]
  · rw [if_neg hoob, if_neg hoob]
    rw [if_neg hoob] at hrear
    have hin : InBounds W H ⟨cur.x + d.1, cur.y + d.2⟩ := by
      simp only [InBounds]
      omega
    have hidx : in_array (W * H) (idx H (cur.x + d.1) (cur.y + d.2)) := in_array_idx hin
    rw [if_neg (not_not.2 hidx)]
    by_cases hv : s.visited (idx H (cur.x + d.1) (cur.y + d.2)) = true
    · rw [if_pos hv]
      simp [hv]
    · rw [if_neg hv]
      have hxy : in_array W (cur.x + d.1) ∧ in_array H (cur.y + d.2) := by
        simp only [in_array]
        omega
      rw [if_neg (not_not.2 hxy)]
      have hvf : s.visited (idx H (cur.x + d.1) (cur.y + d.2)) = false := by
        simpa using hv
      by_cases hfree : grid (cur.x + d.1) (cur.y + d.2) = TOWER_NONE
      · rw [if_pos hfree]
        have hc : ((!s.visited (idx H (cur.x + d.1) (cur.y + d.2))) &&
            decide (grid (cur.x + d.1) (cur.y + d.2) = TOWER_NONE)) = true := by
          simp [hvf, hfree]
        rw [if_pos hc] at hrear ⊢
        simp only at hrear
        have hr : in_array (W * H) (s.rear : Int) := by
          simp only [in_array]
          omega
        rw [if_neg (not_not.2 hr)]
      · rw [if_neg hfree]
        have hc : ¬ ((!s.visited (idx H (cur.x + d.1) (cur.y + d.2))) &&
            decide (grid (cur.x + d.1) (cur.y + d.2) = TOWER_NONE)) = true := by
          simp [hfree]
        rw [if_neg hc]

theorem foldlM_visit_checked_ok {W H : Nat} {grid : Grid} {start goal : Coord} {done : Nat}
    {cur : Coord} (l : List (Int × Int)) (hl : ∀ d, d ∈ l → d ∈ directions) :
    ∀ (ds : List (Int × Int)) (s : BfsState) (lev : Nat → Nat),
      ExpandInv W H grid start goal lev done cur ds s →
      l.foldlM (visit_neighbour_checked W H grid cur) s
        = Except.ok (l.foldl (visit_neighbour W H grid cur) s) := by
  induction l with
  | nil =>
    intro ds s lev _
    rfl
  | cons d l ih =>
    intro ds s lev h
    obtain ⟨lev1, h1⟩ := visit_neighbour_inv d (hl d (List.mem_cons_self d l)) h
    rw [List.foldlM_cons, visit_neighbour_checked_ok d (hl d (List.mem_cons_self d l)) h]
    exact ih (fun e he => hl e (List.mem_cons_of_mem d he)) (d :: ds) _ lev1 h1

/-- Under the loop invariant the checked search loop makes no access outside
an array: it ends exactly as the plain loop does. -/
theorem bfs_loop_checked_ok (W H : Nat) (grid : Grid) (start goal : Coord) :
    ∀ (fuel : Nat) (s : BfsState) (lev : Nat → Nat),
      BfsInv W H grid start goal lev s.front s →
      bfs_loop_checked W H grid goal fuel s = checked_of (bfs_loop W H grid goal fuel s) := by
  intro fuel
  induction fuel with
  | zero =>
    intro s lev _
    rfl
  | succ fuel ih =>
    intro s lev h
    unfold bfs_loop bfs_loop_checked
    by_cases hlt : s.front < s.rear
    · rw [if_pos hlt, if_pos hlt]
      have hrear := h.rear_le
      have hf : in_array (W * H) (s.front : Int) := by
        simp only [in_array]
        omega
      rw [if_neg (not_not.2 hf)]
      simp only
      by_cases hg : (s.queue s.front).x = goal.x ∧ (s.queue s.front).y = goal.y
      · rw [if_pos hg, if_pos hg]
        rfl
      · rw [if_neg hg, if_neg hg]
        have hng : s.queue s.front ≠ goal := by
          intro heq
          apply hg
          rw [heq]
          exact ⟨rfl, rfl⟩
        have h0 : ExpandInv W H grid start goal lev s.front (s.queue s.front) []
            { s with front := s.front + 1 } := by
          refine ⟨?_, rfl, rfl, ?_⟩
          · exact
              { front_le := hlt
                done_le := Nat.le_succ _
                rear_pos := h.rear_pos
                q0 := h.q0
                inb := h.inb
                vis := h.vis
                inj := h.inj
                par0 := h.par0
                par := by
                  intro i hpos hi
                  obtain ⟨j, hji, hjf, hrest⟩ := h.par i hpos hi
                  exact ⟨j, hji, Nat.lt_succ_of_lt hjf, hrest⟩
                lev0 := h.lev0
                mono := h.mono
                closed := h.closed
                notgoal := h.notgoal }
          · intro d hd
            exact absurd hd (List.not_mem_nil _)
        have hexp : expand_checked W H grid (s.queue s.front) { s with front := s.front + 1 }
            = Except.ok (expand W H grid (s.queue s.front) { s with front := s.front + 1 }) :=
          foldlM_visit_checked_ok directions (fun _ hd => hd) [] _ lev h0
        rw [hexp]
        simp only
        obtain ⟨lev1, h1, hfront⟩ := expand_inv h hlt hng
        generalize expand W H grid (s.queue s.front) { s with front := s.front + 1 } = s2
          at h1 hfront
        rw [← hfront] at h1
        exact ih s2 lev1 h1
    · rw [if_neg hlt, if_neg hlt]
      rfl

/-- Following the parents from `queue[i]` meets queue entries of strictly
smaller index only: the cells written are pairwise different, at most `i + 1`
many, and the last one is the start. -/
theorem walk_parents_distinct {W H : Nat} {grid : Grid} {start goal : Coord} {lev : Nat → Nat}
    {done : Nat} {s : BfsState} (h : BfsInv W H grid start goal lev done s) :
    ∀ i, i < s.rear → ∀ fuel, i + 1 < fuel → ∀ (path : Nat → Coord) (count : Nat),
      ∃ l : List Coord,
        walk_parents H s.parent fuel (s.queue i) path count
          = some (write_list path count l, count + l.length) ∧
        0 < l.length ∧ l.length ≤ i + 1 ∧ l.getLast? = some start ∧ l.Nodup ∧
        (∀ c, c ∈ l → ∃ k, k ≤ i ∧ k < s.rear ∧ s.queue k = c) := by
  intro i
  induction i using Nat.strong_induction_on with
  | _ i ih =>
    intro hi fuel hfuel path count
    obtain ⟨f, rfl⟩ : ∃ f, fuel = f + 1 := ⟨fuel - 1, by omega⟩
    have hcond := inBounds_ne_sentinel (h.inb i hi)
    rw [walk_parents, if_pos hcond]
    rcases Nat.eq_zero_or_pos i with h0 | hpos
    · subst h0
      obtain ⟨f', rfl⟩ : ∃ f', f = f' + 1 := ⟨f - 1, by omega⟩
      rw [h.q0, h.par0, walk_parents]
      have hn : ¬ ((⟨-1, -1⟩ : Coord).x ≠ -1 ∧ (⟨-1, -1⟩ : Coord).y ≠ -1) := by simp
      rw [if_neg hn]
      refine ⟨[start], rfl, Nat.one_pos, Nat.le_refl _, rfl, List.nodup_singleton _, ?_⟩
      intro c hc
      rw [List.mem_singleton] at hc
      exact ⟨0, Nat.le_refl _, hi, by rw [h.q0, hc]⟩
    · obtain ⟨j, hji, _, hp, _, _⟩ := h.par i hpos hi
      rw [hp]
      obtain ⟨l, hw, hlpos, hlen, hlast, hnd, hmem⟩ :=
        ih j hji (by omega) f (by omega) (store path count (s.queue i)) (count + 1)
      refine ⟨s.queue i :: l, ?_, ?_, ?_, ?_, ?_, ?_⟩
      · rw [hw]
        simp only [write_list, List.length_cons]
        congr 2
        omega
      · simp
      · simp only [List.length_cons]
        omega
      · cases l with
        | nil => simp at hlpos
        | cons b l' =>
          rw [List.getLast?_cons_cons]
          exact hlast
      · rw [List.nodup_cons]
        refine ⟨?_, hnd⟩
        intro hin
        obtain ⟨k, hkj, hk, hq⟩ := hmem _ hin
        have := h.inj k i hk hi hq
        omega
      · intro c hc
        rcases List.mem_cons.1 hc with rfl | hc'
        · exact ⟨i, Nat.le_refl _, hi, rfl⟩
        · obtain ⟨k, hkj, hk, hq⟩ := hmem c hc'
          exact ⟨k, by omega, hk, hq⟩

/-- Under the loop invariant the checked parent walk from `queue[i]` makes no
access outside an array when `path` has room for `i + 1` more entries. -/
theorem walk_parents_checked_ok {W H path_size : Nat} {grid : Grid} {start goal : Coord}
    {lev : Nat → Nat} {done : Nat} {s : BfsState}
    (h : BfsInv W H grid start goal lev done s) :
    ∀ (fuel i : Nat), i < s.rear → ∀ (path : Nat → Coord) (count : Nat),
      count + i + 1 ≤ path_size →
      walk_parents_checked W H path_size s.parent fuel (s.queue i) path count
        = checked_of (walk_parents H s.parent fuel (s.queue i) path count) := by
  intro fuel
  induction fuel with
  | zero =>
    intro i _ path count _
    rfl
  | succ f ih =>
    intro i hi path count hroom
    have hcond := inBounds_ne_sentinel (h.inb i hi)
    rw [walk_parents, walk_parents_checked, if_pos hcond, if_pos hcond]
    have hc : in_array path_size (count : Int) := by
      simp only [in_array]
      omega
    rw [if_neg (not_not.2 hc), if_neg (not_not.2 (in_array_idx (h.inb i hi)))]
    rcases Nat.eq_zero_or_pos i with h0 | hpos
    · subst h0
      rw [h.q0, h.par0]
      cases f with
      | zero => rfl
      | succ f' =>
        rw [walk_parents, walk_parents_checked]
        have hn : ¬ ((⟨-1, -1⟩ : Coord).x ≠ -1 ∧ (⟨-1, -1⟩ : Coord).y ≠ -1) := by simp
        rw [if_neg hn, if_neg hn]
        rfl
    · obtain ⟨j, hji, _, hp, _, _⟩ := h.par i hpos hi
      rw [hp]
      exact ih j (by omega) _ _ (by omega)

theorem foldlM_swap_checked_ok (path_size count : Nat) (hcount : count ≤ path_size)
    (l : List Nat) (hl : ∀ i, i ∈ l → i < count / 2) :
    ∀ path : Nat → Coord,
      l.foldlM (swap_step_checked path_size count) path
        = Except.ok (l.foldl (swap_step count) path) := by
  induction l with
  | nil =>
    intro path
    rfl
  | cons i l ih =>
    intro path
    have hi := hl i (List.mem_cons_self i l)
    have hc : in_array path_size (i : Int) ∧
        in_array path_size ((count : Int) - (i : Int) - 1) := by
      simp only [in_array]
      omega
    rw [List.foldlM_cons, swap_step_checked, if_pos hc]
    exact ih (fun e he => hl e (List.mem_cons_of_mem i he)) _

/-- The checked reversal loop makes no access outside `path` when the `count`
entries to reverse fit into it. -/
theorem reverse_path_checked_ok (path_size count : Nat) (hcount : count ≤ path_size)
    (path : Nat → Coord) :
    reverse_path_checked path_size count path = Except.ok (reverse_path count path) :=
  foldlM_swap_checked_ok path_size count hcount (List.range (count / 2))
    (fun _ hi => List.mem_range.1 hi) path

/-- C21: for every grid and in-bounds start and goal (and an array `path` of at
least `GRID_WIDTH * GRID_HEIGHT` entries, as both callers pass), the search
loop of `find_path` ends with pairwise different cells in `queue[0 .. rear)`,
so every cell is enqueued at most once and the write index `rear` is at most
`GRID_WIDTH * GRID_HEIGHT`; when the goal is found, the parent walk from the
goal ends, its last written cell is the start, whose parent is the sentinel
`(-1, -1)`, and it writes between 1 and `GRID_WIDTH * GRID_HEIGHT` cells; the
run of `find_path` in which every array access is checked against the size of
its array ends without a fault and with the same result; and a returned path
has no repeated cell and at most `GRID_WIDTH * GRID_HEIGHT` entries. -/
theorem find_path_in_bounds (W H path_size : Nat) (grid : Grid) (start goal : Coord)
    (hs : InBounds W H start) (_hg : InBounds W H goal) (hcap : W * H ≤ path_size) :
    (∃ found s, bfs_loop W H grid goal (W * H + 1) (bfs_init H start) = some (found, s) ∧
      s.rear ≤ W * H ∧
      (∀ i j, i < s.rear → j < s.rear → s.queue i = s.queue j → i = j) ∧
      (found = true →
        ∃ path count, walk_parents H s.parent (W * H + 1) goal (fun _ => ⟨0, 0⟩) 0
            = some (path, count) ∧
          0 < count ∧ count ≤ W * H ∧ path (count - 1) = start ∧
          s.parent (idx H start.x start.y) = ⟨-1, -1⟩)) ∧
    (∃ r, find_path W H grid start goal = some r ∧
      find_path_checked W H path_size grid start goal = Except.ok r) ∧
    (∀ p, find_path W H grid start goal = some (true, p) →
      p.Nodup ∧ p.length ≤ W * H) := by
  have h0 := bfs_init_inv W H grid start goal hs
  have hchk := bfs_loop_checked_ok W H grid start goal (W * H + 1) (bfs_init H start)
    (fun _ => 0) h0
  obtain ⟨s', lev', hres⟩ :=
    bfs_loop_spec W H grid start goal (W * H + 1) (bfs_init H start) (fun _ => 0) h0
      (by show W * H < W * H + 1 + 0; omega)
  have hinit : bfs_init_checked W H start = Except.ok (bfs_init H start) := by
    have hi := in_array_idx hs
    have hz : in_array (W * H) 0 := by
      simp only [in_array] at hi ⊢
      omega
    unfold bfs_init_checked
    rw [if_pos ⟨hz, hi⟩]
  rcases hres with ⟨hbfs, g, hinv, hg, hqg⟩ | ⟨hbfs, hinv⟩
  · have hrear := hinv.rear_le
    obtain ⟨l, hw, hlpos, hlen, hlast, hnd, _⟩ :=
      walk_parents_distinct hinv g hg (W * H + 1) (by omega) (fun _ => ⟨0, 0⟩) 0
    have hwc : walk_parents_checked W H path_size s'.parent (W * H + 1) (s'.queue g)
        (fun _ => ⟨0, 0⟩) 0
        = checked_of (walk_parents H s'.parent (W * H + 1) (s'.queue g) (fun _ => ⟨0, 0⟩) 0) :=
      walk_parents_checked_ok hinv (W * H + 1) g hg (fun _ => ⟨0, 0⟩) 0 (by omega)
    rw [hqg] at hw hwc
    rw [hw] at hwc
    rw [hbfs] at hchk
    have hfp : find_path W H grid start goal = some (true, l.reverse) := by
      unfold find_path
      simp only [hbfs, hw, Nat.zero_add]
      rw [map_reverse_path, map_write_list]
    refine ⟨⟨true, s', hbfs, hrear, hinv.inj, fun _ => ⟨_, _, hw, ?_, ?_, ?_, hinv.par0⟩⟩,
      ⟨_, hfp, ?_⟩, ?_⟩
    · omega
    · omega
    · have hk : l.length - 1 < l.length := by omega
      have hget := write_list_get l (fun _ => ⟨0, 0⟩) 0 (l.length - 1) hk
      rw [Nat.zero_add] at hget ⊢
      rw [hget]
      have h1 : l.getLast? = some (l[l.length - 1]) := by
        rw [List.getLast?_eq_getElem?, List.getElem?_eq_getElem hk]
      rw [h1] at hlast
      exact Option.some.inj hlast
    · unfold find_path_checked
      simp only [hinit, hchk, checked_of, hwc, Nat.zero_add]
      rw [reverse_path_checked_ok path_size l.length (by omega)]
      simp only
      rw [map_reverse_path, map_write_list]
    · intro p hp
      rw [hfp] at hp
      simp only [Option.some.injEq, Prod.mk.injEq, true_and] at hp
      subst hp
      refine ⟨List.nodup_reverse.2 hnd, ?_⟩
      rw [List.length_reverse]
      omega
  · have hrear := hinv.rear_le
    have hfp : find_path W H grid start goal = some (false, []) := by
      unfold find_path
      simp only [hbfs]
    refine ⟨⟨false, s', hbfs, hrear, hinv.inj, fun hf => absurd hf Bool.false_ne_true⟩,
      ⟨_, hfp, ?_⟩, ?_⟩
    · rw [hbfs] at hchk
      unfold find_path_checked
      simp only [hinit, hchk, checked_of]
    · intro p hp
      rw [hfp] at hp
      simp at hp

theorem find_path_in_bounds_witness :
    InBounds 3 3 ⟨0, 0⟩ ∧ InBounds 3 3 ⟨2, 2⟩ ∧ 3 * 3 ≤ 9 ∧
    ((∃ found s, bfs_loop 3 3 wall_grid ⟨2, 2⟩ (3 * 3 + 1) (bfs_init 3 ⟨0, 0⟩)
        = some (found, s) ∧
      s.rear ≤ 3 * 3 ∧
      (∀ i j, i < s.rear → j < s.rear → s.queue i = s.queue j → i = j) ∧
      (found = true →
        ∃ path count, walk_parents 3 s.parent (3 * 3 + 1) ⟨2, 2⟩ (fun _ => ⟨0, 0⟩) 0
            = some (path, count) ∧
          0 < count ∧ count ≤ 3 * 3 ∧ path (count - 1) = ⟨0, 0⟩ ∧
          s.parent (idx 3 (⟨0, 0⟩ : Coord).x (⟨0, 0⟩ : Coord).y) = ⟨-1, -1⟩)) ∧
    (∃ r, find_path 3 3 wall_grid ⟨0, 0⟩ ⟨2, 2⟩ = some r ∧
      find_path_checked 3 3 9 wall_grid ⟨0, 0⟩ ⟨2, 2⟩ = Except.ok r) ∧
    (∀ p, find_path 3 3 wall_grid ⟨0, 0⟩ ⟨2, 2⟩ = some (true, p) →
      p.Nodup ∧ p.length ≤ 3 * 3)) :=
  ⟨by decide, by decide, by decide,
    find_path_in_bounds 3 3 9 wall_grid ⟨0, 0⟩ ⟨2, 2⟩ (by decide) (by decide) (by decide)⟩

/-- Evaluation of the checked run on `wall_grid`: with a `path` array of 9
entries it returns the route `wall_route`; with a `path` array of 4 entries the
fifth write `path[count++]` of the parent walk lies outside the array. -/
theorem find_path_checked_example :
    (find_path_checked 3 3 9 wall_grid ⟨0, 0⟩ ⟨2, 2⟩).toOption = some (true, wall_route) ∧
    fault_of (find_path_checked 3 3 9 wall_grid ⟨0, 0⟩ ⟨2, 2⟩) = none ∧
    fault_of (find_path_checked 3 3 4 wall_grid ⟨0, 0⟩ ⟨2, 2⟩) = some Fault.out_of_bounds := by
  decide

/-! ## Tower kinds and `find_path` -/

theorem visit_neighbour_congr {W H : Nat} {g g' : Grid}
    (hag : ∀ x y, g x y = TOWER_NONE ↔ g' x y = TOWER_NONE) :
    visit_neighbour W H g = visit_neighbour W H g' := by
  funext cur s d
  unfold visit_neighbour
  simp only [hag]

theorem bfs_loop_congr {W H : Nat} {g g' : Grid}
    (hag : ∀ x y, g x y = TOWER_NONE ↔ g' x y = TOWER_NONE) (goal : Coord) :
    ∀ (fuel : Nat) (s : BfsState),
      bfs_loop W H g goal fuel s = bfs_loop W H g' goal fuel s := by
  intro fuel
  induction fuel with
  | zero =>
    intro s
    rfl
  | succ fuel ih =>
    intro s
    unfold bfs_loop expand
    rw [visit_neighbour_congr hag]
    simp only [ih]

/-- The result of `find_path` depends on the grid only through which cells
hold `TOWER_NONE`. -/
theorem find_path_congr {W H : Nat} {g g' : Grid}
    (hag : ∀ x y, g x y = TOWER_NONE ↔ g' x y = TOWER_NONE) (start goal : Coord) :
    find_path W H g start goal = find_path W H g' start goal := by
  unfold find_path
  simp only
  rw [bfs_loop_congr hag goal (W * H + 1) (bfs_init H start)]

/-- C22: for every grid and every occupied cursor cell whose next tower kind is
not `TOWER_NONE` (the cell holds `TOWER_NORMAL`, `TOWER_RANGE` or
`TOWER_SPLASH`), replacing the cell's kind by the next kind does not change
what `find_path` returns, for any start and goal.  Hence in a state where
`find_path` from the fixed start to the fixed goal returns `true`, the confirm
command on such a cell re-validates successfully: the result is the state with
the upgraded cell and not the rolled-back state. -/
theorem upgrade_keeps_find_path (cfg : Config) (game : GameState)
    (hocc : game.grid game.cursor.x game.cursor.y ≠ TOWER_NONE)
    (hnext : next_tower_type (game.grid game.cursor.x game.cursor.y) ≠ TOWER_NONE) :
    (game.grid game.cursor.x game.cursor.y = TOWER_NORMAL ∨
      game.grid game.cursor.x game.cursor.y = TOWER_RANGE ∨
      game.grid game.cursor.x game.cursor.y = TOWER_SPLASH) ∧
    (∀ (W H : Nat) (start goal : Coord),
      find_path W H
          (game.grid.set game.cursor.x game.cursor.y
            (next_tower_type (game.grid game.cursor.x game.cursor.y))) start goal
        = find_path W H game.grid start goal) ∧
    (PathExists cfg game.grid →
      on_input_key_ok cfg game = some
        { game with
          grid := game.grid.set game.cursor.x game.cursor.y
            (next_tower_type (game.grid game.cursor.x game.cursor.y)) } ∧
      on_input_key_ok cfg game ≠ some game) := by
  have hag : ∀ x y,
      game.grid.set game.cursor.x game.cursor.y
          (next_tower_type (game.grid game.cursor.x game.cursor.y)) x y = TOWER_NONE ↔
        game.grid x y = TOWER_NONE := by
    intro x y
    by_cases hxy : x = game.cursor.x ∧ y = game.cursor.y
    · rw [hxy.1, hxy.2, Grid.set_same]
      exact ⟨fun h => absurd h hnext, fun h => absurd h hocc⟩
    · rw [Grid.set_ne _ _ _ _ _ _ hxy]
  have hsame : ∀ (W H : Nat) (start goal : Coord),
      find_path W H
          (game.grid.set game.cursor.x game.cursor.y
            (next_tower_type (game.grid game.cursor.x game.cursor.y))) start goal
        = find_path W H game.grid start goal :=
    fun W H start goal => find_path_congr hag start goal
  refine ⟨?_, hsame, ?_⟩
  · cases hk : game.grid game.cursor.x game.cursor.y with
    | TOWER_NONE => exact absurd hk hocc
    | TOWER_NORMAL => exact Or.inl rfl
    | TOWER_RANGE => exact Or.inr (Or.inl rfl)
    | TOWER_SPLASH => exact Or.inr (Or.inr rfl)
    | TOWER_FREEZE =>
      rw [hk] at hnext
      exact absurd rfl hnext
  · intro hpath
    obtain ⟨p, hp⟩ := (pathExists_iff cfg game.grid).1 hpath
    rw [← hsame] at hp
    have hres := key_ok_upgrade cfg game p hocc hnext hp
    refine ⟨hres, ?_⟩
    rw [hres]
    intro heq
    have hgrid := congrArg (fun g => g.grid game.cursor.x game.cursor.y)
      (Option.some.inj heq)
    simp only [Grid.set_same] at hgrid
    revert hgrid
    cases game.grid game.cursor.x game.cursor.y <;> simp [next_tower_type]

theorem upgrade_keeps_find_path_witness :
    (wall_game ⟨1, 0⟩ 0).grid (wall_game ⟨1, 0⟩ 0).cursor.x (wall_game ⟨1, 0⟩ 0).cursor.y
      ≠ TOWER_NONE ∧
    next_tower_type ((wall_game ⟨1, 0⟩ 0).grid (wall_game ⟨1, 0⟩ 0).cursor.x
      (wall_game ⟨1, 0⟩ 0).cursor.y) ≠ TOWER_NONE ∧
    PathExists small_cfg (wall_game ⟨1, 0⟩ 0).grid ∧
    (((wall_game ⟨1, 0⟩ 0).grid (wall_game ⟨1, 0⟩ 0).cursor.x (wall_game ⟨1, 0⟩ 0).cursor.y
        = TOWER_NORMAL ∨
      (wall_game ⟨1, 0⟩ 0).grid (wall_game ⟨1, 0⟩ 0).cursor.x (wall_game ⟨1, 0⟩ 0).cursor.y
        = TOWER_RANGE ∨
      (wall_game ⟨1, 0⟩ 0).grid (wall_game ⟨1, 0⟩ 0).cursor.x (wall_game ⟨1, 0⟩ 0).cursor.y
        = TOWER_SPLASH) ∧
    (∀ (W H : Nat) (start goal : Coord),
      find_path W H
          ((wall_game ⟨1, 0⟩ 0).grid.set (wall_game ⟨1, 0⟩ 0).cursor.x
            (wall_game ⟨1, 0⟩ 0).cursor.y
            (next_tower_type ((wall_game ⟨1, 0⟩ 0).grid (wall_game ⟨1, 0⟩ 0).cursor.x
              (wall_game ⟨1, 0⟩ 0).cursor.y))) start goal
        = find_path W H (wall_game ⟨1, 0⟩ 0).grid start goal) ∧
    (PathExists small_cfg (wall_game ⟨1, 0⟩ 0).grid →
      on_input_key_ok small_cfg (wall_game ⟨1, 0⟩ 0) = some
        { wall_game ⟨1, 0⟩ 0 with
          grid := (wall_game ⟨1, 0⟩ 0).grid.set (wall_game ⟨1, 0⟩ 0).cursor.x
            (wall_game ⟨1, 0⟩ 0).cursor.y
            (next_tower_type ((wall_game ⟨1, 0⟩ 0).grid (wall_game ⟨1, 0⟩ 0).cursor.x
              (wall_game ⟨1, 0⟩ 0).cursor.y)) } ∧
      on_input_key_ok small_cfg (wall_game ⟨1, 0⟩ 0) ≠ some (wall_game ⟨1, 0⟩ 0))) :=
  ⟨by decide, by decide, by decide,
    upgrade_keeps_find_path small_cfg (wall_game ⟨1, 0⟩ 0) (by decide) (by decide)⟩

/-- Evaluation of the confirm command on `wall_grid` with the cursor on the
`TOWER_NORMAL` of the cell `(1, 0)`: the cell becomes `TOWER_RANGE`, the gold
balance is unchanged, and `find_path` returns the same route before and after. -/
theorem upgrade_example :
    Option.map (fun g => (g.grid 1 0, g.gold)) (on_input_key_ok small_cfg (wall_game ⟨1, 0⟩ 7))
      = some (TOWER_RANGE, 7) ∧
    find_path 3 3 (wall_grid.set 1 0 TOWER_RANGE) ⟨0, 0⟩ ⟨2, 2⟩ = some (true, wall_route) ∧
    find_path 3 3 wall_grid ⟨0, 0⟩ ⟨2, 2⟩ = some (true, wall_route) := by
  decide

end FlipperTD
